import Mathlib

/-!
Verification development for the `stm32cubemonitor-elfparser` package
(`src/gdbInfoDecoder.ts` and `src/index.ts`).

The TypeScript sources are shallowly embedded: JavaScript strings are
modelled as `List Char` (called `JSStr`), JavaScript array/object state is
passed explicitly, and the handful of JavaScript built-ins the code uses
(`indexOf`, `lastIndexOf`, `substring`, `slice`, `trim`, `replace` with the
specific regexes appearing in the source, `parseInt`, `Number`,
`toString(16)`, `padStart`) are given executable definitions that follow the
ECMAScript semantics on the fragments the program exercises.  Fallible or
position-valued built-ins keep the JavaScript `-1` sentinel convention via
`Int` results where the source compares against `-1`.
-/

/-! ### JavaScript string primitives -/

/-- JavaScript strings are modelled as lists of characters. -/
abbrev JSStr := List Char

/-- Shorthand turning a Lean string literal into the model type. -/
def jstr (s : String) : JSStr := s.toList

/-- Smallest index `i` (with `i ≤ s.length`) such that `pat` occurs in `s`
starting at `i`; `none` when there is no occurrence.  This is the engine
behind JavaScript `String.prototype.indexOf`. -/
def strFind (pat : JSStr) : JSStr → Option Nat
  | [] => if List.isPrefixOf pat [] then some 0 else none
  | c :: t =>
    if List.isPrefixOf pat (c :: t) then some 0
    else (strFind pat t).map (· + 1)

/-- Largest index `i` (with `i ≤ s.length`) such that `pat` occurs in `s`
starting at `i`.  Engine behind JavaScript `lastIndexOf`. -/
def strFindLast (pat : JSStr) : JSStr → Option Nat
  | [] => if List.isPrefixOf pat [] then some 0 else none
  | c :: t =>
    match strFindLast pat t with
    | some j => some (j + 1)
    | none => if List.isPrefixOf pat (c :: t) then some 0 else none

/-- Largest index `i ≤ pos` such that `pat` occurs in `s` at `i`
(JavaScript `lastIndexOf(pat, pos)`; the match may extend past `pos`). -/
def strFindLastFrom (pat : JSStr) : JSStr → Nat → Option Nat
  | s, 0 => if List.isPrefixOf pat s then some 0 else none
  | [], _ + 1 => if List.isPrefixOf pat [] then some 0 else none
  | c :: t, pos + 1 =>
    match strFindLastFrom pat t pos with
    | some j => some (j + 1)
    | none => if List.isPrefixOf pat (c :: t) then some 0 else none

/-- Smallest index `i ≥ min pos s.length` of an occurrence of `pat`
(JavaScript `indexOf(pat, pos)`). -/
def strFindFrom (pat s : JSStr) (pos : Nat) : Option Nat :=
  let k := min pos s.length
  (strFind pat (s.drop k)).map (· + k)

/-- JavaScript `s.indexOf(pat)`: index of the first occurrence or `-1`. -/
def jsIndexOf (s pat : JSStr) : Int :=
  match strFind pat s with
  | some i => (i : Int)
  | none => -1

/-- JavaScript `s.indexOf(pat, pos)` (a negative position behaves like 0). -/
def jsIndexOfFrom (s pat : JSStr) (pos : Int) : Int :=
  match strFindFrom pat s pos.toNat with
  | some i => (i : Int)
  | none => -1

/-- JavaScript `s.lastIndexOf(pat)`: index of the last occurrence or `-1`. -/
def jsLastIndexOf (s pat : JSStr) : Int :=
  match strFindLast pat s with
  | some i => (i : Int)
  | none => -1

/-- JavaScript `s.lastIndexOf(pat, pos)` (a negative position behaves like 0). -/
def jsLastIndexOfFrom (s pat : JSStr) (pos : Int) : Int :=
  match strFindLastFrom pat s pos.toNat with
  | some i => (i : Int)
  | none => -1

/-- JavaScript `s.substring(a, b)`: both indices are clamped into
`[0, s.length]` and swapped when `a > b`. -/
def jsSubstring (s : JSStr) (a b : Int) : JSStr :=
  let n : Int := s.length
  let a' := max 0 (min a n)
  let b' := max 0 (min b n)
  let lo := min a' b'
  let hi := max a' b'
  (s.take hi.toNat).drop lo.toNat

/-- JavaScript `s.substring(a)` (one-argument form). -/
def jsSubstringFrom (s : JSStr) (a : Int) : JSStr :=
  jsSubstring s a s.length

/-- JavaScript `s.slice(a, b)`: negative indices count from the end, the
result is empty when the resolved start is not before the resolved end. -/
def jsSlice (s : JSStr) (a b : Int) : JSStr :=
  let n : Int := s.length
  let a' := if a < 0 then max 0 (n + a) else min a n
  let b' := if b < 0 then max 0 (n + b) else min b n
  (s.take b'.toNat).drop a'.toNat

/-- JavaScript `s.slice(a)` (one-argument form). -/
def jsSliceFrom (s : JSStr) (a : Int) : JSStr :=
  jsSlice s a s.length

/-- The JavaScript whitespace characters that occur in this code base's data
(`trim`, `\s` and `parseInt` leading-space handling). -/
def jsIsWhitespace (c : Char) : Bool :=
  c = ' ' || c = '\t' || c = '\n' || c = '\r' || c = '\x0b' || c = '\x0c'

/-- JavaScript `s.trim()`. -/
def jsTrim (s : JSStr) : JSStr :=
  List.reverse (List.dropWhile jsIsWhitespace (List.reverse (List.dropWhile jsIsWhitespace s)))

/-- JavaScript `s.startsWith(pat)`. -/
def jsStartsWith (s pat : JSStr) : Bool :=
  List.isPrefixOf pat s

/-- JavaScript `s.includes(pat)`. -/
def jsIncludes (s pat : JSStr) : Bool :=
  (strFind pat s).isSome

/-- JavaScript `s.replace(/c/g, r)` for a single-character pattern `c`
(used for the `/\[/g` and `/\]/g` replacements in `postProcessArraysInfo`). -/
def jsReplaceAllChar (s : JSStr) (c : Char) (r : JSStr) : JSStr :=
  s.flatMap (fun d => if d = c then r else [d])

/-- Decimal digit test used by the embedded regexes (`\d`). -/
def isDigitChar (c : Char) : Bool :=
  '0' ≤ c && c ≤ '9'

/-- JavaScript `parseInt(s, 10)`: skip leading whitespace, read an optional
sign and then a maximal run of decimal digits; `none` models `NaN`. -/
def parseIntJS (s : JSStr) : Option Int :=
  let t := s.dropWhile jsIsWhitespace
  let signAndRest : Int × JSStr :=
    match t with
    | '-' :: r => (-1, r)
    | '+' :: r => (1, r)
    | r => (1, r)
  let ds := signAndRest.2.takeWhile isDigitChar
  if ds = [] then none
  else some (signAndRest.1 * ((ds.foldl (fun a d => a * 10 + (d.toNat - '0'.toNat)) 0 : Nat) : Int))

/-- Rendering of a JavaScript number in string interpolation, for the integral
values (and `NaN`, modelled by `none`) this program produces. -/
def jsNumToStr (v : Option Int) : JSStr :=
  match v with
  | none => jstr "NaN"
  | some i => if i < 0 then '-' :: Nat.toDigits 10 i.natAbs else Nat.toDigits 10 i.toNat

/-- JavaScript `Number.prototype.toString(16)` for the integral values (and
`NaN`) this program produces; `Nat.toDigits 16` yields lowercase digits. -/
def jsToHexString (v : Option Int) : JSStr :=
  match v with
  | none => jstr "NaN"
  | some i => if i < 0 then '-' :: Nat.toDigits 16 i.natAbs else Nat.toDigits 16 i.toNat

/-- JavaScript `s.padStart(n, c)`. -/
def jsPadStart (s : JSStr) (n : Nat) (c : Char) : JSStr :=
  List.replicate (n - s.length) c ++ s

/-- Value of one hexadecimal digit. -/
def hexDigitVal (c : Char) : Option Nat :=
  let v := c.toNat
  if 48 ≤ v ∧ v ≤ 57 then some (v - 48)
  else if 97 ≤ v ∧ v ≤ 102 then some (v - 87)
  else if 65 ≤ v ∧ v ≤ 70 then some (v - 55)
  else none

/-- Fold a list of hex digits into a value (`none` when a non-digit occurs). -/
def hexVal : JSStr → Option Nat → Option Nat
  | [], acc => acc
  | c :: t, acc =>
    match acc, hexDigitVal c with
    | some a, some d => hexVal t (some (a * 16 + d))
    | _, _ => none

/-- Model of the JavaScript `Number(string)` conversion restricted to the
integral numeric strings this program feeds it (the `0x…` addresses printed
by the debugger, plain decimal strings and the empty string); every other
string is mapped to `none`, modelling `NaN`.  Fractional or exponent forms
are outside the scope of this model — the program only converts addresses. -/
def jsNumberParse (s : JSStr) : Option Int :=
  let t := jsTrim s
  if t = [] then some 0
  else
    match t with
    | '0' :: 'x' :: r => if r = [] then none else (hexVal r (some 0)).map Int.ofNat
    | '0' :: 'X' :: r => if r = [] then none else (hexVal r (some 0)).map Int.ofNat
    | _ =>
      let signAndRest : Int × JSStr :=
        match t with
        | '-' :: r => (-1, r)
        | '+' :: r => (1, r)
        | r => (1, r)
      if signAndRest.2 ≠ [] ∧ signAndRest.2.all (fun c => isDigitChar c) then
        some (signAndRest.1 * ((signAndRest.2.foldl (fun a d => a * 10 + (d.toNat - '0'.toNat)) 0 : Nat) : Int))
      else none

/-! ### `gdbInfoDecoder.ts` — type values and small services -/

namespace TYPE_VALUE

/-- `TYPE_VALUE.UNSIGNED_8` of the source enum. -/
def UNSIGNED_8 : Int := 1

/-- `TYPE_VALUE.SIGNED_8` of the source enum. -/
def SIGNED_8 : Int := 2

/-- `TYPE_VALUE.UNSIGNED_16` of the source enum. -/
def UNSIGNED_16 : Int := 3

/-- `TYPE_VALUE.SIGNED_16` of the source enum. -/
def SIGNED_16 : Int := 4

/-- `TYPE_VALUE.UNSIGNED_32` of the source enum. -/
def UNSIGNED_32 : Int := 5

/-- `TYPE_VALUE.SIGNED_32` of the source enum. -/
def SIGNED_32 : Int := 6

/-- `TYPE_VALUE.UNSIGNED_64` of the source enum. -/
def UNSIGNED_64 : Int := 7

/-- `TYPE_VALUE.SIGNED_64` of the source enum. -/
def SIGNED_64 : Int := 8

/-- `TYPE_VALUE.FLOAT` of the source enum. -/
def FLOAT : Int := 9

/-- `TYPE_VALUE.DOUBLE` of the source enum. -/
def DOUBLE : Int := 10

end TYPE_VALUE

/-- The values of the `TYPE_VALUE` enum — the recognized storage kinds. -/
def isRecognizedTypeValue (v : Int) : Bool :=
  1 ≤ v && v ≤ 10

/-- `checkClassRecursion` of `gdbInfoDecoder.ts`: a class name is considered
recursive when it occurs anywhere in the hierarchy string
(`classHierarchy.indexOf(className) !== -1`). -/
def checkClassRecursion (classHierarchy className : JSStr) : Bool :=
  jsIndexOf classHierarchy className != -1

/-- One iteration of the marker-stripping `while` loops of
`removeStorageClassSpecifier` and `removeScopeClassSpecifier`: each marker is
tried in order on the string left by the previous test, and the flag records
whether any marker was stripped (in the source this is the sequence of
`startsWith`/`substring` statements setting `bStorageClassFound` /
`bScopeClassFound`). -/
def stripMarkersOnce (markers : List JSStr) (s : JSStr) : JSStr × Bool :=
  markers.foldl
    (fun acc m => if jsStartsWith acc.1 m then (acc.1.drop m.length, true) else acc)
    (s, false)

/-- The four storage-class markers of `removeStorageClassSpecifier`,
in source order. -/
def storageMarkers : List JSStr :=
  [jstr "extern ", jstr "static ", jstr "volatile ", jstr "const "]

/-- The `while (bStorageClassFound)` / `while (bScopeClassFound)` loops of
`removeStorageClassSpecifier` and `removeScopeClassSpecifier`, fuelled so
that the definition stays kernel-computable: by `stripMarkersOnce_length`
every flagged iteration strictly shortens the string, so the `s.length + 1`
budget supplied by the wrappers can never run out and the fuel-exhaustion
fallback (returning the current string) is unreachable. -/
def stripMarkersLoop (markers : List JSStr) : Nat → JSStr → JSStr
  | 0, s => s
  | fuel + 1, s =>
    let r := stripMarkersOnce markers s
    if r.2 = true then stripMarkersLoop markers fuel r.1 else r.1

/-- `removeStorageClassSpecifier` of `gdbInfoDecoder.ts`: repeatedly strip
any leading storage-class marker until none applies. -/
def removeStorageClassSpecifier (s : JSStr) : JSStr :=
  stripMarkersLoop storageMarkers (s.length + 1) s

/-- The three scope markers of `removeScopeClassSpecifier`, in source order
(the source's `Array.prototype.some` callback returns `undefined`, so every
marker is tried on each loop iteration, exactly like the storage loop). -/
def scopeMarkers : List JSStr :=
  [jstr "public ", jstr "protected ", jstr "private "]

/-- `removeScopeClassSpecifier` of `gdbInfoDecoder.ts`. -/
def removeScopeClassSpecifier (s : JSStr) : JSStr :=
  stripMarkersLoop scopeMarkers (s.length + 1) s

/-- Extraction of the measured size from a `p sizeof` reply, as performed at
the top of `computeTypeValue`: `size.substring(size.indexOf("= ") + 2).trim()`. -/
def sizeOfReply (size : JSStr) : JSStr :=
  jsTrim (jsSubstring size (jsIndexOf size (jstr "= ") + 2) size.length)

/-- `computeTypeValue` of `gdbInfoDecoder.ts`: classify a resolved type
string together with the measured size into a `TYPE_VALUE` code, `-1` being
the "unrecognized" sentinel of the source's `default` branch. -/
def computeTypeValue (expr size : JSStr) : Int :=
  let tmpSize := sizeOfReply size
  let tmpStr := removeStorageClassSpecifier (jsTrim expr)
  if jsLastIndexOf tmpStr (jstr "*") != -1 then
    -- pointers are managed independently of the pointed-to type
    let tv : Int := TYPE_VALUE.UNSIGNED_16
    let tv := if tmpSize = jstr "1" then TYPE_VALUE.UNSIGNED_8 else tv
    let tv := if tmpSize = jstr "4" then TYPE_VALUE.UNSIGNED_32 else tv
    tv
  else if jsStartsWith tmpStr (jstr "enum") then
    let tv : Int := TYPE_VALUE.SIGNED_16
    let tv := if tmpSize = jstr "1" then TYPE_VALUE.SIGNED_8 else tv
    tv
  else if tmpStr = jstr "unsigned char" ∨ tmpStr = jstr "_Bool" then
    TYPE_VALUE.UNSIGNED_8
  else if tmpStr = jstr "char" ∨ tmpStr = jstr "signed char" then
    TYPE_VALUE.SIGNED_8
  else if tmpStr = jstr "unsigned short" ∨ tmpStr = jstr "unsigned short int" ∨
      tmpStr = jstr "short unsigned int" then
    TYPE_VALUE.UNSIGNED_16
  else if tmpStr = jstr "short" ∨ tmpStr = jstr "short int" ∨ tmpStr = jstr "signed short" ∨
      tmpStr = jstr "signed short int" ∨ tmpStr = jstr "short signed int" then
    TYPE_VALUE.SIGNED_16
  else if tmpStr = jstr "unsigned int" then
    if tmpSize = jstr "2" then TYPE_VALUE.UNSIGNED_16 else TYPE_VALUE.UNSIGNED_32
  else if tmpStr = jstr "int" ∨ tmpStr = jstr "signed int" then
    if tmpSize = jstr "2" then TYPE_VALUE.SIGNED_16 else TYPE_VALUE.SIGNED_32
  else if tmpStr = jstr "unsigned long" ∨ tmpStr = jstr "unsigned long int" ∨
      tmpStr = jstr "long unsigned int" then
    TYPE_VALUE.UNSIGNED_32
  else if tmpStr = jstr "long" ∨ tmpStr = jstr "long int" ∨ tmpStr = jstr "signed long" ∨
      tmpStr = jstr "signed long int" ∨ tmpStr = jstr "long signed int" then
    TYPE_VALUE.SIGNED_32
  else if tmpStr = jstr "unsigned long long" ∨ tmpStr = jstr "unsigned long long int" ∨
      tmpStr = jstr "long long unsigned int" then
    TYPE_VALUE.UNSIGNED_64
  else if tmpStr = jstr "long long" ∨ tmpStr = jstr "long long int" ∨
      tmpStr = jstr "signed long long" ∨ tmpStr = jstr "signed long long int" ∨
      tmpStr = jstr "long long signed int" then
    TYPE_VALUE.SIGNED_64
  else if tmpStr = jstr "float" then
    TYPE_VALUE.FLOAT
  else if tmpStr = jstr "double" ∨ tmpStr = jstr "long double" then
    TYPE_VALUE.DOUBLE
  else
    -1

/-- `extractAddress` of `gdbInfoDecoder.ts`: the text after the `"= "` marker,
or the empty string when the marker is absent. -/
def extractAddress (expr : JSStr) : JSStr :=
  match strFind (jstr "= ") expr with
  | some pos => jsSubstring expr ((pos : Int) + 2) expr.length
  | none => jstr ""

/-! ### `gdbInfoDecoder.ts` — brace matching and the declaration-list parser -/

/-- The loop of `getMatchingClosingBrace`.  Arguments mirror the mutable
locals `nbOpen`, `nextOpen` and `nextClose`.  The loop terminates because
every iteration either advances `nextOpen` (at most once per `{` of the
block) or decrements `nbOpen`; the fuel passed by `getMatchingClosingBrace`
(`block.length + 1`) therefore never runs out on any input, and the `-1`
returned on exhaustion is unreachable. -/
def gmcbLoop (block : JSStr) : Nat → Nat → Int → Int → Int
  | 0, _, _, _ => -1
  | fuel + 1, nbOpen, nextOpen, nextClose =>
    if nextClose = -1 then -1
    else
      let oc : Nat × Int :=
        if nextOpen != -1 ∧ nextOpen < nextClose then
          (nbOpen + 1, jsIndexOfFrom block (jstr "\x7b") (nextOpen + 1))
        else (nbOpen, nextOpen)
      let nb := oc.1 - 1
      if nb = 0 then nextClose
      else gmcbLoop block fuel nb oc.2 (jsIndexOfFrom block (jstr "\x7d") (nextClose + 1))

/-- `getMatchingClosingBrace` of `gdbInfoDecoder.ts`: `0` when the block has
no `{`, otherwise the index of the closing brace matching the first `{`, or
`-1` when it is unmatched. -/
def getMatchingClosingBrace (block : JSStr) : Int :=
  match strFind (jstr "\x7b") block with
  | none => 0
  | some firstOpenBrace =>
    gmcbLoop block (block.length + 1) 1
      (jsIndexOfFrom block (jstr "\x7b") ((firstOpenBrace : Int) + 1))
      (jsIndexOfFrom block (jstr "\x7d") ((firstOpenBrace : Int) + 1))

/-- Match of the regex `\s*(public:|private:|protected:)` at the start of
`s`: the `\s*` is forced to end exactly where a keyword starts (the keywords
begin with a non-space character), so the match length is the whitespace run
plus the keyword length. -/
def matchAccessAt (s : JSStr) : Option Nat :=
  let k := (s.takeWhile jsIsWhitespace).length
  match List.find? (fun kw => jsStartsWith (s.drop k) kw)
      [jstr "public:", jstr "private:", jstr "protected:"] with
  | some kw => some (k + kw.length)
  | none => none

/-- `expr.replace(/\s*(public:|private:|protected:)/g, "")`: left-to-right
global replacement by the empty string.  A successful match always has
positive length (the keyword part is non-empty), so dropping
`matchAccessAt (c :: t) - 1` characters of `t` drops the whole match. -/
def stripAccessGo : Nat → JSStr → JSStr
  | 0, s => s
  | _ + 1, [] => []
  | fuel + 1, c :: t =>
    match matchAccessAt (c :: t) with
    | some n => stripAccessGo fuel (t.drop (n - 1))
    | none => c :: stripAccessGo fuel t

/-- Wrapper supplying the fuel: every step of `stripAccessGo` consumes at
least one character of the string, so `s.length + 1` never runs out. -/
def stripAccessSpecifiers (s : JSStr) : JSStr :=
  stripAccessGo (s.length + 1) s

/-- Match of the regex `\d+:` at the start of `s`: a maximal digit run
directly followed by `:` (no shorter run can be followed by `:` since the
given-back characters are digits), yielding the match length. -/
def matchLineNumAt (s : JSStr) : Option Nat :=
  let ds := s.takeWhile isDigitChar
  if ds = [] then none
  else
    match s.drop ds.length with
    | ':' :: _ => some (ds.length + 1)
    | _ => none

/-- `tmpStr.replace(/\d+:/, "")`: remove the first (leftmost) match only. -/
def stripLineNumber : JSStr → JSStr
  | [] => []
  | c :: t =>
    match matchLineNumAt (c :: t) with
    | some n => t.drop (n - 1)
    | none => c :: stripLineNumber t

/-- `extractIdentifiers` of `gdbInfoDecoder.ts`: extract the identifier(s)
declared by one expression.  Rejection cases store the empty string in
`identifiers[0]`, exactly as the source does. -/
def extractIdentifiers (expr rootIdentifier : JSStr) (bExpandTableElements : Bool) : List JSStr :=
  let tmpStr := jsTrim (stripLineNumber (stripAccessSpecifiers expr))
  match strFind (jstr "[") tmpStr with
  | some tblStartIdx =>
    let tblName0 := jsTrim (jsSubstring tmpStr
      (jsLastIndexOfFrom tmpStr (jstr " ") (tblStartIdx : Int) + 1) (tblStartIdx : Int))
    if jsIndexOf (jsSubstringFrom tmpStr ((tblStartIdx : Int) + 1)) (jstr "[") != -1 then
      -- multidimensional tables are not managed
      [jstr ""]
    else
      let tblName := if jsLastIndexOf tblName0 (jstr "*") != -1 then
          jsTrim (jsSubstringFrom tblName0 (jsLastIndexOf tblName0 (jstr "*") + 1))
        else tblName0
      let sizeStr := jsSubstring tmpStr ((tblStartIdx : Int) + 1)
        (jsIndexOfFrom tmpStr (jstr "]") (tblStartIdx : Int))
      let lastTableIdx := (parseIntJS sizeStr).map (· - 1)
      if bExpandTableElements then
        [rootIdentifier ++ tblName ++ jstr "[" ++ jsNumToStr lastTableIdx ++ jstr "]"]
      else
        [rootIdentifier ++ tblName ++ jstr "[0]"]
  | none =>
    if jsLastIndexOf tmpStr (jstr "*") != -1 then
      -- pointers; special case for function pointers (*func)(...)
      let t1 := match strFind (jstr ")") tmpStr with
        | some endIdx => jsSubstring tmpStr 0 (endIdx : Int)
        | none => tmpStr
      let t2 := jsTrim (jsSubstringFrom t1 (jsLastIndexOf t1 (jstr "*") + 1))
      let t3 := if jsLastIndexOf t2 (jstr " ") != -1 then
          jsTrim (jsSubstringFrom t2 (jsLastIndexOf t2 (jstr " ") + 1))
        else t2
      [rootIdentifier ++ t3]
    else if jsIndexOf tmpStr (jstr " : ") != -1 then
      -- bit fields are not managed
      [jstr ""]
    else
      [rootIdentifier ++ jsTrim (jsSubstringFrom tmpStr (jsLastIndexOf tmpStr (jstr " ") + 1))]

/-- One entry of an `identifiersList` (the source's inline interface in
`IGdbVariableInfo`); all fields except `identifier` start out `undefined`,
modelled by `none`. -/
structure GdbIdentifierInfo where
  identifier : JSStr
  type : Option JSStr := none
  typeValue : Option Int := none
  address : Option JSStr := none
  classHierarchy : Option JSStr := none
deriving DecidableEq, Repr

/-- `IGdbVariableInfo` of `gdbInfoDecoder.ts`. -/
structure GdbVariableInfo where
  filename : JSStr
  identifiersList : List GdbIdentifierInfo
deriving DecidableEq, Repr

/-- `TgdbVariablesInfo` of `gdbInfoDecoder.ts`. -/
abbrev TgdbVariablesInfo := List GdbVariableInfo

/-- `buildVarList` of `gdbInfoDecoder.ts`.  The source's `while` loop over
`startIdx` is rendered as recursion over the still-unprocessed suffix of
`fileBlock` (the loop body only ever looks at `fileBlock.substring(startIdx)`).
Parse errors return the entries accumulated so far, as in the source. -/
def buildVarListGo (rootIdentifier : JSStr) (expandTableElements : Bool) :
    Nat → JSStr → List GdbIdentifierInfo
  | 0, _ => []
  | fuel + 1, fileBlock =>
    if fileBlock = [] then []
    else
      let tmpStr := fileBlock
      let firstSemiColon := jsIndexOf tmpStr (jstr ";")
      let firstOpenBrace := jsIndexOf tmpStr (jstr "\x7b")
      let closeBraceIdx : Int :=
        if firstOpenBrace != -1 ∧ firstOpenBrace < firstSemiColon then
          getMatchingClosingBrace tmpStr
        else 0
      if closeBraceIdx = -1 then []
      else
        match strFindFrom (jstr ";") tmpStr closeBraceIdx.toNat with
        | none => []
        | some endIdx =>
          let expr := if closeBraceIdx != 0 then
              jsSubstring tmpStr 0 firstOpenBrace ++
                jsSubstring tmpStr (closeBraceIdx + 1) (endIdx : Int)
            else jsSubstring tmpStr 0 (endIdx : Int)
          let identifiers := extractIdentifiers expr rootIdentifier expandTableElements
          let items : List GdbIdentifierInfo :=
            if identifiers.headD (jstr "") ≠ jstr "" then
              identifiers.map (fun e => { identifier := e })
            else []
          items ++ buildVarListGo rootIdentifier expandTableElements fuel
            (fileBlock.drop (endIdx + 1))

/-- Wrapper supplying the fuel: every loop iteration advances `startIdx` by
`endIdx + 1 ≥ 1` characters, so `fileBlock.length + 1` iterations always
suffice and the fuel-exhaustion fallback is unreachable. -/
def buildVarList (fileBlock rootIdentifier : JSStr) (expandTableElements : Bool) :
    List GdbIdentifierInfo :=
  buildVarListGo rootIdentifier expandTableElements (fileBlock.length + 1) fileBlock

/-- One file block of `parseGdbVariablesInfo`: extract the filename (up to
`":" + os.EOL`, the model fixing `os.EOL` to `"\n"` as in the Linux build)
and parse the declarations between it and `fileBlockEnd`.  `none` models the
source's error `return []` when the filename marker is missing. -/
def parseOneFileBlock (data : JSStr) (expand : Bool) (fileBlockStart : Nat)
    (fileBlockEnd : Int) : Option GdbVariableInfo :=
  match strFindFrom (jstr ":\n") data fileBlockStart with
  | none => none
  | some endFilenameIdx =>
    some { filename := jsSubstring data ((fileBlockStart : Int) + 5) (endFilenameIdx : Int)
           identifiersList :=
             buildVarList (jsSubstring data ((endFilenameIdx : Int) + 2) fileBlockEnd)
               (jstr "") expand }

/-- The `while` loop of `parseGdbVariablesInfo`, entered at a position where
`"File "` occurs.  When another `"File "` follows, the current block ends
there and parsing continues; otherwise the block ends at the
`Non-debugging symbols:` marker (or at `data.length - 1`) and parsing stops.
`none` propagates the filename-marker error, which discards all blocks. -/
def parseGdbFileBlocksGo (data : JSStr) (expand : Bool) : Nat → Nat → Option TgdbVariablesInfo
  | 0, _ => none
  | fuel + 1, fileBlockStart =>
    match strFindFrom (jstr "File ") data (fileBlockStart + 1) with
    | some e =>
      match parseOneFileBlock data expand fileBlockStart (e : Int) with
      | none => none
      | some entry => (parseGdbFileBlocksGo data expand fuel e).map (entry :: ·)
    | none =>
      let fend : Int :=
        match strFindFrom (jstr "Non-debugging symbols:") data (fileBlockStart + 1) with
        | some e2 => (e2 : Int)
        | none => (data.length : Int) - 1
      match parseOneFileBlock data expand fileBlockStart fend with
      | none => none
      | some entry => some [entry]

/-- Wrapper supplying the fuel: by `strFindFrom_bounds` each continuing
iteration strictly advances `fileBlockStart` inside `data`, so
`data.length + 1` iterations always suffice. -/
def parseGdbFileBlocks (data : JSStr) (expand : Bool) (fileBlockStart : Nat) :
    Option TgdbVariablesInfo :=
  parseGdbFileBlocksGo data expand (data.length + 1) fileBlockStart

/-- `parseGdbVariablesInfo` of `gdbInfoDecoder.ts`: split the `info variables`
reply into per-file blocks and build the first-level identifier lists. -/
def parseGdbVariablesInfo (data : JSStr) (expandTableElements : Bool) : TgdbVariablesInfo :=
  match strFind (jstr "File ") data with
  | none => []
  | some s => (parseGdbFileBlocks data expandTableElements s).getD []

/-! ### `gdbInfoDecoder.ts` — the base-class regex and `extractType`

The source extracts base classes from an inheritance list with

  `/\s*([^<\[,]+)((<.*?>)?\s*(\[.*?\])?\s*($|,))/gs`

run through `RegExp.prototype.exec` in a loop.  The matcher below implements
exactly this pattern: a greedy whitespace run which on failure gives back
characters (the backtracking only matters when the character class part
would start on `<`, `[` or `,`), a greedy non-empty run of characters other
than `<`, `[` and `,` (its maximal run necessarily ends right where the tail
pattern can start, so no backtracking of the group is needed — shorter runs
would leave the tail looking at a character that can start neither `<…>` nor
`[…]` nor `$|,`), a lazy optional `<…>` (closing positions tried from the
nearest `>` outwards), whitespace, a lazy optional `[…]`, whitespace and
finally end-of-input or a comma. -/

/-- Length of the whitespace run of `s` starting at position `i` (`\s*`). -/
def wsRunFrom (s : JSStr) (i : Nat) : Nat :=
  ((s.drop i).takeWhile jsIsWhitespace).length

/-- The character class `[^<\[,]` of the inheritance regex. -/
def inheritAllowedChar (c : Char) : Bool :=
  !(c = '<' || c = '[' || c = ',')

/-- Length of the `[^<\[,]*` run of `s` starting at `i`. -/
def allowedRunFrom (s : JSStr) (i : Nat) : Nat :=
  ((s.drop i).takeWhile inheritAllowedChar).length

/-- Ascending list of the positions `≥ start` holding character `c`. -/
def charPositionsFrom (s : JSStr) (c : Char) (start : Nat) : List Nat :=
  (List.range s.length).filter (fun i => start ≤ i && s.getD i ' ' = c)

/-- Match of the regex tail `(<.*?>)?\s*(\[.*?\])?\s*($|,)` at position `j`,
returning the position just after the whole match. -/
def inheritTailEnd (s : JSStr) (j : Nat) : Option Nat :=
  let cCands : List Nat :=
    if j < s.length ∧ s.getD j ' ' = '<' then
      (charPositionsFrom s '>' (j + 1)).map (· + 1) ++ [j]
    else [j]
  cCands.findSome? (fun p1 =>
    let p2 := p1 + wsRunFrom s p1
    let eCands : List Nat :=
      if p2 < s.length ∧ s.getD p2 ' ' = '[' then
        (charPositionsFrom s ']' (p2 + 1)).map (· + 1) ++ [p2]
      else [p2]
    eCands.findSome? (fun q1 =>
      let q2 := q1 + wsRunFrom s q1
      if q2 = s.length then some q2
      else if q2 < s.length ∧ s.getD q2 ' ' = ',' then some (q2 + 1)
      else none))

/-- Match of the full inheritance regex anchored at position `i`, returning
the text of capture group 1 and the position after the match. -/
def inheritMatchAt (s : JSStr) (i : Nat) : Option (JSStr × Nat) :=
  let w := wsRunFrom s i
  (List.range (w + 1)).findSome? (fun back =>
    let b0 := i + (w - back)
    let bLen := allowedRunFrom s b0
    if bLen = 0 then none
    else
      match inheritTailEnd s (b0 + bLen) with
      | some e => some ((s.drop b0).take bLen, e)
      | none => none)

/-- `exec` scanning: the first match starting at any position `≥ i`. -/
def inheritScanFrom (s : JSStr) (i : Nat) : Option (JSStr × Nat) :=
  (List.range (s.length + 1 - i)).findSome? (fun d => inheritMatchAt s (i + d))

/-- The `while ((baseClassArray = regexInherit.exec(baseClassStr)) !== null)`
loop, fuelled: the ordered list of capture-group-1 texts of the successive
matches. -/
def inheritExecGo (s : JSStr) : Nat → Nat → List JSStr
  | 0, _ => []
  | fuel + 1, i =>
    match inheritScanFrom s i with
    | none => []
    | some (g, e) => g :: inheritExecGo s fuel e

/-- Wrapper supplying the fuel: by `inheritScanFrom_bounds` every match ends
strictly further into the string, so `s.length + 1` matches are the most the
loop can produce. -/
def inheritExecAll (s : JSStr) (i : Nat) : List JSStr :=
  inheritExecGo s (s.length + 1) i

/-- The index written by the source's `forEach` search for `rootIdentifier`:
the last index of the list whose entry has the given identifier. -/
def lastIdxWith : List GdbIdentifierInfo → JSStr → Option Nat
  | [], _ => none
  | e :: t, id' =>
    match lastIdxWith t id' with
    | some j => some (j + 1)
    | none => if e.identifier = id' then some 0 else none

/-- The `remove line containing rootIdentifier` block of `extractType`: in the
first file entry whose `filename` matches, splice out the last entry whose
identifier equals `rootIdentifier` (the source's `forEach` keeps the last
matching index).  Returns the updated collection together with the position
`(file index, entry index)` of the removed entry, if any — the position is
returned so that the caller can reproduce the effect of JavaScript object
aliasing when it subsequently assigns `element.type`. -/
def spliceRootIdentifier : TgdbVariablesInfo → JSStr → JSStr →
    TgdbVariablesInfo × Option (Nat × Nat)
  | [], _, _ => ([], none)
  | entry :: rest, filename, rootIdentifier =>
    if entry.filename = filename then
      match lastIdxWith entry.identifiersList rootIdentifier with
      | some j =>
        ({ entry with identifiersList := entry.identifiersList.eraseIdx j } :: rest,
          some (0, j))
      | none => (entry :: rest, none)
    else
      let r := spliceRootIdentifier rest filename rootIdentifier
      (entry :: r.1, r.2.map (fun p => (p.1 + 1, p.2)))

/-- The `add lines with "rootIdentifier." in newGdbVariablesInfo` block of
`extractType`: push the new member entries into the first file entry with a
matching filename, creating the file entry at the end when there is none. -/
def pushIntoFile : TgdbVariablesInfo → JSStr → List GdbIdentifierInfo → TgdbVariablesInfo
  | [], filename, members => [{ filename := filename, identifiersList := members }]
  | entry :: rest, filename, members =>
    if entry.filename = filename then
      { entry with identifiersList := entry.identifiersList ++ members } :: rest
    else entry :: pushIntoFile rest filename members

/-- `extractType` of `gdbInfoDecoder.ts`.  The `variablesInfo` and
`newVariablesInfo` arrays that the source mutates in place are threaded
explicitly; the result is `(returned type string, variablesInfo,
newVariablesInfo, splice position)`, the last component reporting which entry
(if any) was removed from `variablesInfo` so that the caller can model the
source's aliasing of the scanned `element`. -/
def extractType (variablesInfo newVariablesInfo : TgdbVariablesInfo)
    (filename expr rootIdentifier : JSStr) (rootHierarchy : Option JSStr)
    (bExpandTableElements : Bool) :
    JSStr × TgdbVariablesInfo × TgdbVariablesInfo × Option (Nat × Nat) :=
  let tmpStr := removeStorageClassSpecifier (jsTrim expr)
  if jsStartsWith tmpStr (jstr "struct ") ∨ jsStartsWith tmpStr (jstr "union ") ∨
      jsStartsWith tmpStr (jstr "class ") then
    let firstOpenBrace := jsIndexOf tmpStr (jstr "\x7b")
    let firstColonLeadingSpace := jsIndexOf tmpStr (jstr " : ")
    if firstOpenBrace = -1 then
      -- the expression does not contain the structure body
      (jstr "", variablesInfo, newVariablesInfo, none)
    else
      let className : JSStr :=
        if jsStartsWith tmpStr (jstr "class ") then
          jsTrim (jsSubstring tmpStr 5
            (if firstColonLeadingSpace = -1 then firstOpenBrace else firstColonLeadingSpace))
        else jstr ""
      if jsStartsWith tmpStr (jstr "class ") ∧
          checkClassRecursion ((rootHierarchy.getD (jstr ""))) className = true then
        -- recursive class definition: do not parse it
        (jstr "", variablesInfo, newVariablesInfo, none)
      else
        let hierarchy : JSStr :=
          if jsStartsWith tmpStr (jstr "class ") then
            (rootHierarchy.getD (jstr "")) ++ jstr "." ++ className
          else jstr ""
        let closeBraceIdx := getMatchingClosingBrace tmpStr
        if closeBraceIdx = -1 then
          (jstr "", variablesInfo, newVariablesInfo, none)
        else if jsIndexOfFrom tmpStr (jstr "*") (closeBraceIdx + 1) = -1 then
          -- expand the structure or union
          let blockStr := jsSubstring tmpStr (firstOpenBrace + 1) closeBraceIdx
          let variablesList :=
            buildVarList blockStr (rootIdentifier ++ jstr ".") bExpandTableElements
          let spliced := spliceRootIdentifier variablesInfo filename rootIdentifier
          let memberEntries : List GdbIdentifierInfo :=
            variablesList.map (fun newEntry =>
              { identifier := newEntry.identifier, classHierarchy := some hierarchy })
          let sentinelEntries : List GdbIdentifierInfo :=
            if jsStartsWith tmpStr (jstr "class ") ∧ firstColonLeadingSpace ≠ -1 then
              (inheritExecAll
                  (jsSubstring tmpStr (firstColonLeadingSpace + 2) firstOpenBrace) 0).map
                (fun g =>
                  { identifier := rootIdentifier
                    type := some (jstr "?" ++ jsTrim (removeScopeClassSpecifier (jsTrim g))) })
            else []
          (jstr "", spliced.1,
            pushIntoFile newVariablesInfo filename (memberEntries ++ sentinelEntries),
            spliced.2)
        else
          -- pointer after the closing brace: keep the rendered text as leaf type
          (tmpStr, variablesInfo, newVariablesInfo, none)
  else
    (tmpStr, variablesInfo, newVariablesInfo, none)

/-! ### `index.ts` — the process protocol controller -/

/-- The `State` enum of `index.ts`. -/
inductive State where
  | SET_METHODS_OFF
  | SET_TYPEDEFS_OFF
  | IDLE
  | START_GDB
  | GET_VARIABLES_INFO
  | GET_TYPE
  | GET_SIZE
  | GET_ADDRESS
deriving DecidableEq, Repr

/-- The `InformationType` enum of `index.ts`. -/
inductive InformationType where
  | IDENTIFIER
  | TYPE
  | SIZE
  | ADDRESS
deriving DecidableEq, Repr

/-- The `Status` enum of `index.ts`. -/
inductive Status where
  | ELFPARSER_OK
  | ELFPARSER_ELFFILENAME_NOT_FOUND
  | ELFPARSER_PARSING_ONGOING
  | ELFPARSER_ERR
deriving DecidableEq, Repr

/-- One element of the `TvariablesInfo` result array of `index.ts`. -/
structure ResultVar where
  name : JSStr
  address : JSStr
  type : Int
deriving DecidableEq, Repr

/-- The mutable fields of an `ElfParser` instance.  Callbacks are modelled by
opaque identifiers (`Nat`); `gdbProcess` records whether a debugger process
was spawned; `progressStatus` is an `Option Nat` whose `none` models a
non-finite JavaScript number (`NaN`/`Infinity`, which can only arise from the
division in `sendProgressStatusToClient` when `numberOfVariables` is zero).
The wall-clock fields `startTime`/`endTime`, used only for a log line, are
not modelled. -/
structure ElfParserState where
  currentState : State
  previousState : State
  callback : Nat
  expandTableElements : Bool
  progressCallback : Option Nat
  gdbProcess : Bool
  dataBuffer : JSStr
  gdbVariablesInfo : TgdbVariablesInfo
  newGdbVariablesInfo : TgdbVariablesInfo
  gdbResponseCounter : Nat
  numberOfVariables : Nat
  progressStatus : Option Nat
  currentFilenameIdx : Nat
  currentIdentifierIdx : Nat
deriving DecidableEq, Repr

/-- The state established by the `ElfParser` constructor. -/
def constructorState : ElfParserState where
  currentState := State.IDLE
  previousState := State.IDLE
  callback := 0
  expandTableElements := false
  progressCallback := none
  gdbProcess := false
  dataBuffer := []
  gdbVariablesInfo := []
  newGdbVariablesInfo := []
  gdbResponseCounter := 0
  numberOfVariables := 0
  progressStatus := some 0
  currentFilenameIdx := 0
  currentIdentifierIdx := 0

/-- `GDB_PROMPT` of `index.ts`. -/
def GDB_PROMPT : JSStr := jstr "(gdb) "

/-- In-place update of the element at index `n` (identity when out of range),
the pure rendering of a JavaScript indexed assignment. -/
def listModify {α : Type} : List α → Nat → (α → α) → List α
  | [], _, _ => []
  | x :: t, 0, g => g x :: t
  | x :: t, n + 1, g => x :: listModify t n g

/-- Update of the identifier entry at position `(f, i)` of the collection. -/
def modifyEntryAt (vars : TgdbVariablesInfo) (f i : Nat)
    (g : GdbIdentifierInfo → GdbIdentifierInfo) : TgdbVariablesInfo :=
  listModify vars f (fun file => { file with identifiersList := listModify file.identifiersList i g })

/-- Result of one scan of `storeAllElementsFromGdb`'s nested loops. -/
structure StoreScanResult where
  vars : TgdbVariablesInfo
  newInfo : TgdbVariablesInfo
  pos : Option (Nat × Nat)
  finalCurI : Nat
deriving Repr

/-- `computeNumberOfVariables` of `index.ts`. -/
def computeNumberOfVariables (vars : TgdbVariablesInfo) : Nat :=
  (vars.map (fun entry => entry.identifiersList.length)).sum

/-- The `storeElement:`-labelled nested loops of `storeAllElementsFromGdb`:
scan forward from position `(f, i)` for the first still-unresolved element,
resolve it from `gdbResponse` and stop (`pos = some (f, i)`), or fall off the
end (`pos = none`, with `finalCurI` the value left in
`this.currentIdentifierIdx` by the loop's trailing assignment).  For the TYPE
information the splice position returned by `extractType` reproduces the
source's aliasing: when the scanned `element` itself was spliced out of the
collection, the subsequent `element.type = …` assignment mutates a detached
object and the collection is left without it. -/
def storeScanGo (resp : JSStr) (ity : InformationType) (expand : Bool) :
    Nat → TgdbVariablesInfo → TgdbVariablesInfo → Nat → Nat → StoreScanResult
  | 0, vars, newInfo, _, i =>
    -- fuel exhaustion (unreachable with the wrapper's budget)
    { vars := vars, newInfo := newInfo, pos := none, finalCurI := i }
  | fuel + 1, vars, newInfo, f, i =>
    match vars[f]? with
    | none => { vars := vars, newInfo := newInfo, pos := none, finalCurI := i }
    | some file =>
      match file.identifiersList[i]? with
      | none => storeScanGo resp ity expand fuel vars newInfo (f + 1) 0
      | some element =>
      match ity with
      | InformationType.TYPE =>
        if element.type = none ∨ (element.type.getD []).headD ' ' = '?' then
          let strippedT := jsTrim (jsSubstring resp 7 ((resp.length : Int) - 6))
          let er := extractType vars newInfo file.filename strippedT element.identifier
            element.classHierarchy expand
          let vars2 :=
            match er.2.2.2 with
            | some (fj, j) =>
              if fj = f ∧ j = i then er.2.1
              else if fj = f ∧ j < i then
                modifyEntryAt er.2.1 f (i - 1) (fun e => { e with type := some er.1 })
              else modifyEntryAt er.2.1 f i (fun e => { e with type := some er.1 })
            | none => modifyEntryAt er.2.1 f i (fun e => { e with type := some er.1 })
          { vars := vars2, newInfo := er.2.2.1, pos := some (f, i), finalCurI := i }
        else storeScanGo resp ity expand fuel vars newInfo f (i + 1)
      | InformationType.SIZE =>
        if element.typeValue = none then
          let stripped := jsTrim (jsSubstring resp 0 ((resp.length : Int) - 6))
          let vars2 :=
            if element.type ≠ none then
              modifyEntryAt vars f i (fun e =>
                { e with typeValue := some (computeTypeValue (element.type.getD []) stripped) })
            else vars
          { vars := vars2, newInfo := newInfo, pos := some (f, i), finalCurI := i }
        else storeScanGo resp ity expand fuel vars newInfo f (i + 1)
      | InformationType.ADDRESS =>
        if element.address = none then
          let stripped := jsTrim (jsSubstring resp 0 ((resp.length : Int) - 6))
          let vars2 := modifyEntryAt vars f i (fun e =>
            { e with address := some (extractAddress stripped) })
          { vars := vars2, newInfo := newInfo, pos := some (f, i), finalCurI := i }
        else storeScanGo resp ity expand fuel vars newInfo f (i + 1)
      | InformationType.IDENTIFIER =>
        -- the source's `default` branch only logs a programming error
        storeScanGo resp ity expand fuel vars newInfo f (i + 1)

/-- Wrapper supplying the fuel: every scan step either advances the entry
index inside a file or moves to the next file, so the total number of entries
plus the number of files plus one bounds the steps. -/
def storeScan (resp : JSStr) (ity : InformationType) (expand : Bool)
    (vars newInfo : TgdbVariablesInfo) (f i : Nat) : StoreScanResult :=
  storeScanGo resp ity expand (computeNumberOfVariables vars + vars.length + 1)
    vars newInfo f i

/-- `storeAllElementsFromGdb` of `index.ts`: run the scan from the stored
cursor and commit its effects.  On success the cursor is moved to the found
position and the response counter is incremented; otherwise the cursor's
inner index keeps the 0 left by the completed inner loop. -/
def storeAllElementsFromGdb (st : ElfParserState) (gdbResponse : JSStr)
    (informationType : InformationType) : ElfParserState × Bool :=
  let r := storeScan gdbResponse informationType st.expandTableElements
    st.gdbVariablesInfo st.newGdbVariablesInfo st.currentFilenameIdx st.currentIdentifierIdx
  match r.pos with
  | some fi =>
    ({ st with
        gdbVariablesInfo := r.vars
        newGdbVariablesInfo := r.newInfo
        currentFilenameIdx := fi.1
        currentIdentifierIdx := fi.2
        gdbResponseCounter := st.gdbResponseCounter + 1 }, true)
  | none =>
    ({ st with
        gdbVariablesInfo := r.vars
        newGdbVariablesInfo := r.newInfo
        currentIdentifierIdx := r.finalCurI }, false)

/-- `requestAllElementsToGdb` of `index.ts`: emit one query command per
relevant identifier plus the phase's stop command, set the state for the
SIZE/ADDRESS phases, reset the resume cursor and recompute the variable
count.  The emitted command lines are returned for observation. -/
def requestAllElementsToGdb (st : ElfParserState) (informationType : InformationType) :
    ElfParserState × List JSStr :=
  let cmds : List JSStr :=
    match informationType with
    | InformationType.TYPE =>
      (st.gdbVariablesInfo.flatMap (fun entry =>
        entry.identifiersList.filterMap (fun element =>
          match element.type with
          | none => some (jstr "ptype " ++ element.identifier ++ jstr "\n")
          | some t =>
            if t.headD ' ' = '?' then
              some (jstr "ptype " ++ jsSubstringFrom t 1 ++ jstr "\n")
            else none))) ++ [jstr "StopRequestType\n"]
    | InformationType.SIZE =>
      (st.gdbVariablesInfo.flatMap (fun entry =>
        entry.identifiersList.map (fun element =>
          jstr "p sizeof " ++ element.identifier ++ jstr "\n"))) ++ [jstr "StopRequestSize\n"]
    | InformationType.ADDRESS =>
      (st.gdbVariablesInfo.flatMap (fun entry =>
        entry.identifiersList.map (fun element =>
          jstr "print /x &(" ++ element.identifier ++ jstr ")\n"))) ++
        [jstr "StopRequestAddress\n"]
    | InformationType.IDENTIFIER => []
  let st1 :=
    match informationType with
    | InformationType.SIZE => { st with currentState := State.GET_SIZE }
    | InformationType.ADDRESS => { st with currentState := State.GET_ADDRESS }
    | _ => st
  ({ st1 with
      currentFilenameIdx := 0
      currentIdentifierIdx := 0
      numberOfVariables := computeNumberOfVariables st1.gdbVariablesInfo }, cmds)

/-- The merge of `newGdbVariablesInfo` into `gdbVariablesInfo` performed in
the `GET_TYPE` branch of `readData`: for each new file entry, its identifiers
are appended to every existing file entry with the same filename. -/
def mergeNewInfo (vars newInfo : TgdbVariablesInfo) : TgdbVariablesInfo :=
  newInfo.foldl
    (fun acc newEntry =>
      acc.map (fun entry =>
        if newEntry.filename = entry.filename then
          { entry with identifiersList := entry.identifiersList ++ newEntry.identifiersList }
        else entry))
    vars

/-- The loop bound `Math.min(arraySize, 10000)` of `postProcessArraysInfo`,
as the number of executed loop iterations: `NaN` and negative sizes yield
zero iterations (`0 < NaN` and `0 < negative` are false in the `for` test). -/
def jsMinCap (v : Option Int) : Nat :=
  match v with
  | none => 0
  | some x => (min x 10000).toNat

/-- The `while (stillProcessing) { for (const element of entry.identifiersList) … }`
loops of `postProcessArraysInfo` on one file's identifier list, fuelled.

One fuel unit is consumed per loop step (one per visited element, one per
end-of-pass check).  `i` is the position of the `for…of` iterator, `changed`
the `stillProcessing` flag of the current pass; newly pushed elements are
visited by the same pass, exactly as a JavaScript array iterator does.
`none` signals fuel exhaustion; the caller's fuel makes that unreachable for
the bracket-balanced identifiers the program builds, while on malformed
identifiers (an unmatched `[`) the source itself loops forever. -/
def ppGo : Nat → List GdbIdentifierInfo → Nat → Bool → Option (List GdbIdentifierInfo)
  | 0, _, _, _ => none
  | fuel + 1, l, i, changed =>
    match hie : l[i]? with
    | some element =>
      let tblStartIdx := jsLastIndexOf element.identifier (jstr "[x")
      let tblEndIdx := jsLastIndexOf element.identifier (jstr "x]")
      if tblStartIdx != -1 then
        let identifierHead := jsSlice element.identifier 0 (tblStartIdx + 1)
        let arraySizeStr := jsSubstring element.identifier (tblStartIdx + 2) tblEndIdx
        let arraySize := parseIntJS arraySizeStr
        let identifierTail := jsSliceFrom element.identifier (tblEndIdx + 1)
        let updated := { element with
          identifier := identifierHead ++ jsNumToStr arraySize ++ identifierTail }
        let appended := (List.range (jsMinCap arraySize)).map (fun k =>
          ({ identifier := identifierHead ++ jsNumToStr (some (k : Int)) ++ identifierTail
             type := element.type
             typeValue := element.typeValue } : GdbIdentifierInfo))
        ppGo fuel (l.set i updated ++ appended) (i + 1) true
      else
        ppGo fuel l (i + 1) changed
    | none =>
      if changed then ppGo fuel l 0 false else some l

/-- Total length of the identifiers of one file's list. -/
def totalIdLen (l : List GdbIdentifierInfo) : Nat :=
  (l.map (fun e => e.identifier.length)).sum

/-- Fuel budget for `ppGo` on one file: generous enough for every input the
program actually constructs (at most one marker pair per array level and at
most 10000 pushed elements per processed marker). -/
def ppFileFuel (l : List GdbIdentifierInfo) : Nat :=
  (totalIdLen l + l.length + 10002) * (totalIdLen l + 2)

/-- `postProcessArraysInfo` of `index.ts`: when array expansion is enabled,
first replace every `[`/`]` by the markers `[x`/`x]` in all identifiers, then
process each file's list with the marker-driven expansion loops. -/
def postProcessArraysInfo (st : ElfParserState) : ElfParserState :=
  if st.expandTableElements = true then
    let mark : JSStr → JSStr := fun s =>
      jsReplaceAllChar (jsReplaceAllChar s '[' (jstr "[x")) ']' (jstr "x]")
    let markElement : GdbIdentifierInfo → GdbIdentifierInfo := fun element =>
      { element with identifier := mark element.identifier }
    let marked := st.gdbVariablesInfo.map (fun (entry : GdbVariableInfo) =>
      { entry with identifiersList := entry.identifiersList.map markElement })
    let runFile : List GdbIdentifierInfo → List GdbIdentifierInfo := fun l =>
      (ppGo (ppFileFuel l) l 0 false).getD l
    let processed := marked.map (fun entry =>
      { entry with identifiersList := runFile entry.identifiersList })
    { st with gdbVariablesInfo := processed }
  else st

/-- The comparison `this.progressStatus !== progressStatus` on JavaScript
numbers: a non-finite value (`none`) compares unequal to everything,
including itself (`NaN !== NaN`; the only way `none` arises here is the
division by zero in an unreachable branch). -/
def jsNumNeq : Option Nat → Option Nat → Bool
  | some x, some y => x != y
  | _, _ => true

/-- `sendProgressStatusToClient` of `index.ts`: compute the progress value
from the current state (and, in the SIZE/ADDRESS phases, from the response
counter), remember the state, and invoke the callback only when the value
changed.  The returned list holds the delivered values (empty or a
singleton); `none` models a non-finite number from the division when
`numberOfVariables = 0`. -/
def sendProgressStatusToClient (st : ElfParserState) : ElfParserState × List (Option Nat) :=
  match st.progressCallback with
  | none => (st, [])
  | some _ =>
    let stc : ElfParserState × Option Nat :=
      match st.currentState with
      | State.IDLE => (st, some 100)
      | State.START_GDB => (st, some 0)
      | State.SET_METHODS_OFF => (st, some 0)
      | State.SET_TYPEDEFS_OFF => (st, some 0)
      | State.GET_VARIABLES_INFO => (st, some 10)
      | State.GET_TYPE => (st, some 25)
      | State.GET_SIZE =>
        if st.previousState ≠ st.currentState then
          ({ st with gdbResponseCounter := 0 }, some 50)
        else if st.numberOfVariables = 0 then (st, none)
        else (st, some (50 + (75 - 50) * st.gdbResponseCounter / st.numberOfVariables))
      | State.GET_ADDRESS =>
        if st.previousState ≠ st.currentState then
          ({ st with gdbResponseCounter := 0 }, some 75)
        else if st.numberOfVariables = 0 then (st, none)
        else (st, some (75 + (100 - 75) * st.gdbResponseCounter / st.numberOfVariables))
    let st1 := { stc.1 with previousState := stc.1.currentState }
    if jsNumNeq st1.progressStatus stc.2 then
      ({ st1 with progressStatus := stc.2 }, [stc.2])
    else (st1, [])

/-- `GDB_SET_METHOD_OFF` of `index.ts`. -/
def GDB_SET_METHOD_OFF : JSStr := jstr "set print type methods off\n"

/-- `GDB_SET_TYPEDEF_OFF` of `index.ts`. -/
def GDB_SET_TYPEDEF_OFF : JSStr := jstr "set print type typedefs off\n"

/-- `GDB_GET_INFO_VARIABLES` of `index.ts`. -/
def GDB_GET_INFO_VARIABLES : JSStr := jstr "info variables\n"

/-- `GDB_QUIT` of `index.ts`. -/
def GDB_QUIT : JSStr := jstr "quit\n"

/-- The `switch (this.currentState)` body of `readData` for one complete
GDB response frame; returns the new state and the commands written to the
subprocess.  (The frame slicing itself lives in `readDataLoop`.) -/
def processFrame (st : ElfParserState) (gdbResponse : JSStr) : ElfParserState × List JSStr :=
  match st.currentState with
  | State.IDLE => (st, [])
  | State.START_GDB =>
    ({ st with currentState := State.SET_METHODS_OFF }, [GDB_SET_METHOD_OFF])
  | State.SET_METHODS_OFF =>
    ({ st with currentState := State.SET_TYPEDEFS_OFF }, [GDB_SET_TYPEDEF_OFF])
  | State.SET_TYPEDEFS_OFF =>
    ({ st with currentState := State.GET_VARIABLES_INFO }, [GDB_GET_INFO_VARIABLES])
  | State.GET_VARIABLES_INFO =>
    let vars := parseGdbVariablesInfo gdbResponse st.expandTableElements
    if vars.length = 0 then
      ({ st with gdbVariablesInfo := vars, currentState := State.IDLE }, [GDB_QUIT])
    else
      let st1 := { st with gdbVariablesInfo := vars }
      let r := requestAllElementsToGdb st1 InformationType.TYPE
      ({ r.1 with currentState := State.GET_TYPE }, r.2)
  | State.GET_TYPE =>
    let sf := storeAllElementsFromGdb st gdbResponse InformationType.TYPE
    if sf.2 = true then (sf.1, [])
    else if sf.1.newGdbVariablesInfo.length ≠ 0 then
      let merged := mergeNewInfo sf.1.gdbVariablesInfo sf.1.newGdbVariablesInfo
      let st2 := { sf.1 with gdbVariablesInfo := merged, newGdbVariablesInfo := [] }
      requestAllElementsToGdb st2 InformationType.TYPE
    else
      let r := requestAllElementsToGdb sf.1 InformationType.SIZE
      ({ r.1 with currentState := State.GET_SIZE }, r.2)
  | State.GET_SIZE =>
    let sf := storeAllElementsFromGdb st gdbResponse InformationType.SIZE
    if sf.2 = true then (sf.1, [])
    else
      let st2 := postProcessArraysInfo sf.1
      let r := requestAllElementsToGdb st2 InformationType.ADDRESS
      ({ r.1 with currentState := State.GET_ADDRESS }, r.2)
  | State.GET_ADDRESS =>
    let sf := storeAllElementsFromGdb st gdbResponse InformationType.ADDRESS
    if sf.2 = true then (sf.1, [])
    else ({ sf.1 with currentState := State.IDLE }, [GDB_QUIT])

/-- The `while (this.dataBuffer !== "")` frame loop of `readData`: slice
complete frames (text up to and including the prompt) off the buffer and
process each through the state machine.  `buf` mirrors `st.dataBuffer` (the
source updates `this.dataBuffer` before the `switch`, and no `switch` branch
touches the buffer); returns the final state, the processed frames and the
emitted commands. -/
def readDataLoopGo : Nat → ElfParserState → JSStr → ElfParserState × List JSStr × List JSStr
  | 0, st, _ => (st, [], [])
  | fuel + 1, st, buf =>
    if buf = [] then (st, [], [])
    else
      match strFind GDB_PROMPT buf with
      | none => (st, [], [])
      | some endGdbResponse =>
        let frame := buf.take (endGdbResponse + 6)
        let rest := buf.drop (endGdbResponse + 6)
        let pr := processFrame { st with dataBuffer := rest } frame
        let r := readDataLoopGo fuel pr.1 rest
        (r.1, frame :: r.2.1, pr.2 ++ r.2.2)

/-- Wrapper supplying the fuel: every sliced frame removes at least the
six-character prompt from the buffer, so `buf.length + 1` iterations always
suffice and the fuel-exhaustion fallback is unreachable. -/
def readDataLoop (st : ElfParserState) (buf : JSStr) : ElfParserState × List JSStr × List JSStr :=
  readDataLoopGo (buf.length + 1) st buf

/-- `readData` of `index.ts`: append the incoming chunk to the accumulation
buffer; if no prompt is present yet, keep buffering, otherwise process every
complete frame and finally report progress.  The outputs are the processed
frames, the commands written to the subprocess, and the progress values
delivered to the client. -/
def readData (st : ElfParserState) (data : JSStr) :
    ElfParserState × List JSStr × List JSStr × List (Option Nat) :=
  let st1 := { st with dataBuffer := st.dataBuffer ++ data }
  if jsIncludes st1.dataBuffer GDB_PROMPT ≠ true then (st1, [], [], [])
  else
    let r := readDataLoop st1 st1.dataBuffer
    let p := sendProgressStatusToClient r.1
    (p.1, r.2.1, r.2.2, p.2)

/-- The filtering and address-rendering loop of `sendVariablesInfoToClient`:
keep the entries having a defined non-empty address and a defined type value,
rendering the address as `"0x" + Number(address).toString(16).padStart(8, "0")`. -/
def buildVariablesInfo (vars : TgdbVariablesInfo) : List ResultVar :=
  vars.flatMap (fun entry =>
    entry.identifiersList.filterMap (fun element =>
      match element.address, element.typeValue with
      | some a, some tv =>
        if a ≠ [] then
          some { name := element.identifier
                 address := jstr "0x" ++ jsPadStart (jsToHexString (jsNumberParse a)) 8 '0'
                 type := tv }
        else none
      | _, _ => none))

/-- `sendVariablesInfoToClient` of `index.ts` (the GDB `close` handler):
build the result list and sort it with
`variablesInfo.sort((a, b) => a.name.localeCompare(b.name))`.  The
locale-aware comparator is an external input, passed as `lc`; JavaScript's
`Array.prototype.sort` is required to be stable, so it is modelled by a
stable merge sort on the comparator's non-positive outcomes. -/
def sendVariablesInfoToClient (lc : JSStr → JSStr → Int) (vars : TgdbVariablesInfo) :
    List ResultVar :=
  (buildVariablesInfo vars).mergeSort (fun a b => lc a.name b.name ≤ 0)

/-- Outcome of a `readElf` call: the returned status, the result-callback
invocations it performed directly (callback identifier with argument), and
whether a debugger subprocess was spawned. -/
structure ReadElfOut where
  status : Status
  callbackCalls : List (Nat × List ResultVar)
  spawned : Bool
deriving DecidableEq, Repr

/-- `readElf` of `index.ts`.  The caller-supplied callback, expand flag and
progress callback are stored into the instance state before any check, as in
the source; `elfFileExists` abstracts `existsSync(elfFilename)`.  On a
failure status the (just stored) callback is invoked once with the empty
list and no subprocess is spawned. -/
def readElf (st : ElfParserState) (elfFileExists : Bool) (callback : Nat)
    (expandTableElements : Bool) (progressCallback : Option Nat) :
    ElfParserState × ReadElfOut :=
  let st0 := { st with
    callback := callback
    expandTableElements := expandTableElements
    progressCallback := progressCallback }
  if elfFileExists ≠ true then
    (st0, { status := Status.ELFPARSER_ELFFILENAME_NOT_FOUND
            callbackCalls := [(callback, [])]
            spawned := false })
  else if st0.currentState ≠ State.IDLE then
    (st0, { status := Status.ELFPARSER_PARSING_ONGOING
            callbackCalls := [(callback, [])]
            spawned := false })
  else
    ({ st0 with currentState := State.START_GDB, gdbProcess := true },
      { status := Status.ELFPARSER_OK, callbackCalls := [], spawned := true })

/-- An instance with a session in progress (`GET_TYPE`), used to exhibit the
effect of a second `readElf` call on a busy parser. -/
def busyState : ElfParserState :=
  { constructorState with
      currentState := State.GET_TYPE
      callback := 1
      expandTableElements := true
      progressCallback := some 2 }

/-- The pure framing function behind the `while` loop of `readData`. -/
def framesOf : Nat → JSStr → List JSStr × JSStr
  | 0, buf => ([], buf)
  | fuel + 1, buf =>
    if buf = [] then ([], buf)
    else
      match strFind GDB_PROMPT buf with
      | none => ([], buf)
      | some e =>
        let r := framesOf fuel (buf.drop (e + 6))
        (buf.take (e + 6) :: r.1, r.2)

def framesSplit (buf : JSStr) : List JSStr × JSStr :=
  framesOf (buf.length + 1) buf

/-- Feeding a sequence of chunks to `readData`, accumulating the processed
frames (the model of successive `data` events on the GDB stdout pipe). -/
def feedChunks (st : ElfParserState) (chunks : List JSStr) : ElfParserState × List JSStr :=
  chunks.foldl (fun acc c => ((readData acc.1 c).1, acc.2 ++ (readData acc.1 c).2.1)) (st, [])

/-- Number of identifier entries whose `typeValue` is still undefined. -/
def countTypeValueNone (vars : TgdbVariablesInfo) : Nat :=
  (vars.map (fun file => file.identifiersList.countP (fun e => e.typeValue = none))).sum

/-- Number of identifier entries whose `address` is still undefined. -/
def countAddressNone (vars : TgdbVariablesInfo) : Nat :=
  (vars.map (fun file => file.identifiersList.countP (fun e => e.address = none))).sum

/-- Every identifier entry has a defined `type` (possibly the empty string or
a `?`-sentinel, but not `undefined`). -/
def allTypesDefined (vars : TgdbVariablesInfo) : Prop :=
  ∀ file ∈ vars, ∀ e ∈ file.identifiersList, e.type ≠ none

/-- Every entry strictly before the scan cursor `(F, I)` (in the scan order of
`storeAllElementsFromGdb`) has a defined `type`. -/
def resolvedBefore (vars : TgdbVariablesInfo) (F I : Nat) : Prop :=
  ∀ f i file e, vars[f]? = some file → file.identifiersList[i]? = some e →
    (f < F ∨ (f = F ∧ i < I)) → e.type ≠ none

/-- The cursor's inner index does not point past the end of its file's list. -/
def cursorOk (vars : TgdbVariablesInfo) (F I : Nat) : Prop :=
  ∀ file, vars[F]? = some file → I ≤ file.identifiersList.length

/-- The resolution test of the TYPE branch of `storeAllElementsFromGdb`. -/
def qualifiesT (e : GdbIdentifierInfo) : Prop :=
  e.type = none ∨ (e.type.getD []).headD ' ' = '?'

/-- `(f', i')` is at or after `(f, i)` in the scan order (later file, or same
file at a later or equal index). -/
def scanGE (f' i' f i : Nat) : Prop :=
  f < f' ∨ (f = f' ∧ i ≤ i')

/-- No entry at or after `(f, i)` in scan order passes the TYPE resolution
test. -/
def noQualifyFrom (vars : TgdbVariablesInfo) (f i : Nat) : Prop :=
  ∀ f' i' file e, vars[f']? = some file → file.identifiersList[i']? = some e →
    scanGE f' i' f i → ¬ qualifiesT e

/-- No entry at or after `(f₀, i₀)` in scan order and lexicographically before
`(f, i)` passes the TYPE resolution test (the elements skipped by one scan). -/
def noQualifyBetween (vars : TgdbVariablesInfo) (f₀ i₀ f i : Nat) : Prop :=
  ∀ f' i' file e, vars[f']? = some file → file.identifiersList[i']? = some e →
    scanGE f' i' f₀ i₀ → (f' < f ∨ (f' = f ∧ i' < i)) → ¬ qualifiesT e

/-- Removal of the identifier entry at position `(fj, j)` of the collection. -/
def varsEraseAt (vars : TgdbVariablesInfo) (fj j : Nat) : TgdbVariablesInfo :=
  listModify vars fj (fun file => { file with identifiersList := file.identifiersList.eraseIdx j })

/-- Upper bound on the number of scan steps `storeScanGo` performs from the
cursor `(f, i)`. -/
def tailSteps (vars : TgdbVariablesInfo) (f i : Nat) : Nat :=
  ((vars.drop (f + 1)).map (fun file => file.identifiersList.length + 1)).sum +
    ((vars[f]?.map (fun file => file.identifiersList.length + 1 - i)).getD 0) + 1

/-- The collection update of the TYPE found-branch of `storeScanGo`, as a
standalone function of the scanned position: the splice position returned by
`extractType` decides which object the source's `element.type = …` assignment
actually reaches. -/
def typeScanUpdate (vars newInfo : TgdbVariablesInfo) (resp : JSStr) (expand : Bool)
    (file : GdbVariableInfo) (element : GdbIdentifierInfo) (f i : Nat) :
    TgdbVariablesInfo × TgdbVariablesInfo :=
  let strippedT := jsTrim (jsSubstring resp 7 ((resp.length : Int) - 6))
  let er := extractType vars newInfo file.filename strippedT element.identifier
    element.classHierarchy expand
  (match er.2.2.2 with
   | some (fj, j) =>
     if fj = f ∧ j = i then er.2.1
     else if fj = f ∧ j < i then
       modifyEntryAt er.2.1 f (i - 1) (fun e => { e with type := some er.1 })
     else modifyEntryAt er.2.1 f i (fun e => { e with type := some er.1 })
   | none => modifyEntryAt er.2.1 f i (fun e => { e with type := some er.1 }),
   er.2.2.1)

/-- Position of a state in the forward order of the session's state machine. -/
def stateRank : State → Nat
  | State.START_GDB => 0
  | State.SET_METHODS_OFF => 1
  | State.SET_TYPEDEFS_OFF => 2
  | State.GET_VARIABLES_INFO => 3
  | State.GET_TYPE => 4
  | State.GET_SIZE => 5
  | State.GET_ADDRESS => 6
  | State.IDLE => 7

/-- The progress invariant, as a predicate on the relevant fields: the stored
progress value is a finite number bounded by the least value the next
progress computation can produce, the SIZE/ADDRESS response counters are
covered by the still-unresolved entry counts, the phase bookkeeping
(`numberOfVariables`, `allTypesDefined`, the TYPE resume cursor) is accurate,
and the remembered previous state never runs ahead of the current one. -/
def progressInvP (cur prev : State) (p : Option Nat) (c n : Nat)
    (vars : TgdbVariablesInfo) (F I : Nat) : Prop :=
  (∃ p₀, p = some p₀ ∧ p₀ ≤ 100 ∧
    (match cur with
     | State.START_GDB => p₀ = 0
     | State.SET_METHODS_OFF => p₀ = 0
     | State.SET_TYPEDEFS_OFF => p₀ = 0
     | State.GET_VARIABLES_INFO => p₀ ≤ 10
     | State.GET_TYPE => p₀ ≤ 25
     | State.GET_SIZE =>
       (prev ≠ State.GET_SIZE → p₀ ≤ 50) ∧
       (prev = State.GET_SIZE →
         p₀ ≤ 50 + 25 * c / n ∧ c + countTypeValueNone vars ≤ n)
     | State.GET_ADDRESS =>
       (prev ≠ State.GET_ADDRESS → p₀ ≤ 75) ∧
       (prev = State.GET_ADDRESS →
         p₀ ≤ 75 + 25 * c / n ∧ c + countAddressNone vars ≤ n)
     | State.IDLE => True)) ∧
  (cur = State.GET_SIZE → n = computeNumberOfVariables vars ∧ allTypesDefined vars) ∧
  (cur = State.GET_ADDRESS → n = computeNumberOfVariables vars) ∧
  (cur = State.GET_TYPE → resolvedBefore vars F I ∧ cursorOk vars F I) ∧
  (prev = State.GET_SIZE → 5 ≤ stateRank cur) ∧
  (prev = State.GET_ADDRESS → 6 ≤ stateRank cur)

/-- The progress invariant of an `ElfParser` state. -/
def progressInv (st : ElfParserState) : Prop :=
  progressInvP st.currentState st.previousState st.progressStatus st.gdbResponseCounter
    st.numberOfVariables st.gdbVariablesInfo st.currentFilenameIdx st.currentIdentifierIdx

def feedChunksP : ElfParserState → List JSStr → ElfParserState × List (Option Nat)
  | st, [] => (st, [])
  | st, ch :: rest =>
    ((feedChunksP (readData st ch).1 rest).1,
      (readData st ch).2.2.2 ++ (feedChunksP (readData st ch).1 rest).2)



theorem stripMarkersFold_length (markers : List JSStr) (hm : ∀ m ∈ markers, m ≠ [])
    (s : JSStr) (b : Bool) :
    (markers.foldl
      (fun acc m => if jsStartsWith acc.1 m then (acc.1.drop m.length, true) else acc)
      (s, b)).1.length ≤ s.length ∧
    ((markers.foldl
      (fun acc m => if jsStartsWith acc.1 m then (acc.1.drop m.length, true) else acc)
      (s, b)).2 = true → b = true ∨
      (markers.foldl
        (fun acc m => if jsStartsWith acc.1 m then (acc.1.drop m.length, true) else acc)
        (s, b)).1.length < s.length) := by
  induction markers generalizing s b with
  | nil => simp
  | cons m ms ih =>
    have hm' : ∀ x ∈ ms, x ≠ [] := fun x hx => hm x (List.mem_cons_of_mem m hx)
    simp only [List.foldl_cons]
    by_cases hp : jsStartsWith s m = true
    · simp only [hp, if_pos]
      have hmm : m ≠ [] := hm m (List.mem_cons_self m ms)
      have hml : 0 < m.length := List.length_pos.mpr hmm
      have hple : m.length ≤ s.length := by
        have := List.isPrefixOf_iff_prefix.mp hp
        exact this.length_le
      have hlt : (s.drop m.length).length < s.length := by
        simp only [List.length_drop]; omega
      rcases ih hm' (s.drop m.length) true with ⟨h1, _⟩
      exact ⟨le_trans h1 (le_of_lt hlt), fun _ => Or.inr (lt_of_le_of_lt h1 hlt)⟩
    · simp only [hp, if_neg, Bool.false_eq_true, not_false_iff, reduceIte]
      exact ih hm' s b

theorem stripMarkersOnce_length (markers : List JSStr) (hm : ∀ m ∈ markers, m ≠ [])
    (s : JSStr) (h : (stripMarkersOnce markers s).2 = true) :
    (stripMarkersOnce markers s).1.length < s.length := by
  rcases stripMarkersFold_length markers hm s false with ⟨_, h2⟩
  rcases h2 h with h3 | h3
  · cases h3
  · exact h3

/-- Both occurrence indices returned by `strFind` lie within the string. -/
theorem strFind_le_length (pat : JSStr) :
    ∀ s i, strFind pat s = some i → i ≤ s.length := by
  intro s
  induction s with
  | nil =>
    intro i h
    simp only [strFind] at h
    split at h
    · cases h; simp
    · cases h
  | cons c t ih =>
    intro i h
    simp only [strFind] at h
    split at h
    · cases h; simp
    · rcases Option.map_eq_some'.mp h with ⟨j, hj, rfl⟩
      have := ih j hj
      simp only [List.length_cons]
      omega

/-- A non-empty pattern has no occurrence in the empty string. -/
theorem strFind_nil_of_ne (pat : JSStr) (hp : pat ≠ []) : strFind pat [] = none := by
  simp only [strFind]
  split
  · rename_i hpre
    have := List.isPrefixOf_iff_prefix.mp hpre
    rcases List.prefix_nil.mp this with rfl
    exact absurd rfl hp
  · rfl

/-- Bounds for `strFindFrom` with a non-empty pattern: the occurrence starts
at or after the requested position and inside the string. -/
theorem strFindFrom_bounds (pat s : JSStr) (k : Nat) (hp : pat ≠ []) {i : Nat}
    (h : strFindFrom pat s k = some i) : k ≤ i ∧ i ≤ s.length := by
  simp only [strFindFrom] at h
  rcases Option.map_eq_some'.mp h with ⟨j, hj, rfl⟩
  have hjle := strFind_le_length pat _ _ hj
  simp only [List.length_drop] at hjle
  by_cases hk : k ≤ s.length
  · have hmin : min k s.length = k := Nat.min_eq_left hk
    rw [hmin] at hj hjle ⊢
    omega
  · have hmin : min k s.length = s.length := Nat.min_eq_right (by omega)
    rw [hmin] at hj
    rw [List.drop_length] at hj
    rw [strFind_nil_of_ne pat hp] at hj
    cases hj

theorem wsRunFrom_le (s : JSStr) (i : Nat) (hi : i ≤ s.length) :
    i + wsRunFrom s i ≤ s.length := by
  have h1 : ((s.drop i).takeWhile jsIsWhitespace).length ≤ (s.drop i).length :=
    (List.takeWhile_sublist _).length_le
  simp only [wsRunFrom]
  simp only [List.length_drop] at h1
  omega

theorem allowedRunFrom_le (s : JSStr) (i : Nat) (hi : i ≤ s.length) :
    i + allowedRunFrom s i ≤ s.length := by
  have h1 : ((s.drop i).takeWhile inheritAllowedChar).length ≤ (s.drop i).length :=
    (List.takeWhile_sublist _).length_le
  simp only [allowedRunFrom]
  simp only [List.length_drop] at h1
  omega

theorem charPositionsFrom_mem (s : JSStr) (c : Char) (start : Nat) {p : Nat}
    (h : p ∈ charPositionsFrom s c start) : start ≤ p ∧ p < s.length := by
  simp only [charPositionsFrom, List.mem_filter, List.mem_range] at h
  rcases h with ⟨h1, h2⟩
  simp only [Bool.and_eq_true, decide_eq_true_eq] at h2
  exact ⟨h2.1, h1⟩

theorem inheritTailEnd_bounds (s : JSStr) (j : Nat) {e : Nat}
    (h : inheritTailEnd s j = some e) : j ≤ e ∧ e ≤ s.length := by
  simp only [inheritTailEnd] at h
  rcases List.exists_of_findSome?_eq_some h with ⟨p1, hp1, hf⟩
  rcases List.exists_of_findSome?_eq_some hf with ⟨q1, hq1, hg⟩
  have hp1j : j ≤ p1 := by
    by_cases hc : j < s.length ∧ s.getD j ' ' = '<'
    · rw [if_pos hc] at hp1
      simp only [List.mem_append, List.mem_map, List.mem_singleton] at hp1
      rcases hp1 with ⟨x, hx, rfl⟩ | rfl
      · have := (charPositionsFrom_mem s '>' (j + 1) hx).1
        omega
      · omega
    · rw [if_neg hc] at hp1
      simp only [List.mem_singleton] at hp1
      omega
  have hq1p : p1 ≤ q1 := by
    by_cases hc : p1 + wsRunFrom s p1 < s.length ∧ s.getD (p1 + wsRunFrom s p1) ' ' = '['
    · rw [if_pos hc] at hq1
      simp only [List.mem_append, List.mem_map, List.mem_singleton] at hq1
      rcases hq1 with ⟨x, hx, rfl⟩ | rfl
      · have := (charPositionsFrom_mem s ']' _ hx).1
        omega
      · omega
    · rw [if_neg hc] at hq1
      simp only [List.mem_singleton] at hq1
      omega
  split at hg
  · cases hg
    rename_i heq
    constructor <;> omega
  · split at hg
    · cases hg
      rename_i hlt
      constructor <;> omega
    · cases hg

theorem inheritMatchAt_bounds (s : JSStr) (i : Nat) {g : JSStr} {e : Nat}
    (h : inheritMatchAt s i = some (g, e)) : i < e ∧ e ≤ s.length := by
  simp only [inheritMatchAt] at h
  rcases List.exists_of_findSome?_eq_some h with ⟨back, _hback, hf⟩
  split at hf
  · cases hf
  · rename_i hb0
    split at hf
    · rename_i e' he'
      cases hf
      have := inheritTailEnd_bounds s _ he'
      constructor <;> omega
    · cases hf

theorem inheritScanFrom_bounds (s : JSStr) (i : Nat) {g : JSStr} {e : Nat}
    (h : inheritScanFrom s i = some (g, e)) : i < e ∧ e ≤ s.length := by
  simp only [inheritScanFrom] at h
  rcases List.exists_of_findSome?_eq_some h with ⟨d, _hd, hf⟩
  have := inheritMatchAt_bounds s (i + d) hf
  constructor <;> omega

/-! ### Soundness and completeness of the occurrence search -/

theorem strFind_some_prefixOf (pat : JSStr) :
    ∀ s i, strFind pat s = some i → List.isPrefixOf pat (s.drop i) = true := by
  intro s
  induction s with
  | nil =>
    intro i h
    simp only [strFind] at h
    split at h
    · rename_i hp
      cases h
      simpa using hp
    · cases h
  | cons c t ih =>
    intro i h
    simp only [strFind] at h
    split at h
    · rename_i hp
      cases h
      simpa using hp
    · rcases Option.map_eq_some'.mp h with ⟨j, hj, rfl⟩
      simpa using ih j hj

theorem strFind_none_not_prefix (pat : JSStr) :
    ∀ s, strFind pat s = none → ∀ i, List.isPrefixOf pat (s.drop i) = false := by
  intro s
  induction s with
  | nil =>
    intro h i
    simp only [strFind] at h
    split at h
    · cases h
    · rename_i hp
      simpa [List.drop_nil] using (Bool.not_eq_true _).mp hp
  | cons c t ih =>
    intro h i
    simp only [strFind] at h
    split at h
    · cases h
    · rename_i hp
      have ht : strFind pat t = none := by
        cases hft : strFind pat t with
        | none => rfl
        | some j => rw [hft] at h; cases h
      cases i with
      | zero => simpa using (Bool.not_eq_true _).mp hp
      | succ i' => simpa using ih ht i'

theorem isSome_strFind_iff_infixOf (pat s : JSStr) :
    (strFind pat s).isSome = true ↔ pat <:+: s := by
  constructor
  · intro h
    cases hf : strFind pat s with
    | none => rw [hf] at h; cases h
    | some i =>
      have hp := strFind_some_prefixOf pat s i hf
      have hp2 : pat <+: s.drop i := List.isPrefixOf_iff_prefix.mp hp
      rcases hp2 with ⟨t, ht⟩
      exact ⟨s.take i, t, by rw [List.append_assoc, ht, List.take_append_drop]⟩
  · rintro ⟨u, v, huv⟩
    cases hf : strFind pat s with
    | some i => rfl
    | none =>
      have := strFind_none_not_prefix pat s hf u.length
      have hdrop : s.drop u.length = pat ++ v := by
        rw [← huv, List.append_assoc, List.drop_left]
      rw [hdrop] at this
      have hpref : List.isPrefixOf pat (pat ++ v) = true :=
        List.isPrefixOf_iff_prefix.mpr (List.prefix_append pat v)
      rw [this] at hpref
      cases hpref

/-! ### Claim C10 — `checkClassRecursion` is a plain substring test -/

/-- Claim C10: `checkClassRecursion(classHierarchy, className)` returns true
 if and only if `className` occurs as a substring of `classHierarchy` (not
 only as a complete dot-delimited component), and the empty class name is
 always reported as recursive. -/
theorem claim_C10_checkClassRecursion_substring :
    (∀ h c : JSStr, checkClassRecursion h c = true ↔ c <:+: h) ∧
    (∀ h : JSStr, checkClassRecursion h (jstr "") = true) := by
  have main : ∀ h c : JSStr, checkClassRecursion h c = true ↔ c <:+: h := by
    intro h c
    rw [← isSome_strFind_iff_infixOf c h]
    simp only [checkClassRecursion, jsIndexOf]
    cases hf : strFind c h with
    | none => simp
    | some i => simp
  refine ⟨main, fun h => (main h (jstr "")).mpr ?_⟩
  exact ⟨[], h, rfl⟩

/-! ### Membership helpers for occurrence searches -/

theorem mem_dropWhile_of_mem {c : Char} {p : Char → Bool} (hc : p c = false) :
    ∀ {l : List Char}, c ∈ l → c ∈ l.dropWhile p := by
  intro l
  induction l with
  | nil => intro h; cases h
  | cons a t ih =>
    intro h
    by_cases hpa : p a = true
    · rw [List.dropWhile_cons_of_pos hpa]
      rcases List.mem_cons.mp h with rfl | hmem
      · rw [hpa] at hc; cases hc
      · exact ih hmem
    · rw [List.dropWhile_cons_of_neg hpa]
      exact h

theorem mem_jsTrim {c : Char} (hc : jsIsWhitespace c = false) {s : JSStr}
    (h : c ∈ s) : c ∈ jsTrim s := by
  simp only [jsTrim]
  rw [List.mem_reverse]
  apply mem_dropWhile_of_mem hc
  rw [List.mem_reverse]
  exact mem_dropWhile_of_mem hc h

theorem mem_stripMarkersFold {c : Char} :
    ∀ (markers : List JSStr), (∀ m ∈ markers, c ∉ m) →
    ∀ (s : JSStr) (b : Bool), c ∈ s →
    c ∈ (markers.foldl
      (fun acc m => if jsStartsWith acc.1 m then (acc.1.drop m.length, true) else acc)
      (s, b)).1 := by
  intro markers
  induction markers with
  | nil => intro _ s b h; simpa using h
  | cons m ms ih =>
    intro hm s b h
    have hm' : ∀ x ∈ ms, c ∉ x := fun x hx => hm x (List.mem_cons_of_mem m hx)
    simp only [List.foldl_cons]
    by_cases hp : jsStartsWith s m = true
    · rw [if_pos hp]
      apply ih hm'
      rcases List.isPrefixOf_iff_prefix.mp hp with ⟨rest, hrest⟩
      have hdrop : s.drop m.length = rest := by
        rw [← hrest, List.drop_left]
      rw [hdrop]
      rcases List.mem_append.mp (hrest ▸ h) with hin | hin
      · exact absurd hin (hm m (List.mem_cons_self m ms))
      · exact hin
    · rw [if_neg hp]
      exact ih hm' s b h

theorem mem_stripMarkersLoop {c : Char} (markers : List JSStr) (hc : ∀ m ∈ markers, c ∉ m) :
    ∀ (fuel : Nat) (s : JSStr), c ∈ s → c ∈ stripMarkersLoop markers fuel s := by
  intro fuel
  induction fuel with
  | zero =>
    intro s h
    simpa [stripMarkersLoop] using h
  | succ n ih =>
    intro s h
    simp only [stripMarkersLoop]
    split
    · exact ih _ (mem_stripMarkersFold markers hc s false h)
    · exact mem_stripMarkersFold markers hc s false h

theorem mem_removeStorageClassSpecifier {c : Char} (hc : ∀ m ∈ storageMarkers, c ∉ m)
    {s : JSStr} (h : c ∈ s) : c ∈ removeStorageClassSpecifier s :=
  mem_stripMarkersLoop storageMarkers hc (s.length + 1) s h

theorem singleton_infix_iff_mem {c : Char} {s : List Char} : [c] <:+: s ↔ c ∈ s := by
  constructor
  · rintro ⟨u, v, rfl⟩
    simp
  · intro h
    rcases List.append_of_mem h with ⟨u, v, rfl⟩
    exact ⟨u, v, by simp⟩

theorem strFindLast_isSome_eq (pat : JSStr) :
    ∀ s, (strFindLast pat s).isSome = (strFind pat s).isSome := by
  intro s
  induction s with
  | nil => rfl
  | cons a t ih =>
    cases hl : strFindLast pat t with
    | some j =>
      have hs : (strFind pat t).isSome = true := by rw [← ih, hl]; rfl
      cases hf : strFind pat t with
      | none => rw [hf] at hs; cases hs
      | some k =>
        simp only [strFindLast, strFind, hl, hf]
        split <;> simp
    | none =>
      have hs : (strFind pat t).isSome = false := by rw [← ih, hl]; rfl
      cases hf : strFind pat t with
      | some k => rw [hf] at hs; cases hs
      | none =>
        simp only [strFindLast, strFind, hl, hf]
        split <;> simp

theorem jsLastIndexOf_ne_neg_one_of_mem {c : Char} {s : JSStr} (h : c ∈ s) :
    (jsLastIndexOf s [c] != -1) = true := by
  have hinf : [c] <:+: s := singleton_infix_iff_mem.mpr h
  have hsome : (strFind [c] s).isSome = true := (isSome_strFind_iff_infixOf [c] s).mpr hinf
  have hlast : (strFindLast [c] s).isSome = true := by
    rw [strFindLast_isSome_eq]; exact hsome
  simp only [jsLastIndexOf]
  cases hl : strFindLast [c] s with
  | none => rw [hl] at hlast; cases hlast
  | some i => simp

/-! ### Claim C2 — the `computeTypeValue` classification table -/

theorem starMem_to_check {expr : JSStr} (h : '*' ∈ expr) :
    (jsLastIndexOf (removeStorageClassSpecifier (jsTrim expr)) (jstr "*") != -1) = true := by
  have h1 : '*' ∈ jsTrim expr := mem_jsTrim (by decide) h
  have h2 : '*' ∈ removeStorageClassSpecifier (jsTrim expr) :=
    mem_removeStorageClassSpecifier (by decide) h1
  exact jsLastIndexOf_ne_neg_one_of_mem h2

/-- Claim C2: `computeTypeValue`, after stripping storage qualifiers,
satisfies the classification table — `("unsigned char", size 1)` yields
`UNSIGNED_8`; `("int", size 2)` yields `SIGNED_16`; `("int", size 4)` yields
`SIGNED_32`; `("double", size 8)` yields `DOUBLE`; and for every type string
containing `*` the result depends only on the measured size (1 yields
`UNSIGNED_8`, 4 yields `UNSIGNED_32`, any other size yields `UNSIGNED_16`),
regardless of the pointed-to type. -/
theorem claim_C2_computeTypeValue_table (size : JSStr) :
    (sizeOfReply size = jstr "1" →
      computeTypeValue (jstr "unsigned char") size = TYPE_VALUE.UNSIGNED_8) ∧
    (sizeOfReply size = jstr "2" →
      computeTypeValue (jstr "int") size = TYPE_VALUE.SIGNED_16) ∧
    (sizeOfReply size = jstr "4" →
      computeTypeValue (jstr "int") size = TYPE_VALUE.SIGNED_32) ∧
    (sizeOfReply size = jstr "8" →
      computeTypeValue (jstr "double") size = TYPE_VALUE.DOUBLE) ∧
    (∀ expr : JSStr, '*' ∈ expr →
      computeTypeValue expr size =
        (if sizeOfReply size = jstr "1" then TYPE_VALUE.UNSIGNED_8
         else if sizeOfReply size = jstr "4" then TYPE_VALUE.UNSIGNED_32
         else TYPE_VALUE.UNSIGNED_16)) := by
  refine ⟨?_, ?_, ?_, ?_, ?_⟩
  · intro hs
    simp only [computeTypeValue, hs]
    decide
  · intro hs
    simp only [computeTypeValue, hs]
    decide
  · intro hs
    simp only [computeTypeValue, hs]
    decide
  · intro hs
    simp only [computeTypeValue, hs]
    decide
  · intro expr hmem
    have hch := starMem_to_check hmem
    simp only [computeTypeValue, hch, if_pos]
    by_cases h1 : sizeOfReply size = jstr "1"
    · have h4 : sizeOfReply size ≠ jstr "4" := by rw [h1]; decide
      simp only [h1, h4, if_pos, if_neg, reduceIte]
      decide
    · by_cases h4 : sizeOfReply size = jstr "4"
      · simp only [h1, h4, reduceIte]
        decide
      · simp [h1, h4]

/-- Witness for C2, at the concrete sizes of the spec's table and the
pointer type `char *` of size 4. -/
theorem claim_C2_witness :
    computeTypeValue (jstr "unsigned char") (jstr "$1 = 1") = TYPE_VALUE.UNSIGNED_8 ∧
    computeTypeValue (jstr "int") (jstr "$1 = 2") = TYPE_VALUE.SIGNED_16 ∧
    computeTypeValue (jstr "int") (jstr "$1 = 4") = TYPE_VALUE.SIGNED_32 ∧
    computeTypeValue (jstr "double") (jstr "$1 = 8") = TYPE_VALUE.DOUBLE ∧
    computeTypeValue (jstr "char *") (jstr "$1 = 4") = TYPE_VALUE.UNSIGNED_32 := by
  refine ⟨?_, ?_, ?_, ?_, ?_⟩
  · exact (claim_C2_computeTypeValue_table (jstr "$1 = 1")).1 (by decide)
  · exact (claim_C2_computeTypeValue_table (jstr "$1 = 2")).2.1 (by decide)
  · exact (claim_C2_computeTypeValue_table (jstr "$1 = 4")).2.2.1 (by decide)
  · exact (claim_C2_computeTypeValue_table (jstr "$1 = 8")).2.2.2.1 (by decide)
  · have := (claim_C2_computeTypeValue_table (jstr "$1 = 4")).2.2.2.2 (jstr "char *")
      (by decide)
    rw [this]
    decide

/-! ### Claim C4 — the class recursion guard of `extractType` -/

/-- Claim C4: for every class-type reply whose extracted class name already
occurs in the class-hierarchy tag passed in, `extractType` returns the empty
string as a leaf type without adding any member entries to the
pending-expansion collection and without removing the entry from the variable
collection (so a self-referential class causes no recursion at the recursive
occurrence). -/
theorem claim_C4_extractType_cycle_guard
    (variablesInfo newVariablesInfo : TgdbVariablesInfo)
    (filename expr rootIdentifier : JSStr) (rootHierarchy : Option JSStr)
    (bExpandTableElements : Bool)
    (hclass : jsStartsWith (removeStorageClassSpecifier (jsTrim expr)) (jstr "class ") = true)
    (hbrace : jsIndexOf (removeStorageClassSpecifier (jsTrim expr)) (jstr "\x7b") ≠ -1)
    (hrec : checkClassRecursion (rootHierarchy.getD (jstr ""))
        (jsTrim (jsSubstring (removeStorageClassSpecifier (jsTrim expr)) 5
          (if jsIndexOf (removeStorageClassSpecifier (jsTrim expr)) (jstr " : ") = -1
           then jsIndexOf (removeStorageClassSpecifier (jsTrim expr)) (jstr "\x7b")
           else jsIndexOf (removeStorageClassSpecifier (jsTrim expr)) (jstr " : ")))) = true) :
    extractType variablesInfo newVariablesInfo filename expr rootIdentifier rootHierarchy
      bExpandTableElements = (jstr "", variablesInfo, newVariablesInfo, none) := by
  simp only [extractType]
  rw [if_pos (Or.inr (Or.inr hclass))]
  rw [if_neg hbrace]
  rw [if_pos hclass]
  rw [if_pos ⟨hclass, hrec⟩]

/-- Witness for C4: a self-referential class reply (`class A` with `.A`
already in the hierarchy tag) resolves to the empty leaf type and leaves
both collections untouched. -/
theorem claim_C4_witness :
    extractType [] [] (jstr "f.c") (jstr "class A : public B \x7bint x;\x7d") (jstr "obj")
      (some (jstr ".A")) false = (jstr "", [], [], none) :=
  claim_C4_extractType_cycle_guard [] [] (jstr "f.c")
    (jstr "class A : public B \x7bint x;\x7d") (jstr "obj")
    (some (jstr ".A")) false (by decide) (by decide) (by decide)

/-! ### Claims C5 and C6 — `readElf` precondition handling -/

/-- Claim C6: for every file path that does not exist, `readElf` returns the
`FILE_NOT_FOUND` status, invokes the result callback exactly once with an
empty list, and does not spawn the debugger subprocess. -/
theorem claim_C6_readElf_file_not_found (st : ElfParserState) (callback : Nat)
    (expandTableElements : Bool) (progressCallback : Option Nat) :
    (readElf st false callback expandTableElements progressCallback).2.status =
      Status.ELFPARSER_ELFFILENAME_NOT_FOUND ∧
    (readElf st false callback expandTableElements progressCallback).2.callbackCalls =
      [(callback, [])] ∧
    (readElf st false callback expandTableElements progressCallback).2.spawned = false ∧
    (readElf st false callback expandTableElements progressCallback).1.gdbProcess =
      st.gdbProcess := by
  simp [readElf]

/-- Counterexample to C5 as stated: calling `readElf` on a busy instance
does return `PARSING_ONGOING` and calls the new callback once with `[]`, but
it does NOT leave the stored result callback, expand-arrays flag and
progress callback untouched — all three are overwritten with the new values
before the busy check runs, so the in-flight session will use them. -/
theorem claim_C5_counterexample :
    (readElf busyState true 7 false none).2.status = Status.ELFPARSER_PARSING_ONGOING ∧
    busyState.callback = 1 ∧
    busyState.expandTableElements = true ∧
    busyState.progressCallback = some 2 ∧
    (readElf busyState true 7 false none).1.callback = 7 ∧
    (readElf busyState true 7 false none).1.expandTableElements = false ∧
    (readElf busyState true 7 false none).1.progressCallback = none := by
  decide

/-- Claim C5 as amended: on a busy instance (state not `IDLE`) with an
existing file, `readElf` returns `PARSING_ONGOING`, invokes the newly
supplied callback once with an empty list, spawns no new subprocess, and
leaves every field of the in-flight session unchanged EXCEPT the stored
result callback, expand-arrays flag and progress callback, which are
overwritten with the newly supplied values. -/
theorem claim_C5_amended_readElf_busy (st : ElfParserState) (callback : Nat)
    (expandTableElements : Bool) (progressCallback : Option Nat)
    (hbusy : st.currentState ≠ State.IDLE) :
    (readElf st true callback expandTableElements progressCallback).2.status =
      Status.ELFPARSER_PARSING_ONGOING ∧
    (readElf st true callback expandTableElements progressCallback).2.callbackCalls =
      [(callback, [])] ∧
    (readElf st true callback expandTableElements progressCallback).2.spawned = false ∧
    (readElf st true callback expandTableElements progressCallback).1 =
      { st with
          callback := callback
          expandTableElements := expandTableElements
          progressCallback := progressCallback } := by
  refine ⟨?_, ?_, ?_, ?_⟩ <;> simp [readElf, hbusy]

/-- Witness for the amended C5 at a concrete busy instance. -/
theorem claim_C5_amended_witness :
    (readElf busyState true 7 false none).2.status = Status.ELFPARSER_PARSING_ONGOING ∧
    (readElf busyState true 7 false none).2.callbackCalls = [(7, [])] ∧
    (readElf busyState true 7 false none).2.spawned = false ∧
    (readElf busyState true 7 false none).1 =
      { busyState with
          callback := 7
          expandTableElements := false
          progressCallback := none } :=
  claim_C5_amended_readElf_busy busyState 7 false none (by decide)

/-! ### Claim C7 — fragmentation-invariant response framing -/

theorem strFind_occ_bound (pat s : JSStr) {i : Nat} (h : strFind pat s = some i) :
    i + pat.length ≤ s.length := by
  have hp := strFind_some_prefixOf pat s i h
  have hp2 : pat <+: s.drop i := List.isPrefixOf_iff_prefix.mp hp
  have := hp2.length_le
  have hi := strFind_le_length pat s i h
  simp only [List.length_drop] at this
  omega

theorem prefix_of_append_of_length_le {p x y : JSStr} (h : p <+: x ++ y)
    (hl : p.length ≤ x.length) : p <+: x := by
  have h1 : p = (x ++ y).take p.length := List.prefix_iff_eq_take.mp h
  rw [List.take_append_eq_append_take] at h1
  have h2 : p.length - x.length = 0 := by omega
  rw [h2, List.take_zero, List.append_nil] at h1
  rw [List.prefix_iff_eq_take]
  exact h1

theorem strFind_append_left (pat : JSStr) :
    ∀ (a b : JSStr) {i : Nat}, strFind pat a = some i → strFind pat (a ++ b) = some i := by
  intro a
  induction a with
  | nil =>
    intro b i h
    simp only [strFind] at h
    split at h
    · rename_i hp
      cases h
      have : pat = [] := List.prefix_nil.mp (List.isPrefixOf_iff_prefix.mp hp)
      subst this
      cases b with
      | nil => simp [strFind]
      | cons c t => simp [strFind, List.isPrefixOf]
    · cases h
  | cons c t ih =>
    intro b i h
    simp only [strFind] at h
    split at h
    · rename_i hp
      cases h
      have hp2 : pat <+: c :: (t ++ b) := by
        have h3 := (List.isPrefixOf_iff_prefix.mp hp).trans (List.prefix_append (c :: t) b)
        simpa using h3
      show strFind pat (c :: (t ++ b)) = some 0
      simp only [strFind]
      rw [if_pos (List.isPrefixOf_iff_prefix.mpr hp2)]
    · rename_i hp
      rcases Option.map_eq_some'.mp h with ⟨j, hj, rfl⟩
      have hlen : pat.length ≤ t.length := by
        have := strFind_occ_bound pat t hj
        omega
      have hnp : ¬ List.isPrefixOf pat (c :: (t ++ b)) = true := by
        intro hcon
        have hcp : pat <+: c :: (t ++ b) := List.isPrefixOf_iff_prefix.mp hcon
        have hcp2 : pat <+: (c :: t) ++ b := by simpa using hcp
        have : pat <+: c :: t :=
          prefix_of_append_of_length_le hcp2 (by simp only [List.length_cons]; omega)
        exact hp (List.isPrefixOf_iff_prefix.mpr this)
      show strFind pat (c :: (t ++ b)) = some (j + 1)
      simp only [strFind]
      rw [if_neg hnp, ih b hj]
      rfl

theorem framesOf_stable :
    ∀ (f : Nat) (buf : JSStr) (f' : Nat), buf.length < f → buf.length < f' →
      framesOf f buf = framesOf f' buf := by
  intro f
  induction f with
  | zero => intro buf f' h _; omega
  | succ k ih =>
    intro buf f' h h'
    cases f' with
    | zero => omega
    | succ k' =>
      simp only [framesOf]
      by_cases hb : buf = []
      · simp [hb]
      · rw [if_neg hb, if_neg hb]
        cases he : strFind GDB_PROMPT buf with
        | none => rfl
        | some e =>
          have hbound := strFind_occ_bound GDB_PROMPT buf he
          simp only [jstr, GDB_PROMPT] at hbound
          have hrest : (buf.drop (e + 6)).length = buf.length - (e + 6) :=
            List.length_drop _ _
          have hrw := ih (buf.drop (e + 6)) k' (by simp [GDB_PROMPT, jstr] at hbound; omega)
            (by simp [GDB_PROMPT, jstr] at hbound; omega)
          simp only [hrw]

theorem framesSplit_eq_framesOf (f : Nat) (buf : JSStr) (h : buf.length < f) :
    framesOf f buf = framesSplit buf :=
  framesOf_stable f buf (buf.length + 1) h (Nat.lt_succ_self _)

theorem framesSplit_remainder_none :
    ∀ (n : Nat) (buf : JSStr), buf.length ≤ n →
      strFind GDB_PROMPT (framesSplit buf).2 = none := by
  intro n
  induction n with
  | zero =>
    intro buf h
    have : buf = [] := List.length_eq_zero.mp (Nat.le_zero.mp h)
    subst this
    decide
  | succ k ih =>
    intro buf h
    simp only [framesSplit, framesOf]
    by_cases hb : buf = []
    · subst hb; decide
    · rw [if_neg hb]
      cases he : strFind GDB_PROMPT buf with
      | none => exact he
      | some e =>
        have hbound := strFind_occ_bound GDB_PROMPT buf he
        simp only [GDB_PROMPT, jstr] at hbound
        have hlt : (buf.drop (e + 6)).length < buf.length := by
          simp only [List.length_drop]
          simp at hbound
          omega
        have heq := framesSplit_eq_framesOf buf.length (buf.drop (e + 6)) hlt
        simp only [heq]
        exact ih (buf.drop (e + 6)) (by simp only [List.length_drop]; omega)

theorem frame_suffix_prompt {buf : JSStr} {e : Nat} (he : strFind GDB_PROMPT buf = some e) :
    GDB_PROMPT <:+ buf.take (e + 6) := by
  have hp : GDB_PROMPT <+: buf.drop e :=
    List.isPrefixOf_iff_prefix.mp (strFind_some_prefixOf GDB_PROMPT buf e he)
  have htake : (buf.drop e).take 6 = GDB_PROMPT := by
    have h1 : GDB_PROMPT = (buf.drop e).take GDB_PROMPT.length := List.prefix_iff_eq_take.mp hp
    exact h1.symm
  have hsplit : buf.take (e + 6) = buf.take e ++ (buf.drop e).take 6 := by
    rw [← List.take_add]
  exact ⟨buf.take e, by rw [hsplit, htake]⟩

theorem framesSplit_frames_suffix :
    ∀ (n : Nat) (buf : JSStr), buf.length ≤ n →
      ∀ fr ∈ (framesSplit buf).1, GDB_PROMPT <:+ fr := by
  intro n
  induction n with
  | zero =>
    intro buf h fr hfr
    have : buf = [] := List.length_eq_zero.mp (Nat.le_zero.mp h)
    subst this
    simp [framesSplit, framesOf] at hfr
  | succ k ih =>
    intro buf h fr hfr
    simp only [framesSplit, framesOf] at hfr
    by_cases hb : buf = []
    · subst hb; simp at hfr
    · rw [if_neg hb] at hfr
      cases he : strFind GDB_PROMPT buf with
      | none => rw [he] at hfr; simp at hfr
      | some e =>
        rw [he] at hfr
        have hbound := strFind_occ_bound GDB_PROMPT buf he
        simp only [GDB_PROMPT, jstr] at hbound
        simp only [List.mem_cons] at hfr
        rcases hfr with rfl | hfr
        · exact frame_suffix_prompt he
        · have hlt : (buf.drop (e + 6)).length < buf.length := by
            simp only [List.length_drop]
            simp at hbound
            omega
          have heq := framesSplit_eq_framesOf buf.length (buf.drop (e + 6)) hlt
          rw [heq] at hfr
          exact ih (buf.drop (e + 6)) (by simp only [List.length_drop]; omega) fr hfr

theorem framesSplit_none {buf : JSStr} (he : strFind GDB_PROMPT buf = none) :
    framesSplit buf = ([], buf) := by
  show framesOf (buf.length + 1) buf = ([], buf)
  rw [framesOf]
  by_cases hb : buf = []
  · rw [if_pos hb]
  · rw [if_neg hb, he]

theorem framesSplit_cons {buf : JSStr} {e : Nat} (hb : buf ≠ [])
    (he : strFind GDB_PROMPT buf = some e) :
    framesSplit buf =
      (buf.take (e + 6) :: (framesSplit (buf.drop (e + 6))).1,
        (framesSplit (buf.drop (e + 6))).2) := by
  have hbound := strFind_occ_bound GDB_PROMPT buf he
  have hlt : (buf.drop (e + 6)).length < buf.length + 1 := by
    simp only [List.length_drop]; omega
  show framesOf (buf.length + 1) buf = _
  rw [framesOf]
  rw [if_neg hb, he]
  dsimp only
  rw [framesSplit_eq_framesOf buf.length (buf.drop (e + 6))
    (by simp only [GDB_PROMPT, jstr] at hbound; simp only [List.length_drop]; simp at hbound; omega)]

theorem framesSplit_comp :
    ∀ (n : Nat) (a : JSStr), a.length ≤ n → ∀ b : JSStr,
      framesSplit (a ++ b) =
        ((framesSplit a).1 ++ (framesSplit ((framesSplit a).2 ++ b)).1,
          (framesSplit ((framesSplit a).2 ++ b)).2) := by
  intro n
  induction n with
  | zero =>
    intro a h b
    have : a = [] := List.length_eq_zero.mp (Nat.le_zero.mp h)
    subst this
    simp [framesSplit_none, framesOf, framesSplit]
  | succ k ih =>
    intro a h b
    cases he : strFind GDB_PROMPT a with
    | none =>
      rw [framesSplit_none he]
      simp
    | some e =>
      have ha : a ≠ [] := by
        intro hcon
        subst hcon
        rw [strFind_nil_of_ne GDB_PROMPT (by decide)] at he
        cases he
      have hbound := strFind_occ_bound GDB_PROMPT a he
      have hb6 : e + 6 ≤ a.length := by
        simp only [GDB_PROMPT, jstr] at hbound
        simpa using hbound
      have hab : a ++ b ≠ [] := by
        intro hcon
        exact ha (List.append_eq_nil.mp hcon).1
      have heab : strFind GDB_PROMPT (a ++ b) = some e := strFind_append_left GDB_PROMPT a b he
      have htk : (a ++ b).take (e + 6) = a.take (e + 6) := List.take_append_of_le_length hb6
      have hdr : (a ++ b).drop (e + 6) = a.drop (e + 6) ++ b := List.drop_append_of_le_length hb6
      rw [framesSplit_cons hab heab, framesSplit_cons ha he, htk, hdr]
      rw [ih (a.drop (e + 6)) (by simp only [List.length_drop]; omega) b]
      simp

theorem storeAllElementsFromGdb_dataBuffer (st : ElfParserState) (resp : JSStr)
    (ity : InformationType) :
    (storeAllElementsFromGdb st resp ity).1.dataBuffer = st.dataBuffer := by
  simp only [storeAllElementsFromGdb]
  split <;> rfl

theorem requestAllElementsToGdb_dataBuffer (st : ElfParserState) (ity : InformationType) :
    (requestAllElementsToGdb st ity).1.dataBuffer = st.dataBuffer := by
  cases ity <;> rfl

theorem postProcessArraysInfo_dataBuffer (st : ElfParserState) :
    (postProcessArraysInfo st).dataBuffer = st.dataBuffer := by
  simp only [postProcessArraysInfo]
  split <;> rfl

theorem sendProgressStatusToClient_dataBuffer (st : ElfParserState) :
    (sendProgressStatusToClient st).1.dataBuffer = st.dataBuffer := by
  simp only [sendProgressStatusToClient]
  cases st.progressCallback with
  | none => rfl
  | some p =>
    dsimp only
    cases hc : st.currentState <;> dsimp only <;> (repeat' split) <;> rfl

theorem processFrame_dataBuffer (st : ElfParserState) (fr : JSStr) :
    (processFrame st fr).1.dataBuffer = st.dataBuffer := by
  simp only [processFrame]
  cases st.currentState <;>
    simp only [] <;>
    repeat'
      first
        | rw [storeAllElementsFromGdb_dataBuffer]
        | rw [requestAllElementsToGdb_dataBuffer]
        | rw [postProcessArraysInfo_dataBuffer]
        | rfl
        | split

theorem readDataLoopGo_spec :
    ∀ (fuel : Nat) (buf : JSStr) (st : ElfParserState), st.dataBuffer = buf →
      (readDataLoopGo fuel st buf).1.dataBuffer = (framesOf fuel buf).2 ∧
      (readDataLoopGo fuel st buf).2.1 = (framesOf fuel buf).1 := by
  intro fuel
  induction fuel with
  | zero =>
    intro buf st hst
    simp only [readDataLoopGo, framesOf]
    exact ⟨hst, trivial⟩
  | succ k ih =>
    intro buf st hst
    simp only [readDataLoopGo, framesOf]
    by_cases hb : buf = []
    · rw [if_pos hb, if_pos hb]
      exact ⟨hst, rfl⟩
    · rw [if_neg hb, if_neg hb]
      cases he : strFind GDB_PROMPT buf with
      | none => exact ⟨hst, rfl⟩
      | some e =>
        dsimp only
        have hpr : (processFrame { st with dataBuffer := buf.drop (e + 6) }
            (buf.take (e + 6))).1.dataBuffer = buf.drop (e + 6) :=
          processFrame_dataBuffer _ _
        have hih := ih (buf.drop (e + 6)) _ hpr
        exact ⟨hih.1, by rw [hih.2]⟩

theorem readData_frames (st : ElfParserState) (chunk : JSStr) :
    (readData st chunk).2.1 = (framesSplit (st.dataBuffer ++ chunk)).1 ∧
    (readData st chunk).1.dataBuffer = (framesSplit (st.dataBuffer ++ chunk)).2 := by
  simp only [readData]
  by_cases hinc : jsIncludes (st.dataBuffer ++ chunk) GDB_PROMPT = true
  · have hne : ¬ (jsIncludes (st.dataBuffer ++ chunk) GDB_PROMPT ≠ true) := by
      simpa using hinc
    rw [if_neg hne]
    have hspec := readDataLoopGo_spec ((st.dataBuffer ++ chunk).length + 1)
      (st.dataBuffer ++ chunk) { st with dataBuffer := st.dataBuffer ++ chunk } rfl
    simp only [readDataLoop] at *
    refine ⟨hspec.2, ?_⟩
    rw [sendProgressStatusToClient_dataBuffer]
    exact hspec.1
  · rw [if_pos (by simpa using hinc)]
    have hnone : strFind GDB_PROMPT (st.dataBuffer ++ chunk) = none := by
      simp only [jsIncludes] at hinc
      cases hf : strFind GDB_PROMPT (st.dataBuffer ++ chunk) with
      | none => rfl
      | some i => rw [hf] at hinc; simp at hinc
    rw [framesSplit_none hnone]
    exact ⟨rfl, rfl⟩

theorem feedChunks_go :
    ∀ (chunks : List JSStr) (st : ElfParserState) (F : List JSStr),
      strFind GDB_PROMPT st.dataBuffer = none →
      (chunks.foldl (fun acc c => ((readData acc.1 c).1, acc.2 ++ (readData acc.1 c).2.1))
          (st, F)).2 =
        F ++ (framesSplit (st.dataBuffer ++ chunks.flatten)).1 ∧
      (chunks.foldl (fun acc c => ((readData acc.1 c).1, acc.2 ++ (readData acc.1 c).2.1))
          (st, F)).1.dataBuffer =
        (framesSplit (st.dataBuffer ++ chunks.flatten)).2 := by
  intro chunks
  induction chunks with
  | nil =>
    intro st F hnone
    simp only [List.foldl_nil, List.flatten_nil, List.append_nil]
    rw [framesSplit_none hnone]
    simp
  | cons c rest ih =>
    intro st F hnone
    simp only [List.foldl_cons, List.flatten_cons]
    have hrd := readData_frames st c
    have hbuf1 : (readData st c).1.dataBuffer = (framesSplit (st.dataBuffer ++ c)).2 := hrd.2
    have hnone1 : strFind GDB_PROMPT (readData st c).1.dataBuffer = none := by
      rw [hbuf1]
      exact framesSplit_remainder_none (st.dataBuffer ++ c).length _ le_rfl
    have hih := ih (readData st c).1 (F ++ (readData st c).2.1) hnone1
    rcases hih with ⟨h1, h2⟩
    have hcomp := framesSplit_comp (st.dataBuffer ++ c).length (st.dataBuffer ++ c) le_rfl
      rest.flatten
    constructor
    · rw [h1, hbuf1, hrd.1]
      rw [List.append_assoc (st.dataBuffer) c rest.flatten] at hcomp
      rw [hcomp]
      simp
    · rw [h2, hbuf1]
      rw [List.append_assoc (st.dataBuffer) c rest.flatten] at hcomp
      rw [hcomp]

/-- Claim C7: response framing is fragmentation-invariant.  Feeding any
sequence of chunks whose concatenation is a given text produces exactly the
frame sequence of the whole text — each frame ending with the prompt
sentinel, none lost or duplicated — and the unconsumed partial tail (which
contains no prompt) remains buffered. -/
theorem claim_C7_framing_fragmentation_invariant (st : ElfParserState)
    (chunks : List JSStr) (hbuf : st.dataBuffer = []) :
    (feedChunks st chunks).2 = (framesSplit chunks.flatten).1 ∧
    (feedChunks st chunks).1.dataBuffer = (framesSplit chunks.flatten).2 ∧
    strFind GDB_PROMPT (feedChunks st chunks).1.dataBuffer = none ∧
    ∀ fr ∈ (feedChunks st chunks).2, GDB_PROMPT <:+ fr := by
  have hgo := feedChunks_go chunks st [] (by rw [hbuf]; decide)
  rw [hbuf] at hgo
  simp only [List.nil_append] at hgo
  have h1 : (feedChunks st chunks).2 = (framesSplit chunks.flatten).1 := hgo.1
  have h2 : (feedChunks st chunks).1.dataBuffer = (framesSplit chunks.flatten).2 := hgo.2
  refine ⟨h1, h2, ?_, ?_⟩
  · rw [h2]
    exact framesSplit_remainder_none chunks.flatten.length _ le_rfl
  · rw [h1]
    exact framesSplit_frames_suffix chunks.flatten.length _ le_rfl

/-- Witness for C7: a three-way fragmentation of two frames plus a tail,
with the concrete frames also evaluated. -/
theorem claim_C7_witness :
    ((feedChunks constructorState [jstr "ab(g", jstr "db) cd(gdb", jstr ") ef"]).2 =
        (framesSplit (List.flatten [jstr "ab(g", jstr "db) cd(gdb", jstr ") ef"])).1 ∧
      (feedChunks constructorState [jstr "ab(g", jstr "db) cd(gdb", jstr ") ef"]).1.dataBuffer =
        (framesSplit (List.flatten [jstr "ab(g", jstr "db) cd(gdb", jstr ") ef"])).2 ∧
      strFind GDB_PROMPT
        (feedChunks constructorState
          [jstr "ab(g", jstr "db) cd(gdb", jstr ") ef"]).1.dataBuffer = none ∧
      ∀ fr ∈ (feedChunks constructorState [jstr "ab(g", jstr "db) cd(gdb", jstr ") ef"]).2,
        GDB_PROMPT <:+ fr) ∧
    (feedChunks constructorState [jstr "ab(g", jstr "db) cd(gdb", jstr ") ef"]).2 =
      [jstr "ab(gdb) ", jstr "cd(gdb) "] ∧
    (feedChunks constructorState [jstr "ab(g", jstr "db) cd(gdb", jstr ") ef"]).1.dataBuffer =
      jstr "ef" :=
  ⟨claim_C7_framing_fragmentation_invariant constructorState
      [jstr "ab(g", jstr "db) cd(gdb", jstr ") ef"] (by rfl),
    by decide, by decide⟩

theorem strFind_singleton_shift {c : Char} :
    ∀ (d r : JSStr), c ∉ d →
      strFind [c] (d ++ r) = (strFind [c] r).map (· + d.length) := by
  intro d
  induction d with
  | nil =>
    intro r _
    simp
  | cons a t ih =>
    intro r hnm
    have ha : a ≠ c := by
      intro hcon
      exact hnm (by rw [hcon]; exact List.mem_cons_self c t)
    have hnp : ¬ List.isPrefixOf [c] (a :: (t ++ r)) = true := by
      intro hcon
      have := List.isPrefixOf_iff_prefix.mp hcon
      rcases this with ⟨u, hu⟩
      simp only [List.singleton_append, List.cons.injEq] at hu
      exact ha hu.1.symm
    show strFind [c] (a :: (t ++ r)) = _
    simp only [strFind]
    rw [if_neg hnp]
    rw [ih r (fun hm => hnm (List.mem_cons_of_mem a hm))]
    cases strFind [c] r
    · simp
    · simp
      omega

theorem strFind_singleton_boundary {c : Char} (d r : JSStr) (hnm : c ∉ d) :
    strFind [c] (d ++ c :: r) = some d.length := by
  rw [strFind_singleton_shift d (c :: r) hnm]
  have : strFind [c] (c :: r) = some 0 := by
    simp [strFind, List.isPrefixOf]
  rw [this]
  simp

theorem jsSubstringFrom_nat (s : JSStr) (k : Nat) : jsSubstringFrom s (k : Int) = s.drop k := by
  simp only [jsSubstringFrom, jsSubstring]
  have hlen : (0 : Int) ≤ (s.length : Int) := by positivity
  have h1 : max (0 : Int) (min (k : Int) (s.length : Int)) = min (k : Int) (s.length : Int) := by
    omega
  have h2 : max (0 : Int) (min (s.length : Int) (s.length : Int)) = (s.length : Int) := by
    omega
  rw [h1, h2]
  have h3 : min (min (k : Int) (s.length : Int)) (s.length : Int) =
      min (k : Int) (s.length : Int) := by omega
  have h4 : max (min (k : Int) (s.length : Int)) (s.length : Int) = (s.length : Int) := by
    omega
  rw [h3, h4]
  have h5 : ((s.length : Int)).toNat = s.length := Int.toNat_natCast _
  have h6 : (min (k : Int) (s.length : Int)).toNat = min k s.length := by omega
  rw [h5, h6, List.take_length]
  by_cases hk : k ≤ s.length
  · rw [Nat.min_eq_left hk]
  · rw [Nat.min_eq_right (by omega)]
    rw [List.drop_length]
    symm
    rw [List.drop_eq_nil_iff]
    omega

theorem jsSubstring_zero_nat (s : JSStr) (k : Nat) : jsSubstring s 0 (k : Int) = s.take k := by
  simp only [jsSubstring]
  have hlen : (0 : Int) ≤ (s.length : Int) := by positivity
  have h1 : max (0 : Int) (min (0 : Int) (s.length : Int)) = 0 := by omega
  have h2 : max (0 : Int) (min (k : Int) (s.length : Int)) = min (k : Int) (s.length : Int) := by
    omega
  rw [h1, h2]
  have h3 : min (0 : Int) (min (k : Int) (s.length : Int)) = 0 := by omega
  have h4 : max (0 : Int) (min (k : Int) (s.length : Int)) = min (k : Int) (s.length : Int) := by
    omega
  rw [h3, h4]
  have h6 : (min (k : Int) (s.length : Int)).toNat = min k s.length := by omega
  rw [h6]
  simp only [Int.toNat_zero, List.drop_zero]
  by_cases hk : k ≤ s.length
  · rw [Nat.min_eq_left hk]
  · rw [Nat.min_eq_right (by omega), List.take_length, List.take_of_length_le (by omega)]

theorem extractIdentifiers_multidim_reject (expr rootIdentifier : JSStr) (b : Bool)
    {i : Nat}
    (hfirst : strFind (jstr "[")
      (jsTrim (stripLineNumber (stripAccessSpecifiers expr))) = some i)
    (hsecond : '[' ∈ (jsTrim (stripLineNumber (stripAccessSpecifiers expr))).drop (i + 1)) :
    extractIdentifiers expr rootIdentifier b = [jstr ""] := by
  simp only [extractIdentifiers, hfirst]
  have hsub : jsSubstringFrom (jsTrim (stripLineNumber (stripAccessSpecifiers expr)))
      ((i : Int) + 1) = (jsTrim (stripLineNumber (stripAccessSpecifiers expr))).drop (i + 1) := by
    have := jsSubstringFrom_nat (jsTrim (stripLineNumber (stripAccessSpecifiers expr))) (i + 1)
    rw [← this]
    norm_num
  rw [hsub]
  have hmem := jsLastIndexOf_ne_neg_one_of_mem hsecond
  have hidx : (jsIndexOf ((jsTrim (stripLineNumber (stripAccessSpecifiers expr))).drop (i + 1))
      (jstr "[") != -1) = true := by
    have hinf : jstr "[" <:+: (jsTrim (stripLineNumber (stripAccessSpecifiers expr))).drop (i + 1) :=
      singleton_infix_iff_mem.mpr hsecond
    have hsome := (isSome_strFind_iff_infixOf (jstr "[") _).mpr hinf
    simp only [jsIndexOf]
    cases hf : strFind (jstr "[") ((jsTrim (stripLineNumber (stripAccessSpecifiers expr))).drop (i + 1)) with
    | none => rw [hf] at hsome; cases hsome
    | some j => simp
  rw [if_pos hidx]

theorem extractIdentifiers_bitfield_reject (expr rootIdentifier : JSStr) (b : Bool)
    (hnoBracket : '[' ∉ jsTrim (stripLineNumber (stripAccessSpecifiers expr)))
    (hnoStar : '*' ∉ jsTrim (stripLineNumber (stripAccessSpecifiers expr)))
    (hcolon : jstr " : " <:+: jsTrim (stripLineNumber (stripAccessSpecifiers expr))) :
    extractIdentifiers expr rootIdentifier b = [jstr ""] := by
  have hnf : strFind (jstr "[") (jsTrim (stripLineNumber (stripAccessSpecifiers expr))) = none := by
    cases hf : strFind (jstr "[") (jsTrim (stripLineNumber (stripAccessSpecifiers expr))) with
    | none => rfl
    | some j =>
      have : (strFind (jstr "[") (jsTrim (stripLineNumber (stripAccessSpecifiers expr)))).isSome
          = true := by rw [hf]; rfl
      have := (isSome_strFind_iff_infixOf _ _).mp this
      have := singleton_infix_iff_mem.mp this
      exact absurd this hnoBracket
  simp only [extractIdentifiers, hnf]
  have hstar : (jsLastIndexOf (jsTrim (stripLineNumber (stripAccessSpecifiers expr)))
      (jstr "*") != -1) = false := by
    simp only [jsLastIndexOf]
    cases hf : strFindLast (jstr "*") (jsTrim (stripLineNumber (stripAccessSpecifiers expr))) with
    | none => simp
    | some j =>
      have h1 : (strFindLast (jstr "*") (jsTrim (stripLineNumber (stripAccessSpecifiers expr)))).isSome = true := by
        rw [hf]; rfl
      rw [strFindLast_isSome_eq] at h1
      have := singleton_infix_iff_mem.mp ((isSome_strFind_iff_infixOf _ _).mp h1)
      exact absurd this hnoStar
  rw [hstar]
  have hcol : (jsIndexOf (jsTrim (stripLineNumber (stripAccessSpecifiers expr)))
      (jstr " : ") != -1) = true := by
    have hsome := (isSome_strFind_iff_infixOf (jstr " : ") _).mpr hcolon
    simp only [jsIndexOf]
    cases hf : strFind (jstr " : ") (jsTrim (stripLineNumber (stripAccessSpecifiers expr))) with
    | none => rw [hf] at hsome; cases hsome
    | some j => simp
  simp only [Bool.false_eq_true, reduceIte]
  rw [if_pos hcol]

theorem buildVarListGo_stable (rootIdentifier : JSStr) (e : Bool) :
    ∀ (f : Nat) (s : JSStr) (f' : Nat), s.length < f → s.length < f' →
      buildVarListGo rootIdentifier e f s = buildVarListGo rootIdentifier e f' s := by
  intro f
  induction f with
  | zero => intro s f' h _; omega
  | succ k ih =>
    intro s f' h h'
    cases f' with
    | zero => omega
    | succ k' =>
      simp only [buildVarListGo]
      by_cases hb : s = []
      · simp [hb]
      · rw [if_neg hb, if_neg hb]
        have hne : s.length ≠ 0 := fun hz => hb (List.length_eq_zero.mp hz)
        split
        all_goals
          split
          · rfl
          · split
            · rfl
            · rename_i endIdx heq
              have hbound := strFindFrom_bounds (jstr ";") s _ (by decide) heq
              rw [ih (s.drop (endIdx + 1)) k'
                (by simp only [List.length_drop]; omega)
                (by simp only [List.length_drop]; omega)]

theorem buildVarList_skip_rejected (d rest rootIdentifier : JSStr) (e : Bool)
    (hsemi : ';' ∉ d) (hbrace : '{' ∉ d)
    (hrej : extractIdentifiers d rootIdentifier e = [jstr ""]) :
    buildVarList (d ++ ';' :: rest) rootIdentifier e = buildVarList rest rootIdentifier e := by
  have hne : d ++ ';' :: rest ≠ [] := by simp
  have hsc : strFind (jstr ";") (d ++ ';' :: rest) = some d.length := by
    have := strFind_singleton_boundary d rest hsemi
    simpa [jstr] using this
  have hfs : jsIndexOf (d ++ ';' :: rest) (jstr ";") = (d.length : Int) := by
    simp only [jsIndexOf, hsc]
  -- the first `{`, if any, lies strictly after the first `;`
  have hcond : ¬ (jsIndexOf (d ++ ';' :: rest) (jstr "\x7b") != -1 ∧
      jsIndexOf (d ++ ';' :: rest) (jstr "\x7b") < jsIndexOf (d ++ ';' :: rest) (jstr ";")) := by
    have hshift : strFind (jstr "\x7b") (d ++ ';' :: rest) =
        (strFind (jstr "\x7b") (';' :: rest)).map (· + d.length) := by
      have := strFind_singleton_shift d (';' :: rest) hbrace
      simpa [jstr] using this
    rintro ⟨h1, h2⟩
    rw [hfs] at h2
    simp only [jsIndexOf, hshift] at h1 h2
    cases hf : strFind (jstr "\x7b") (';' :: rest) with
    | none => rw [hf] at h1; simp at h1
    | some j =>
      rw [hf] at h2
      simp only [Option.map_some'] at h2
      have hj1 : 1 ≤ j := by
        cases hj : j with
        | zero =>
          rw [hj] at hf
          simp only [strFind] at hf
          split at hf
          · rename_i hpp
            have := List.isPrefixOf_iff_prefix.mp hpp
            rcases this with ⟨u, hu⟩
            simp [jstr] at hu
          · rcases Option.map_eq_some'.mp hf with ⟨j2, _, hj2⟩
            omega
        | succ n => omega
      omega
  have hend : strFindFrom (jstr ";") (d ++ ';' :: rest) 0 = some d.length := by
    simp only [strFindFrom]
    simp only [Nat.zero_min, List.drop_zero, hsc]
    simp
  -- unfold one loop iteration of buildVarList
  show buildVarListGo rootIdentifier e ((d ++ ';' :: rest).length + 1) (d ++ ';' :: rest) =
    buildVarList rest rootIdentifier e
  rw [buildVarListGo]
  rw [if_neg hne]
  dsimp only
  rw [if_neg hcond]
  simp only [Bool.false_eq_true, reduceIte, Int.toNat_zero]
  rw [if_neg (by decide : ¬ ((0 : Int) = -1))]
  rw [hend]
  dsimp only
  rw [if_neg (by decide : ¬ ((0 : Int) != 0) = true)]
  have hsub : jsSubstring (d ++ ';' :: rest) 0 (d.length : Int) = d := by
    rw [jsSubstring_zero_nat]
    simp
  rw [hsub, hrej]
  rw [if_neg (by simp)]
  have hdrop : List.drop (d.length + 1) (d ++ ';' :: rest) = rest := by
    have he : d ++ ';' :: rest = (d ++ [';']) ++ rest := by simp
    rw [he]
    have hl : (d ++ [';']).length = d.length + 1 := by simp
    rw [← hl, List.drop_left]
  rw [hdrop, List.nil_append]
  rw [buildVarList]
  exact buildVarListGo_stable rootIdentifier e _ rest _
    (by simp only [List.length_append, List.length_cons]; omega) (by omega)

/-- **C8.** For every declarator text processed by the identifier extractor
(after its own preprocessing: access-specifier stripping, line-number
stripping and trimming): (a) if a second `[` occurs after the first `[`, the
extractor emits no identifier (the sentinel `[""]`, multi-dimensional arrays
rejected); (b) if the text contains no `[` and no `*` but contains the
`" : "` bit-field marker, the extractor emits no identifier; and (c) a
semicolon-terminated declaration whose extractor result is the sentinel is
simply omitted by the declaration-list parse `buildVarList`, which continues
with the rest of the block. -/
theorem claim_C8_rejected_declarators :
    (∀ (expr rootIdentifier : JSStr) (b : Bool) (i : Nat),
      strFind (jstr "[") (jsTrim (stripLineNumber (stripAccessSpecifiers expr))) = some i →
      '[' ∈ (jsTrim (stripLineNumber (stripAccessSpecifiers expr))).drop (i + 1) →
      extractIdentifiers expr rootIdentifier b = [jstr ""]) ∧
    (∀ (expr rootIdentifier : JSStr) (b : Bool),
      '[' ∉ jsTrim (stripLineNumber (stripAccessSpecifiers expr)) →
      '*' ∉ jsTrim (stripLineNumber (stripAccessSpecifiers expr)) →
      jstr " : " <:+: jsTrim (stripLineNumber (stripAccessSpecifiers expr)) →
      extractIdentifiers expr rootIdentifier b = [jstr ""]) ∧
    (∀ (d rest rootIdentifier : JSStr) (e : Bool),
      ';' ∉ d → '{' ∉ d →
      extractIdentifiers d rootIdentifier e = [jstr ""] →
      buildVarList (d ++ ';' :: rest) rootIdentifier e =
        buildVarList rest rootIdentifier e) := by
  refine ⟨?_, ?_, ?_⟩
  · intro expr rootIdentifier b i h1 h2
    exact extractIdentifiers_multidim_reject expr rootIdentifier b h1 h2
  · intro expr rootIdentifier b h1 h2 h3
    exact extractIdentifiers_bitfield_reject expr rootIdentifier b h1 h2 h3
  · intro d rest rootIdentifier e h1 h2 h3
    exact buildVarList_skip_rejected d rest rootIdentifier e h1 h2 h3

/-- Witness for C8 at concrete inputs: the multi-dimensional declarator
`int a[2][3]` and the bit-field declarator `unsigned b : 3` are both
rejected, and a block starting with the rejected declaration
`int a[2][3];` parses to the same variable list as the rest of the block. -/
theorem claim_C8_witness :
    extractIdentifiers (jstr "int a[2][3]") (jstr "") true = [jstr ""] ∧
    extractIdentifiers (jstr "unsigned b : 3") (jstr "") true = [jstr ""] ∧
    buildVarList (jstr "int a[2][3]" ++ ';' :: jstr " int c;") (jstr "") true =
      buildVarList (jstr " int c;") (jstr "") true := by
  refine ⟨?_, ?_, ?_⟩
  · exact claim_C8_rejected_declarators.1 (jstr "int a[2][3]") (jstr "") true 5
      (by decide) (by decide)
  · exact claim_C8_rejected_declarators.2.1 (jstr "unsigned b : 3") (jstr "") true
      (by decide) (by decide) (by decide)
  · exact claim_C8_rejected_declarators.2.2 (jstr "int a[2][3]") (jstr " int c;")
      (jstr "") true (by decide) (by decide)
      (claim_C8_rejected_declarators.1 (jstr "int a[2][3]") (jstr "") true 5
        (by decide) (by decide))

theorem digitChar_isDigit {m : Nat} (h : m < 10) : isDigitChar (Nat.digitChar m) = true := by
  interval_cases m <;> decide

theorem isDigitChar_props {c : Char} (h : isDigitChar c = true) :
    jsIsWhitespace c = false ∧ c ≠ '-' ∧ c ≠ '+' ∧ c ≠ '[' ∧ c ≠ ']' ∧ c ≠ 'x' := by
  simp only [isDigitChar, Bool.and_eq_true, decide_eq_true_eq] at h
  obtain ⟨h1, h2⟩ := h
  refine ⟨?_, ?_, ?_, ?_, ?_, ?_⟩
  · simp only [jsIsWhitespace, Bool.or_eq_false_iff, decide_eq_false_iff_not]
    refine ⟨⟨⟨⟨⟨?_, ?_⟩, ?_⟩, ?_⟩, ?_⟩, ?_⟩
    all_goals rintro rfl; revert h1 h2; decide
  all_goals rintro rfl; revert h1 h2; decide

theorem toDigitsCore_all_digits :
    ∀ (f n : Nat) (ds : List Char), (∀ c ∈ ds, isDigitChar c = true) →
      ∀ c ∈ Nat.toDigitsCore 10 f n ds, isDigitChar c = true := by
  intro f
  induction f with
  | zero => intro n ds hds; simpa [Nat.toDigitsCore] using hds
  | succ k ih =>
    intro n ds hds c hc
    simp only [Nat.toDigitsCore] at hc
    have hdig : isDigitChar (Nat.digitChar (n % 10)) = true :=
      digitChar_isDigit (Nat.mod_lt n (by omega))
    split at hc
    · rcases List.mem_cons.mp hc with h | h
      · rw [h]; exact hdig
      · exact hds c h
    · refine ih (n / 10) (Nat.digitChar (n % 10) :: ds) ?_ c hc
      intro d hd
      rcases List.mem_cons.mp hd with h | h
      · rw [h]; exact hdig
      · exact hds d h

theorem toDigits_all_digits (n : Nat) : ∀ c ∈ Nat.toDigits 10 n, isDigitChar c = true := by
  intro c hc
  exact toDigitsCore_all_digits (n + 1) n [] (by intro d hd; cases hd) c hc

theorem toDigitsCore_ne_nil_of_ne_nil :
    ∀ (f n : Nat) (ds : List Char), ds ≠ [] → Nat.toDigitsCore 10 f n ds ≠ [] := by
  intro f
  induction f with
  | zero => intro n ds h; simpa [Nat.toDigitsCore] using h
  | succ k ih =>
    intro n ds h
    simp only [Nat.toDigitsCore]
    split
    · simp
    · exact ih (n / 10) (Nat.digitChar (n % 10) :: ds) (by simp)

theorem toDigits_ne_nil (n : Nat) : Nat.toDigits 10 n ≠ [] := by
  show Nat.toDigitsCore 10 (n + 1) n [] ≠ []
  simp only [Nat.toDigitsCore]
  split
  · simp
  · exact toDigitsCore_ne_nil_of_ne_nil n (n / 10) [Nat.digitChar (n % 10)] (by simp)

theorem toDigitsCore_structure :
    ∀ (n f : Nat) (ds : List Char), n < f →
      Nat.toDigitsCore 10 f n ds = Nat.toDigitsCore 10 (n + 1) n [] ++ ds := by
  intro n
  induction n using Nat.strong_induction_on with
  | _ n ihn =>
    intro f ds hf
    cases f with
    | zero => omega
    | succ k =>
      by_cases hdiv : n / 10 = 0
      · simp [Nat.toDigitsCore, hdiv]
      · have hlt : n / 10 < n := Nat.div_lt_self (by omega) (by omega)
        have h1 : Nat.toDigitsCore 10 (k + 1) n ds =
            Nat.toDigitsCore 10 k (n / 10) (Nat.digitChar (n % 10) :: ds) := by
          simp [Nat.toDigitsCore, hdiv]
        have h2 : Nat.toDigitsCore 10 (n + 1) n [] =
            Nat.toDigitsCore 10 n (n / 10) [Nat.digitChar (n % 10)] := by
          simp [Nat.toDigitsCore, hdiv]
        rw [h1, h2]
        rw [ihn (n / 10) hlt k (Nat.digitChar (n % 10) :: ds) (by omega)]
        rw [ihn (n / 10) hlt n [Nat.digitChar (n % 10)] (by omega)]
        simp

theorem digitChar_val {m : Nat} (h : m < 10) :
    (Nat.digitChar m).toNat - '0'.toNat = m := by
  interval_cases m <;> decide

theorem toDigits_foldl_val (n : Nat) :
    (Nat.toDigits 10 n).foldl (fun a d => a * 10 + (d.toNat - '0'.toNat)) 0 = n := by
  induction n using Nat.strong_induction_on with
  | _ n ihn =>
    show (Nat.toDigitsCore 10 (n + 1) n []).foldl _ 0 = n
    by_cases hdiv : n / 10 = 0
    · have hn : n < 10 := by omega
      simp only [Nat.toDigitsCore, hdiv, if_pos]
      simp only [List.foldl_cons, List.foldl_nil, Nat.zero_mul, Nat.zero_add]
      rw [Nat.mod_eq_of_lt hn]
      exact digitChar_val hn
    · have hlt : n / 10 < n := Nat.div_lt_self (by omega) (by omega)
      have h2 : Nat.toDigitsCore 10 (n + 1) n [] =
          Nat.toDigitsCore 10 n (n / 10) [Nat.digitChar (n % 10)] := by
        simp [Nat.toDigitsCore, hdiv]
      rw [h2, toDigitsCore_structure (n / 10) n [Nat.digitChar (n % 10)] hlt]
      rw [List.foldl_append]
      have := ihn (n / 10) hlt
      show ((Nat.toDigits 10 (n / 10)).foldl (fun a d => a * 10 + (d.toNat - '0'.toNat)) 0) * 10 +
        ((Nat.digitChar (n % 10)).toNat - '0'.toNat) = n
      rw [this, digitChar_val (Nat.mod_lt n (by omega))]
      omega

theorem takeWhile_all_eq {p : Char → Bool} :
    ∀ (l : List Char), (∀ c ∈ l, p c = true) → l.takeWhile p = l := by
  intro l h
  induction l with
  | nil => rfl
  | cons a t ih =>
    simp only [List.takeWhile_cons]
    rw [h a (List.mem_cons_self a t)]
    simp [ih (fun c hc => h c (List.mem_cons_of_mem a hc))]

theorem parseIntJS_digits (ds : JSStr) (hne : ds ≠ [])
    (hdig : ∀ c ∈ ds, isDigitChar c = true) :
    parseIntJS ds =
      some ((ds.foldl (fun a d => a * 10 + (d.toNat - '0'.toNat)) 0 : Nat) : Int) := by
  obtain ⟨c, rest, rfl⟩ := List.exists_cons_of_ne_nil hne
  have hc := hdig c (List.mem_cons_self c rest)
  obtain ⟨hws, hminus, hplus, _, _, _⟩ := isDigitChar_props hc
  simp only [parseIntJS]
  have hdw : (c :: rest).dropWhile jsIsWhitespace = c :: rest := by
    simp [List.dropWhile_cons, hws]
  rw [hdw]
  have hsign : (match c :: rest with
      | '-' :: r => ((-1 : Int), r)
      | '+' :: r => ((1 : Int), r)
      | r => ((1 : Int), r)) = ((1 : Int), c :: rest) := by
    split
    · rename_i heq
      rw [List.cons.injEq] at heq
      exact absurd heq.1 hminus
    · rename_i heq
      rw [List.cons.injEq] at heq
      exact absurd heq.1 hplus
    · rfl
  rw [hsign]
  simp only
  rw [takeWhile_all_eq (c :: rest) hdig]
  rw [if_neg (by simp)]
  simp

theorem parseIntJS_toDigits (n : Nat) :
    parseIntJS (Nat.toDigits 10 n) = some (n : Int) := by
  rw [parseIntJS_digits (Nat.toDigits 10 n) (toDigits_ne_nil n) (toDigits_all_digits n)]
  rw [toDigits_foldl_val n]

theorem jsNumToStr_nat (k : Nat) : jsNumToStr (some (k : Int)) = Nat.toDigits 10 k := by
  simp only [jsNumToStr]
  rw [if_neg (by omega)]
  simp

theorem strFind_head_notMem {c : Char} (p : JSStr) :
    ∀ s, c ∉ s → strFind (c :: p) s = none := by
  intro s
  induction s with
  | nil => intro _; exact strFind_nil_of_ne (c :: p) (by simp)
  | cons a t ih =>
    intro hnm
    simp only [strFind]
    rw [if_neg, ih (fun hm => hnm (List.mem_cons_of_mem a hm))]
    · rfl
    · intro hp
      have := List.isPrefixOf_iff_prefix.mp hp
      rcases this with ⟨u, hu⟩
      apply hnm
      rw [← hu]
      simp

theorem strFindLast_head_notMem {c : Char} (p : JSStr) :
    ∀ s, c ∉ s → strFindLast (c :: p) s = none := by
  intro s
  induction s with
  | nil => simp [strFindLast]
  | cons a t ih =>
    intro hnm
    simp only [strFindLast]
    rw [ih (fun hm => hnm (List.mem_cons_of_mem a hm))]
    rw [if_neg]
    intro hp
    have := List.isPrefixOf_iff_prefix.mp hp
    rcases this with ⟨u, hu⟩
    apply hnm
    rw [← hu]
    simp

theorem strFindLast_cons_eq (pat : JSStr) (a : Char) (t : JSStr) :
    strFindLast pat (a :: t) =
      match strFindLast pat t with
      | some j => some (j + 1)
      | none => if List.isPrefixOf pat (a :: t) then some 0 else none := rfl

theorem strFindLast_two {c₁ c₂ : Char} (hne : c₁ ≠ c₂) :
    ∀ (a r : JSStr), c₁ ∉ a → c₁ ∉ r →
      strFindLast [c₁, c₂] (a ++ c₁ :: c₂ :: r) = some a.length := by
  intro a
  induction a with
  | nil =>
    intro r _ hr
    rw [List.nil_append, strFindLast_cons_eq]
    rw [strFindLast_head_notMem [c₂] (c₂ :: r)
      (by intro hm; rcases List.mem_cons.mp hm with h | h
          · exact hne h
          · exact hr h)]
    simp [List.isPrefixOf]
  | cons d a' ih =>
    intro r ha hr
    have hd : c₁ ∉ a' := fun hm => ha (List.mem_cons_of_mem d hm)
    rw [List.cons_append, strFindLast_cons_eq]
    rw [ih r hd hr]
    simp

theorem strFindLast_suffix_two (c₁ c₂ : Char) :
    ∀ (a : JSStr), strFindLast [c₁, c₂] (a ++ [c₁, c₂]) = some a.length := by
  intro a
  induction a with
  | nil =>
    rw [List.nil_append, strFindLast_cons_eq]
    have h1 : strFindLast [c₁, c₂] [c₂] = none := by
      rw [strFindLast_cons_eq]
      simp [strFindLast, List.isPrefixOf]
    rw [h1]
    simp [List.isPrefixOf]
  | cons d a' ih =>
    rw [List.cons_append, strFindLast_cons_eq]
    rw [ih]
    simp

theorem strFindLastFrom_head_notMem {c : Char} (p : JSStr) :
    ∀ (s : JSStr) (pos : Nat), c ∉ s.take (pos + 1) →
      strFindLastFrom (c :: p) s pos = none := by
  intro s
  induction s with
  | nil =>
    intro pos _
    cases pos <;> simp [strFindLastFrom]
  | cons a t ih =>
    intro pos hnm
    cases pos with
    | zero =>
      simp only [strFindLastFrom]
      rw [if_neg]
      intro hp
      have := List.isPrefixOf_iff_prefix.mp hp
      rcases this with ⟨u, hu⟩
      apply hnm
      rw [← hu]
      simp
    | succ q =>
      simp only [strFindLastFrom]
      rw [ih q (by
        intro hm
        exact hnm (by simpa using List.mem_cons_of_mem a hm))]
      rw [if_neg]
      intro hp
      have := List.isPrefixOf_iff_prefix.mp hp
      rcases this with ⟨u, hu⟩
      apply hnm
      rw [← hu]
      simp

theorem strFindLastFrom_boundary {c : Char} :
    ∀ (d : JSStr) (r : JSStr) (pos : Nat), d.length ≤ pos →
      c ∉ r.take (pos - d.length) →
      strFindLastFrom [c] (d ++ c :: r) pos = some d.length := by
  intro d
  induction d with
  | nil =>
    intro r pos _ hr
    cases pos with
    | zero =>
      simp only [List.nil_append, strFindLastFrom]
      rw [if_pos]
      · rfl
      · simp [List.isPrefixOf]
    | succ q =>
      simp only [List.nil_append, strFindLastFrom]
      rw [strFindLastFrom_head_notMem [] r q (by simpa using hr)]
      rw [if_pos]
      · rfl
      · simp [List.isPrefixOf]
  | cons e d' ih =>
    intro r pos hpos hr
    cases pos with
    | zero => simp at hpos
    | succ q =>
      have hq : d'.length ≤ q := by simpa using hpos
      have hr' : c ∉ r.take (q - d'.length) := by
        have heq : q + 1 - (e :: d').length = q - d'.length := by
          simp only [List.length_cons]; omega
        rw [heq] at hr
        exact hr
      simp only [List.cons_append, strFindLastFrom]
      simp only [List.append_eq]
      rw [ih r q hq hr']
      simp

theorem no_two_infixOf {c₁ c₂ : Char} (hcc : c₁ ≠ c₂) (a r : JSStr) (d : Char)
    (ha : c₁ ∉ a) (hd1 : d ≠ c₂) (hd2 : c₁ ≠ d) (hr : c₁ ∉ r) :
    ¬ [c₁, c₂] <:+: (a ++ c₁ :: d :: r) := by
  rintro ⟨u, v, huv⟩
  have hcount : (u ++ [c₁, c₂] ++ v).count c₁ = (a ++ c₁ :: d :: r).count c₁ := by
    rw [huv]
  have hcl : (u ++ [c₁, c₂] ++ v).count c₁ = u.count c₁ + 1 + v.count c₁ := by
    simp [List.count_append, List.count_cons, hcc.symm]
    omega
  have hcr : (a ++ c₁ :: d :: r).count c₁ = 1 := by
    have h1 : a.count c₁ = 0 := List.count_eq_zero.mpr ha
    have h2 : r.count c₁ = 0 := List.count_eq_zero.mpr hr
    simp [List.count_append, List.count_cons, h1, h2, hd2]
  have hu : c₁ ∉ u := by
    apply List.count_eq_zero.mp
    omega
  have hfind1 : strFind [c₁] (u ++ c₁ :: c₂ :: v) = some u.length :=
    strFind_singleton_boundary u (c₂ :: v) hu
  have hfind2 : strFind [c₁] (a ++ c₁ :: d :: r) = some a.length :=
    strFind_singleton_boundary a (d :: r) ha
  have hstr : u ++ c₁ :: c₂ :: v = a ++ c₁ :: d :: r := by
    rw [← huv]; simp
  rw [hstr, hfind2] at hfind1
  have hlen : u.length = a.length := by
    have := Option.some.inj hfind1
    omega
  have := List.append_inj hstr hlen
  have htail : c₁ :: c₂ :: v = c₁ :: d :: r := this.2
  simp only [List.cons.injEq] at htail
  exact hd1 htail.2.1.symm

theorem strFindLast_two_none {c₁ c₂ : Char} (hcc : c₁ ≠ c₂) (a r : JSStr) (d : Char)
    (ha : c₁ ∉ a) (hd1 : d ≠ c₂) (hd2 : c₁ ≠ d) (hr : c₁ ∉ r) :
    strFindLast [c₁, c₂] (a ++ c₁ :: d :: r) = none := by
  cases h : strFindLast [c₁, c₂] (a ++ c₁ :: d :: r) with
  | none => rfl
  | some j =>
    have h1 : (strFindLast [c₁, c₂] (a ++ c₁ :: d :: r)).isSome = true := by rw [h]; rfl
    rw [strFindLast_isSome_eq] at h1
    have h2 := (isSome_strFind_iff_infixOf [c₁, c₂] (a ++ c₁ :: d :: r)).mp h1
    exact absurd h2 (no_two_infixOf hcc a r d ha hd1 hd2 hr)

theorem jsSubstring_nat (s : JSStr) (i j : Nat) (hij : i ≤ j) (hj : j ≤ s.length) :
    jsSubstring s (i : Int) (j : Int) = (s.take j).drop i := by
  simp only [jsSubstring]
  have h1 : max (0 : Int) (min (i : Int) (s.length : Int)) = (i : Int) := by omega
  have h2 : max (0 : Int) (min (j : Int) (s.length : Int)) = (j : Int) := by omega
  rw [h1, h2]
  have h3 : min (i : Int) (j : Int) = (i : Int) := by omega
  have h4 : max (i : Int) (j : Int) = (j : Int) := by omega
  rw [h3, h4, Int.toNat_natCast, Int.toNat_natCast]

theorem jsSlice_zero_nat (s : JSStr) (k : Nat) :
    jsSlice s 0 (k : Int) = s.take k := by
  simp only [jsSlice]
  rw [if_neg (by omega), if_neg (by omega)]
  have h1 : min (0 : Int) (s.length : Int) = 0 := by omega
  rw [h1]
  by_cases hk : k ≤ s.length
  · have h2 : min (k : Int) (s.length : Int) = (k : Int) := by omega
    rw [h2, Int.toNat_natCast, Int.toNat_zero, List.drop_zero]
  · have h2 : min (k : Int) (s.length : Int) = (s.length : Int) := by omega
    rw [h2, Int.toNat_natCast, Int.toNat_zero, List.drop_zero]
    rw [List.take_length, List.take_of_length_le (by omega)]

theorem jsSliceFrom_nat (s : JSStr) (k : Nat) (hk : k ≤ s.length) :
    jsSliceFrom s (k : Int) = s.drop k := by
  simp only [jsSliceFrom, jsSlice]
  rw [if_neg (by omega), if_neg (by omega)]
  have h1 : min (k : Int) (s.length : Int) = (k : Int) := by omega
  have h2 : min (s.length : Int) (s.length : Int) = (s.length : Int) := by omega
  rw [h1, h2, Int.toNat_natCast, Int.toNat_natCast, List.take_length]

theorem seg_extract (u v w : JSStr) :
    ((u ++ (v ++ w)).take (u.length + v.length)).drop u.length = v := by
  have h : u ++ (v ++ w) = (u ++ v) ++ w := (List.append_assoc u v w).symm
  rw [h, show u.length + v.length = (u ++ v).length by simp, List.take_left, List.drop_left]

theorem jsReplaceAllChar_append (a b : JSStr) (c : Char) (r : JSStr) :
    jsReplaceAllChar (a ++ b) c r = jsReplaceAllChar a c r ++ jsReplaceAllChar b c r := by
  simp [jsReplaceAllChar]

theorem jsReplaceAllChar_notMem (s : JSStr) (c : Char) (r : JSStr) (h : c ∉ s) :
    jsReplaceAllChar s c r = s := by
  induction s with
  | nil => rfl
  | cons a t ih =>
    have ha : a ≠ c := fun hac => h (by rw [hac]; exact List.mem_cons_self c t)
    simp only [jsReplaceAllChar, List.flatMap_cons, if_neg ha]
    have := ih (fun hm => h (List.mem_cons_of_mem a hm))
    simp only [jsReplaceAllChar] at this
    rw [this]
    rfl

theorem jsReplaceAllChar_cons_self (t : JSStr) (c : Char) (r : JSStr) :
    jsReplaceAllChar (c :: t) c r = r ++ jsReplaceAllChar t c r := by
  simp [jsReplaceAllChar]

theorem jsMinCap_nat (A : Nat) : jsMinCap (some (A : Int)) = min A 10000 := by
  simp only [jsMinCap]
  omega

theorem natCast_bne_neg_one (n : Nat) : (((n : Nat) : Int) != -1) = true := by
  simp only [bne_iff_ne, ne_eq]
  omega

theorem ppGo_clean_pass :
    ∀ (fuel : Nat) (l : List GdbIdentifierInfo) (i : Nat),
      (∀ e ∈ l, strFindLast (jstr "[x") e.identifier = none) →
      i ≤ l.length → l.length + 1 ≤ fuel + i →
      ppGo fuel l i false = some l := by
  intro fuel
  induction fuel with
  | zero => intro l i _ hi hf; omega
  | succ k ih =>
    intro l i hcl hi hf
    rw [ppGo]
    split
    · rename_i e hie
      obtain ⟨hlt, hgete⟩ := List.getElem?_eq_some.mp hie
      have hmem : e ∈ l := by
        rw [← hgete]
        exact List.getElem_mem hlt
      have hnone := hcl e hmem
      rw [if_neg (by
        simp only [jsLastIndexOf, hnone]
        decide)]
      exact ih l (i + 1) hcl (by omega) (by omega)
    · rfl

theorem ppGo_clean_restart :
    ∀ (fuel : Nat) (l : List GdbIdentifierInfo) (i : Nat),
      (∀ e ∈ l, strFindLast (jstr "[x") e.identifier = none) →
      i ≤ l.length → 2 * l.length + 2 ≤ fuel + i →
      ppGo fuel l i true = some l := by
  intro fuel
  induction fuel with
  | zero => intro l i _ hi hf; omega
  | succ k ih =>
    intro l i hcl hi hf
    rw [ppGo]
    split
    · rename_i e hie
      obtain ⟨hlt, hgete⟩ := List.getElem?_eq_some.mp hie
      have hmem : e ∈ l := by
        rw [← hgete]
        exact List.getElem_mem hlt
      have hnone := hcl e hmem
      rw [if_neg (by
        simp only [jsLastIndexOf, hnone]
        decide)]
      exact ih l (i + 1) hcl (by omega) (by omega)
    · exact ppGo_clean_pass k l 0 hcl (by omega) (by omega)

theorem jstr_lbracket : jstr "[" = ['['] := rfl

theorem jstr_rbracket : jstr "]" = [']'] := rfl

theorem jstr_space : jstr " " = [' '] := rfl

theorem jstr_star : jstr "*" = ['*'] := rfl

theorem extractIdentifiers_array (expr rootIdentifier b nm ds : JSStr) (e : Bool) (S : Nat)
    (htmp : jsTrim (stripLineNumber (stripAccessSpecifiers expr)) =
      b ++ (' ' :: (nm ++ ('[' :: (ds ++ [']'])))))
    (hbb : '[' ∉ b) (hnmb : '[' ∉ nm) (hdsb : '[' ∉ ds) (hdsc : ']' ∉ ds)
    (hsp : ' ' ∉ nm) (hstar : '*' ∉ nm) (htrimnm : jsTrim nm = nm)
    (hparse : parseIntJS ds = some (S : Int)) (hS : 1 ≤ S) :
    extractIdentifiers expr rootIdentifier e =
      if e then
        [rootIdentifier ++ nm ++ jstr "[" ++ Nat.toDigits 10 (S - 1) ++ jstr "]"]
      else
        [rootIdentifier ++ nm ++ jstr "[0]"] := by
  have hfind : strFind (jstr "[") (b ++ (' ' :: (nm ++ ('[' :: (ds ++ [']']))))) =
      some (b.length + 1 + nm.length) := by
    rw [jstr_lbracket]
    have hsh : b ++ (' ' :: (nm ++ ('[' :: (ds ++ [']'])))) =
        (b ++ ' ' :: nm) ++ '[' :: (ds ++ [']']) := by simp
    rw [hsh]
    rw [strFind_singleton_boundary (b ++ ' ' :: nm) (ds ++ [']']) (by
      intro hm
      rcases List.mem_append.mp hm with h | h
      · exact hbb h
      · rcases List.mem_cons.mp h with h | h
        · cases h
        · exact hnmb h)]
    congr 1
    simp
    omega
  simp only [extractIdentifiers]
  rw [htmp, hfind]
  dsimp only
  have hlastsp : jsLastIndexOfFrom (b ++ (' ' :: (nm ++ ('[' :: (ds ++ [']'])))))
      (jstr " ") ((b.length + 1 + nm.length : Nat) : Int) = (b.length : Int) := by
    rw [jstr_space]
    simp only [jsLastIndexOfFrom, Int.toNat_natCast]
    have htake : ' ' ∉ (nm ++ ('[' :: (ds ++ [']']))).take
        (b.length + 1 + nm.length - b.length) := by
      rw [show b.length + 1 + nm.length - b.length = nm.length + 1 from by omega]
      rw [List.take_append_eq_append_take]
      rw [List.take_of_length_le (by omega)]
      rw [show nm.length + 1 - nm.length = 1 from by omega]
      intro hm
      rcases List.mem_append.mp hm with h | h
      · exact hsp h
      · rw [show (1 : Nat) = 0 + 1 from rfl, List.take_succ_cons, List.take_zero] at h
        rcases List.mem_singleton.mp h
    rw [@strFindLastFrom_boundary ' ' b (nm ++ ('[' :: (ds ++ [']'])))
      (b.length + 1 + nm.length) (by omega) htake]
  have hsub1 : jsSubstring (b ++ (' ' :: (nm ++ ('[' :: (ds ++ [']'])))))
      ((b.length : Int) + 1) ((b.length + 1 + nm.length : Nat) : Int) = nm := by
    rw [show ((b.length : Nat) : Int) + 1 = ((b.length + 1 : Nat) : Int) from by push_cast; ring]
    rw [jsSubstring_nat _ (b.length + 1) (b.length + 1 + nm.length) (by omega) (by
      simp only [List.length_append, List.length_cons]
      omega)]
    have hseg := seg_extract (b ++ [' ']) nm ('[' :: (ds ++ [']']))
    have hsh : (b ++ [' ']) ++ (nm ++ ('[' :: (ds ++ [']']))) =
        b ++ (' ' :: (nm ++ ('[' :: (ds ++ [']'])))) := by simp
    rw [hsh] at hseg
    rw [show (b ++ [' ']).length = b.length + 1 from by simp] at hseg
    rw [show b.length + 1 + nm.length = (b.length + 1) + nm.length from by omega]
    exact hseg
  have hsubfrom : jsSubstringFrom (b ++ (' ' :: (nm ++ ('[' :: (ds ++ [']'])))))
      (((b.length + 1 + nm.length : Nat) : Int) + 1) = ds ++ [']'] := by
    rw [show (((b.length + 1 + nm.length : Nat) : Int)) + 1 =
      ((b.length + 1 + nm.length + 1 : Nat) : Int) from by push_cast; ring]
    rw [jsSubstringFrom_nat]
    have hsh : b ++ (' ' :: (nm ++ ('[' :: (ds ++ [']'])))) =
        (b ++ ' ' :: nm ++ ['[']) ++ (ds ++ [']']) := by simp
    rw [hsh]
    rw [List.drop_left' (by
      simp only [List.length_append, List.length_cons, List.length_nil]
      omega)]
  have hnomd : (jsIndexOf (ds ++ [']']) (jstr "[") != -1) = false := by
    rw [jstr_lbracket]
    have hn : strFind ['['] (ds ++ [']']) = none := by
      apply strFind_head_notMem
      intro hm
      rcases List.mem_append.mp hm with h | h
      · exact hdsb h
      · rcases List.mem_singleton.mp h
    simp [jsIndexOf, hn]
  have hnostar : (jsLastIndexOf nm (jstr "*") != -1) = false := by
    rw [jstr_star]
    have hn : strFindLast ['*'] nm = none := strFindLast_head_notMem [] nm hstar
    simp [jsLastIndexOf, hn]
  have hclose : jsIndexOfFrom (b ++ (' ' :: (nm ++ ('[' :: (ds ++ [']'])))))
      (jstr "]") ((b.length + 1 + nm.length : Nat) : Int) =
      ((b.length + 1 + nm.length + 1 + ds.length : Nat) : Int) := by
    rw [jstr_rbracket]
    simp only [jsIndexOfFrom, strFindFrom, Int.toNat_natCast]
    have hmin : min (b.length + 1 + nm.length)
        (b ++ (' ' :: (nm ++ ('[' :: (ds ++ [']']))))).length = b.length + 1 + nm.length := by
      simp only [List.length_append, List.length_cons]
      omega
    rw [hmin]
    have hsh : b ++ (' ' :: (nm ++ ('[' :: (ds ++ [']'])))) =
        (b ++ ' ' :: nm) ++ ('[' :: ds ++ [']']) := by simp
    rw [hsh]
    rw [List.drop_left' (by
      simp only [List.length_append, List.length_cons]
      omega)]
    have hb : strFind [']'] (('[' :: ds) ++ ']' :: []) = some (('[' :: ds).length) :=
      strFind_singleton_boundary ('[' :: ds) [] (by
        intro hm
        rcases List.mem_cons.mp hm with h | h
        · cases h
        · exact hdsc h)
    rw [hb]
    simp only [Option.map_some', List.length_cons]
    omega
  have hsize : jsSubstring (b ++ (' ' :: (nm ++ ('[' :: (ds ++ [']'])))))
      (((b.length + 1 + nm.length : Nat) : Int) + 1)
      ((b.length + 1 + nm.length + 1 + ds.length : Nat) : Int) = ds := by
    rw [show (((b.length + 1 + nm.length : Nat) : Int)) + 1 =
      ((b.length + 1 + nm.length + 1 : Nat) : Int) from by push_cast; ring]
    rw [jsSubstring_nat _ _ _ (by omega) (by
      simp only [List.length_append, List.length_cons]
      omega)]
    have hseg := seg_extract (b ++ ' ' :: nm ++ ['[']) ds [']']
    have hsh : (b ++ ' ' :: nm ++ ['[']) ++ (ds ++ [']']) =
        b ++ (' ' :: (nm ++ ('[' :: (ds ++ [']'])))) := by simp
    rw [hsh] at hseg
    rw [show (b ++ ' ' :: nm ++ ['[']).length = b.length + 1 + nm.length + 1 from by
      simp only [List.length_append, List.length_cons, List.length_nil]
      omega] at hseg
    rw [show b.length + 1 + nm.length + 1 + ds.length =
      (b.length + 1 + nm.length + 1) + ds.length from by omega]
    exact hseg
  rw [hlastsp, hsub1, htrimnm, hsubfrom, hnomd, hnostar, hclose, hsize, hparse]
  simp only [Option.map_some']
  rw [show ((S : Int) - 1) = ((S - 1 : Nat) : Int) from by omega]
  rw [jsNumToStr_nat]
  simp

theorem jstr_lx : jstr "[x" = ['[', 'x'] := rfl

theorem jstr_xr : jstr "x]" = ['x', ']'] := rfl

theorem clean_bracket_digits (nmfull X : JSStr) (h1 : '[' ∉ nmfull) (hXne : X ≠ [])
    (hXdig : ∀ c ∈ X, isDigitChar c = true) :
    strFindLast (jstr "[x") (nmfull ++ ('[' :: (X ++ [']']))) = none := by
  obtain ⟨d, rest, rfl⟩ := List.exists_cons_of_ne_nil hXne
  have hd := isDigitChar_props (hXdig d (List.mem_cons_self d rest))
  have hrest : ∀ c ∈ rest, isDigitChar c = true :=
    fun c hc => hXdig c (List.mem_cons_of_mem d hc)
  rw [jstr_lx]
  have hsh : nmfull ++ ('[' :: ((d :: rest) ++ [']'])) =
      nmfull ++ '[' :: d :: (rest ++ [']']) := by simp
  rw [hsh]
  refine strFindLast_two_none (by decide) nmfull (rest ++ [']']) d h1 hd.2.2.2.2.2 ?_ ?_
  · intro hdl
    exact hd.2.2.2.1 hdl.symm
  · intro hm
    rcases List.mem_append.mp hm with h | h
    · exact (isDigitChar_props (hrest _ h)).2.2.2.1 rfl
    · rcases List.mem_singleton.mp h

theorem jsReplaceAllChar_cons_ne (a : Char) (t : JSStr) (c : Char) (r : JSStr) (h : a ≠ c) :
    jsReplaceAllChar (a :: t) c r = a :: jsReplaceAllChar t c r := by
  simp [jsReplaceAllChar, h]

theorem mark_array_identifier (nmfull ds : JSStr)
    (h1 : '[' ∉ nmfull) (h2 : ']' ∉ nmfull)
    (hdig : ∀ c ∈ ds, isDigitChar c = true) :
    jsReplaceAllChar (jsReplaceAllChar (nmfull ++ ('[' :: (ds ++ [']']))) '[' (jstr "[x"))
      ']' (jstr "x]") = nmfull ++ ('[' :: 'x' :: (ds ++ ['x', ']'])) := by
  have hds1 : '[' ∉ ds := fun hm => (isDigitChar_props (hdig _ hm)).2.2.2.1 rfl
  have hds2 : ']' ∉ ds := fun hm => (isDigitChar_props (hdig _ hm)).2.2.2.2.1 rfl
  have e1 : jsReplaceAllChar (nmfull ++ ('[' :: (ds ++ [']']))) '[' (jstr "[x") =
      nmfull ++ ('[' :: 'x' :: (ds ++ [']'])) := by
    rw [jsReplaceAllChar_append, jsReplaceAllChar_notMem nmfull _ _ h1,
      jsReplaceAllChar_cons_self, jsReplaceAllChar_append,
      jsReplaceAllChar_notMem ds _ _ hds1,
      jsReplaceAllChar_notMem [']'] '[' _ (by decide)]
    simp [jstr_lx]
  rw [e1]
  rw [jsReplaceAllChar_append, jsReplaceAllChar_notMem nmfull _ _ h2,
    jsReplaceAllChar_cons_ne '[' _ _ _ (by decide),
    jsReplaceAllChar_cons_ne 'x' _ _ _ (by decide),
    jsReplaceAllChar_append, jsReplaceAllChar_notMem ds _ _ hds2,
    jsReplaceAllChar_cons_self]
  simp [jsReplaceAllChar, jstr_xr]

theorem ppGo_clean_getD (fuel : Nat) (l M : List GdbIdentifierInfo) (i : Nat)
    (hcl : ∀ e ∈ l, strFindLast (jstr "[x") e.identifier = none)
    (hi : i ≤ l.length) (hf : 2 * l.length + 2 ≤ fuel + i) :
    (ppGo fuel l i true).getD M = l := by
  rw [ppGo_clean_restart fuel l i hcl hi hf]
  rfl

theorem postProcess_single_array (st : ElfParserState) (fn nmfull ds : JSStr)
    (t : Option JSStr) (tv : Option Int) (addr ch : Option JSStr) (A : Nat)
    (hexp : st.expandTableElements = true)
    (hvars : st.gdbVariablesInfo =
      [{ filename := fn
         identifiersList := [{ identifier := nmfull ++ ('[' :: (ds ++ [']']))
                               type := t
                               typeValue := tv
                               address := addr
                               classHierarchy := ch }] }])
    (hnb1 : '[' ∉ nmfull) (hnb2 : ']' ∉ nmfull)
    (hne : ds ≠ []) (hdig : ∀ c ∈ ds, isDigitChar c = true)
    (hds : parseIntJS ds = some (A : Int)) :
    (postProcessArraysInfo st).gdbVariablesInfo =
      [{ filename := fn
         identifiersList :=
           { identifier := nmfull ++ ('[' :: (Nat.toDigits 10 A ++ [']']))
             type := t
             typeValue := tv
             address := addr
             classHierarchy := ch } ::
           (List.range (min A 10000)).map (fun k =>
             { identifier := nmfull ++ ('[' :: (Nat.toDigits 10 k ++ [']']))
               type := t
               typeValue := tv
               address := none
               classHierarchy := none }) }] := by
  have hds1 : '[' ∉ ds := fun hm => (isDigitChar_props (hdig _ hm)).2.2.2.1 rfl
  have hds2 : ']' ∉ ds := fun hm => (isDigitChar_props (hdig _ hm)).2.2.2.2.1 rfl
  have hdsx : 'x' ∉ ds := fun hm => (isDigitChar_props (hdig _ hm)).2.2.2.2.2 rfl
  simp only [postProcessArraysInfo, hexp, if_pos, hvars, List.map_cons, List.map_nil]
  simp only [GdbVariableInfo.mk.injEq, List.cons.injEq, and_true, true_and]
  rw [mark_array_identifier nmfull ds hnb1 hnb2 hdig]
  set m : JSStr := nmfull ++ ('[' :: 'x' :: (ds ++ ['x', ']'])) with hm
  -- length facts
  have hmlen : m.length = nmfull.length + ds.length + 4 := by
    rw [hm]
    simp only [List.length_append, List.length_cons, List.length_nil]
    omega
  -- fuel is positive
  have hfuel : ∀ l : List GdbIdentifierInfo, 20004 ≤ ppFileFuel l := by
    intro l
    have h1 : 10002 ≤ totalIdLen l + l.length + 10002 := by omega
    have h2 : 2 ≤ totalIdLen l + 2 := by omega
    calc 20004 = 10002 * 2 := by norm_num
    _ ≤ (totalIdLen l + l.length + 10002) * (totalIdLen l + 2) :=
        Nat.mul_le_mul h1 h2
    _ = ppFileFuel l := rfl
  -- the marker positions
  have hstart : jsLastIndexOf m (jstr "[x") = ((nmfull.length : Nat) : Int) := by
    rw [jstr_lx]
    simp only [jsLastIndexOf]
    have hsh : m = nmfull ++ '[' :: 'x' :: (ds ++ ['x', ']']) := hm
    rw [hsh, strFindLast_two (by decide) nmfull (ds ++ ['x', ']']) hnb1 (by
      intro hmm
      rcases List.mem_append.mp hmm with h | h
      · exact hds1 h
      · rcases List.mem_cons.mp h with h | h
        · cases h
        · rcases List.mem_singleton.mp h)]
  have hend : jsLastIndexOf m (jstr "x]") = ((nmfull.length + 2 + ds.length : Nat) : Int) := by
    rw [jstr_xr]
    simp only [jsLastIndexOf]
    have hsh : m = (nmfull ++ ('[' :: 'x' :: ds)) ++ ['x', ']'] := by
      rw [hm]; simp
    rw [hsh, strFindLast_suffix_two]
    have hlen2 : (nmfull ++ ('[' :: 'x' :: ds)).length = nmfull.length + 2 + ds.length := by
      simp only [List.length_append, List.length_cons]
      omega
    rw [hlen2]
  -- the head, size string and tail
  have hhead : jsSlice m 0 (((nmfull.length : Nat) : Int) + 1) = nmfull ++ ['['] := by
    rw [show (((nmfull.length : Nat) : Int)) + 1 = ((nmfull.length + 1 : Nat) : Int) from by
      push_cast; ring]
    rw [jsSlice_zero_nat]
    rw [hm, List.take_append_eq_append_take, List.take_of_length_le (by omega),
      show nmfull.length + 1 - nmfull.length = 1 from by omega]
    rw [show (1 : Nat) = 0 + 1 from rfl, List.take_succ_cons, List.take_zero]
  have hsizestr : jsSubstring m (((nmfull.length : Nat) : Int) + 2)
      ((nmfull.length + 2 + ds.length : Nat) : Int) = ds := by
    rw [show (((nmfull.length : Nat) : Int)) + 2 = ((nmfull.length + 2 : Nat) : Int) from by
      push_cast; ring]
    rw [jsSubstring_nat _ _ _ (by omega) (by omega)]
    have hseg := seg_extract (nmfull ++ ['[', 'x']) ds ['x', ']']
    have hsh : (nmfull ++ ['[', 'x']) ++ (ds ++ ['x', ']']) = m := by
      rw [hm]; simp
    rw [hsh] at hseg
    rw [show (nmfull ++ ['[', 'x']).length = nmfull.length + 2 from by simp] at hseg
    rw [show nmfull.length + 2 + ds.length = (nmfull.length + 2) + ds.length from by omega]
    exact hseg
  have htail : jsSliceFrom m (((nmfull.length + 2 + ds.length : Nat) : Int) + 1) = [']'] := by
    rw [show (((nmfull.length + 2 + ds.length : Nat) : Int)) + 1 =
      ((nmfull.length + 2 + ds.length + 1 : Nat) : Int) from by push_cast; ring]
    rw [jsSliceFrom_nat _ _ (by omega)]
    have hsh : m = (nmfull ++ ('[' :: 'x' :: (ds ++ ['x']))) ++ [']'] := by
      rw [hm]; simp
    rw [hsh, List.drop_left' (by
      simp only [List.length_append, List.length_cons, List.length_nil]
      omega)]
  -- one unfolding step of the processing loop
  have hsplit : ∀ l : List GdbIdentifierInfo, ppFileFuel l = (ppFileFuel l - 1) + 1 := by
    intro l
    have := hfuel l
    omega
  rw [hsplit, ppGo]
  split
  · rename_i e hie
    simp only [List.getElem?_cons_zero] at hie
    have he := (Option.some.inj hie).symm
    subst he
    dsimp only
    rw [hstart, hend]
    simp only [natCast_bne_neg_one, if_true]
    rw [hhead, hsizestr, hds, htail]
    rw [jsMinCap_nat]
    simp only [bind_pure_comp, List.map_eq_map, List.map_map, List.set_cons_zero, List.cons_append,
      List.nil_append, jsNumToStr_nat, Function.comp, List.append_assoc,
      List.singleton_append, Nat.zero_add]
    apply ppGo_clean_getD
    · intro e he
      rcases List.mem_cons.mp he with h | h
      · rw [h]
        exact clean_bracket_digits nmfull (Nat.toDigits 10 A) hnb1
          (toDigits_ne_nil A) (toDigits_all_digits A)
      · rcases List.mem_map.mp h with ⟨k, _, rfl⟩
        exact clean_bracket_digits nmfull (Nat.toDigits 10 k) hnb1
          (toDigits_ne_nil k) (toDigits_all_digits k)
    · simp
    · have h20 := hfuel [({ identifier := m, type := t, typeValue := tv, address := addr, classHierarchy := ch } : GdbIdentifierInfo)]
      simp only [List.length_cons, List.length_map, List.length_range]
      omega
  · rename_i hie
    simp at hie

/-- **C3** (amended). For an array declarator whose preprocessed text has the shape
`b ⧺ " " ⧺ nm ⧺ "[" ⧺ ds ⧺ "]"` with a declared size `ds` parsing to `S ≥ 1`:
with array expansion disabled the identifier extractor yields the single
identifier `nm[0]`; with expansion enabled it yields the single identifier
`nm[S-1]`, and the array post-processing pass rewrites that stored entry in
place (keeping its type, classified type value and address) and appends
`min (S-1) 10000` sibling entries `nm[0] … nm[min (S-1) 10000 - 1]` sharing the
original's type and classified type value — a total of `min (S-1) 10000 + 1`
entries.  That is `S` entries `nm[0] … nm[S-1]` whenever `S ≤ 10001`, but
`10001` entries — not the `10000` of the original claim — for larger `S`. -/
theorem claim_C3_array_expansion (expr rootIdentifier b nm ds : JSStr) (S : Nat)
    (htmp : jsTrim (stripLineNumber (stripAccessSpecifiers expr)) =
      b ++ (' ' :: (nm ++ ('[' :: (ds ++ [']'])))))
    (hbb : '[' ∉ b) (hnmb : '[' ∉ nm) (hdsb : '[' ∉ ds) (hdsc : ']' ∉ ds)
    (hsp : ' ' ∉ nm) (hstar : '*' ∉ nm) (htrimnm : jsTrim nm = nm)
    (hrb : '[' ∉ rootIdentifier ++ nm) (hrc : ']' ∉ rootIdentifier ++ nm)
    (hparse : parseIntJS ds = some (S : Int)) (hS : 1 ≤ S) :
    extractIdentifiers expr rootIdentifier false = [rootIdentifier ++ nm ++ jstr "[0]"] ∧
    extractIdentifiers expr rootIdentifier true =
      [rootIdentifier ++ nm ++ jstr "[" ++ Nat.toDigits 10 (S - 1) ++ jstr "]"] ∧
    ∀ (st : ElfParserState) (fn : JSStr) (t : Option JSStr) (tv : Option Int)
      (addr ch : Option JSStr),
      st.expandTableElements = true →
      st.gdbVariablesInfo =
        [{ filename := fn
           identifiersList :=
             [{ identifier :=
                  (rootIdentifier ++ nm) ++ ('[' :: (Nat.toDigits 10 (S - 1) ++ [']']))
                type := t
                typeValue := tv
                address := addr
                classHierarchy := ch }] }] →
      (postProcessArraysInfo st).gdbVariablesInfo =
        [{ filename := fn
           identifiersList :=
             { identifier :=
                 (rootIdentifier ++ nm) ++ ('[' :: (Nat.toDigits 10 (S - 1) ++ [']']))
               type := t
               typeValue := tv
               address := addr
               classHierarchy := ch } ::
             (List.range (min (S - 1) 10000)).map (fun k =>
               { identifier := (rootIdentifier ++ nm) ++ ('[' :: (Nat.toDigits 10 k ++ [']']))
                 type := t
                 typeValue := tv
                 address := none
                 classHierarchy := none }) }] ∧
      (postProcessArraysInfo st).gdbVariablesInfo.map
        (fun en => en.identifiersList.length) = [min (S - 1) 10000 + 1] := by
  refine ⟨?_, ?_, ?_⟩
  · have h := extractIdentifiers_array expr rootIdentifier b nm ds false S htmp
      hbb hnmb hdsb hdsc hsp hstar htrimnm hparse hS
    simpa using h
  · have h := extractIdentifiers_array expr rootIdentifier b nm ds true S htmp
      hbb hnmb hdsb hdsc hsp hstar htrimnm hparse hS
    simpa using h
  · intro st fn t tv addr ch hexp hvars
    have h := postProcess_single_array st fn (rootIdentifier ++ nm)
      (Nat.toDigits 10 (S - 1)) t tv addr ch (S - 1) hexp hvars hrb hrc
      (toDigits_ne_nil (S - 1)) (toDigits_all_digits (S - 1))
      (parseIntJS_toDigits (S - 1))
    refine ⟨h, ?_⟩
    rw [h]
    simp [List.length_map, List.length_range]

/-- Counterexample to the original C3 cap: for declared size `S = 10002` the
extractor stores `tab[10001]` and the post-processing pass leaves `10001`
entries in the file's identifier list (the rewritten original `tab[10001]`
plus `10000` appended siblings `tab[0] … tab[9999]`), not `10000`. -/
theorem claim_C3_counterexample :
    extractIdentifiers (jstr "int tab[10002]") (jstr "") true = [jstr "tab[10001]"] ∧
    (postProcessArraysInfo { constructorState with
        expandTableElements := true
        gdbVariablesInfo :=
          [{ filename := jstr "f.c"
             identifiersList := [{ identifier := jstr "tab[10001]"
                                   type := some (jstr "int")
                                   typeValue := some 4
                                   address := none
                                   classHierarchy := none }] }] }).gdbVariablesInfo.map
      (fun en => en.identifiersList.length) = [10001] ∧
    ¬ (postProcessArraysInfo { constructorState with
        expandTableElements := true
        gdbVariablesInfo :=
          [{ filename := jstr "f.c"
             identifiersList := [{ identifier := jstr "tab[10001]"
                                   type := some (jstr "int")
                                   typeValue := some 4
                                   address := none
                                   classHierarchy := none }] }] }).gdbVariablesInfo.map
      (fun en => en.identifiersList.length) = [10000] := by
  have hex : extractIdentifiers (jstr "int tab[10002]") (jstr "") true =
      [jstr "tab[10001]"] := by
    have h := extractIdentifiers_array (jstr "int tab[10002]") (jstr "")
      (jstr "int") (jstr "tab") (jstr "10002") true 10002
      (by decide) (by decide) (by decide) (by decide) (by decide)
      (by decide) (by decide) (by decide) (by decide) (by decide)
    rw [if_pos rfl] at h
    exact h.trans (by decide)
  have hpp := postProcess_single_array
    { constructorState with
        expandTableElements := true
        gdbVariablesInfo :=
          [{ filename := jstr "f.c"
             identifiersList := [{ identifier := jstr "tab[10001]"
                                   type := some (jstr "int")
                                   typeValue := some 4
                                   address := none
                                   classHierarchy := none }] }] }
    (jstr "f.c") (jstr "tab") (jstr "10001") (some (jstr "int")) (some 4)
    none none 10001 rfl (by decide) (by decide) (by decide) (by decide)
    (by decide) (by decide)
  have hmap : (postProcessArraysInfo { constructorState with
        expandTableElements := true
        gdbVariablesInfo :=
          [{ filename := jstr "f.c"
             identifiersList := [{ identifier := jstr "tab[10001]"
                                   type := some (jstr "int")
                                   typeValue := some 4
                                   address := none
                                   classHierarchy := none }] }] }).gdbVariablesInfo.map
      (fun en => en.identifiersList.length) = [10001] := by
    rw [hpp]
    simp [List.length_map, List.length_range]
  refine ⟨hex, hmap, ?_⟩
  rw [hmap]
  decide

/-- Witness for C3 at the concrete declarator `int tab[3]`: disabled expansion
gives `tab[0]`; enabled expansion stores `tab[2]`, and post-processing turns the
single entry into `tab[2], tab[0], tab[1]`, all with the original's type data. -/
theorem claim_C3_witness :
    extractIdentifiers (jstr "int tab[3]") (jstr "") false = [jstr "tab[0]"] ∧
    extractIdentifiers (jstr "int tab[3]") (jstr "") true = [jstr "tab[2]"] ∧
    (postProcessArraysInfo { constructorState with
        expandTableElements := true
        gdbVariablesInfo :=
          [{ filename := jstr "f.c"
             identifiersList := [{ identifier := jstr "tab[2]"
                                   type := some (jstr "int")
                                   typeValue := some 4
                                   address := none
                                   classHierarchy := none }] }] }).gdbVariablesInfo =
      [{ filename := jstr "f.c"
         identifiersList :=
           [{ identifier := jstr "tab[2]"
              type := some (jstr "int")
              typeValue := some 4
              address := none
              classHierarchy := none },
            { identifier := jstr "tab[0]"
              type := some (jstr "int")
              typeValue := some 4
              address := none
              classHierarchy := none },
            { identifier := jstr "tab[1]"
              type := some (jstr "int")
              typeValue := some 4
              address := none
              classHierarchy := none }] }] := by
  have h := claim_C3_array_expansion (jstr "int tab[3]") (jstr "")
    (jstr "int") (jstr "tab") (jstr "3") 3
    (by decide) (by decide) (by decide) (by decide) (by decide)
    (by decide) (by decide) (by decide) (by decide) (by decide)
    (by decide) (by decide)
  refine ⟨h.1.trans (by decide), h.2.1.trans (by decide), ?_⟩
  have h3 := (h.2.2 { constructorState with
      expandTableElements := true
      gdbVariablesInfo :=
        [{ filename := jstr "f.c"
           identifiersList := [{ identifier := jstr "tab[2]"
                                 type := some (jstr "int")
                                 typeValue := some 4
                                 address := none
                                 classHierarchy := none }] }] }
    (jstr "f.c") (some (jstr "int")) (some 4) none none rfl (by decide)).1
  exact h3.trans (by decide)

theorem digitChar_hex {m : Nat} (h : m < 16) :
    Nat.digitChar m ∈ jstr "0123456789abcdef" := by
  interval_cases m <;> decide

theorem toDigitsCore_all_hex :
    ∀ (f n : Nat) (ds : List Char), (∀ c ∈ ds, c ∈ jstr "0123456789abcdef") →
      ∀ c ∈ Nat.toDigitsCore 16 f n ds, c ∈ jstr "0123456789abcdef" := by
  intro f
  induction f with
  | zero => intro n ds hds; simpa [Nat.toDigitsCore] using hds
  | succ k ih =>
    intro n ds hds c hc
    simp only [Nat.toDigitsCore] at hc
    have hdig : Nat.digitChar (n % 16) ∈ jstr "0123456789abcdef" :=
      digitChar_hex (Nat.mod_lt n (by omega))
    split at hc
    · rcases List.mem_cons.mp hc with h | h
      · rw [h]; exact hdig
      · exact hds c h
    · refine ih (n / 16) (Nat.digitChar (n % 16) :: ds) ?_ c hc
      intro d hd
      rcases List.mem_cons.mp hd with h | h
      · rw [h]; exact hdig
      · exact hds d h

theorem toDigits16_all_hex (n : Nat) :
    ∀ c ∈ Nat.toDigits 16 n, c ∈ jstr "0123456789abcdef" := by
  intro c hc
  exact toDigitsCore_all_hex (n + 1) n [] (by intro d hd; cases hd) c hc

theorem toDigits16_length_le (v : Nat) (hv : v < 2 ^ 32) :
    (Nat.toDigits 16 v).length ≤ 8 := by
  have h16 : v < 16 ^ 8 := by
    have : (16 : Nat) ^ 8 = 2 ^ 32 := by norm_num
    omega
  exact Nat.toDigitsCore_length 16 (by norm_num) (v + 1) v 8 h16 (by norm_num)

theorem jsToHexString_nat (k : Nat) : jsToHexString (some (k : Int)) = Nat.toDigits 16 k := by
  simp only [jsToHexString]
  rw [if_neg (by omega)]
  simp

theorem hex_render_format (a : JSStr) (v : Nat)
    (hp : jsNumberParse a = some (v : Int)) (hv : v < 2 ^ 32) :
    (jsPadStart (jsToHexString (jsNumberParse a)) 8 '0').length = 8 ∧
    ∀ c ∈ jsPadStart (jsToHexString (jsNumberParse a)) 8 '0',
      c ∈ jstr "0123456789abcdef" := by
  rw [hp, jsToHexString_nat]
  have hlen := toDigits16_length_le v hv
  constructor
  · simp only [jsPadStart, List.length_append, List.length_replicate]
    omega
  · intro c hc
    rcases List.mem_append.mp hc with h | h
    · rw [List.eq_of_mem_replicate h]
      decide
    · exact toDigits16_all_hex v c h

theorem mem_buildVariablesInfo (vars : TgdbVariablesInfo) (r : ResultVar) :
    r ∈ buildVariablesInfo vars ↔
      ∃ entry ∈ vars, ∃ element ∈ entry.identifiersList, ∃ a tv,
        element.address = some a ∧ a ≠ [] ∧ element.typeValue = some tv ∧
        r = { name := element.identifier
              address := jstr "0x" ++ jsPadStart (jsToHexString (jsNumberParse a)) 8 '0'
              type := tv } := by
  simp only [buildVariablesInfo, List.mem_flatMap, List.mem_filterMap]
  constructor
  · rintro ⟨entry, hent, element, helem, hf⟩
    refine ⟨entry, hent, element, helem, ?_⟩
    cases ha : element.address with
    | none => rw [ha] at hf; cases hf
    | some a =>
      cases htv : element.typeValue with
      | none => rw [ha, htv] at hf; cases hf
      | some tv =>
        rw [ha, htv] at hf
        dsimp only at hf
        by_cases hne : a = []
        · rw [if_neg (by simpa using hne)] at hf
          cases hf
        · rw [if_pos (by simpa using hne)] at hf
          exact ⟨a, tv, rfl, hne, rfl, (Option.some.inj hf).symm⟩
  · rintro ⟨entry, hent, element, helem, a, tv, ha, hne, htv, rfl⟩
    refine ⟨entry, hent, element, helem, ?_⟩
    rw [ha, htv]
    dsimp only
    rw [if_pos (by simpa using hne)]

/-- **C1** (amended). For every completed parse session, under the comparator
hypotheses that `localeCompare` induces a transitive and total "not-after"
relation, the list passed to the result callback: (1) is sorted by name under
that relation; (2) contains exactly the stored elements having a defined
non-empty address and a *defined* classified type value — the filter does not
exclude the `-1` "unrecognized" sentinel, contrary to the original claim —
each rendered with address `"0x" + Number(address).toString(16).padStart(8, "0")`;
and (3) whenever the stored address string parses to a finite value below
`2^32`, that rendering is `"0x"` followed by exactly 8 lowercase hexadecimal
digits. -/
theorem claim_C1_result_delivery (lc : JSStr → JSStr → Int) (vars : TgdbVariablesInfo)
    (htrans : ∀ x y z : JSStr, lc x y ≤ 0 → lc y z ≤ 0 → lc x z ≤ 0)
    (htotal : ∀ x y : JSStr, lc x y ≤ 0 ∨ lc y x ≤ 0) :
    List.Pairwise (fun a b : ResultVar => lc a.name b.name ≤ 0)
      (sendVariablesInfoToClient lc vars) ∧
    (∀ r : ResultVar, r ∈ sendVariablesInfoToClient lc vars ↔
      ∃ entry ∈ vars, ∃ element ∈ entry.identifiersList, ∃ a tv,
        element.address = some a ∧ a ≠ [] ∧ element.typeValue = some tv ∧
        r = { name := element.identifier
              address := jstr "0x" ++ jsPadStart (jsToHexString (jsNumberParse a)) 8 '0'
              type := tv }) ∧
    (∀ (a : JSStr) (v : Nat), jsNumberParse a = some (v : Int) → v < 2 ^ 32 →
      (jsPadStart (jsToHexString (jsNumberParse a)) 8 '0').length = 8 ∧
      ∀ c ∈ jsPadStart (jsToHexString (jsNumberParse a)) 8 '0',
        c ∈ jstr "0123456789abcdef") := by
  refine ⟨?_, ?_, ?_⟩
  · have htr : ∀ a b c : ResultVar, decide (lc a.name b.name ≤ 0) = true →
        decide (lc b.name c.name ≤ 0) = true → decide (lc a.name c.name ≤ 0) = true := by
      intro a b c hab hbc
      simp only [decide_eq_true_eq] at hab hbc ⊢
      exact htrans _ _ _ hab hbc
    have hto : ∀ a b : ResultVar,
        (decide (lc a.name b.name ≤ 0) || decide (lc b.name a.name ≤ 0)) = true := by
      intro a b
      rcases htotal a.name b.name with h | h <;> simp [h]
    have h := List.sorted_mergeSort htr hto (buildVariablesInfo vars)
    exact List.Pairwise.imp (fun hab => by simpa using hab) h
  · intro r
    show r ∈ (buildVariablesInfo vars).mergeSort _ ↔ _
    rw [List.mem_mergeSort]
    exact mem_buildVariablesInfo vars r
  · intro a v hp hv
    exact hex_render_format a v hp hv

/-- Counterexample to C1's "no unrecognized type" part: a stored element with
a defined non-empty address and the `-1` "unrecognized" classification passes
the filter of `sendVariablesInfoToClient` and is delivered to the callback,
and `-1` is exactly the classification `computeTypeValue` produces for an
unknown type name. -/
theorem claim_C1_counterexample :
    computeTypeValue (jstr "foo_t") (jstr "$2 = 4\n") = -1 ∧
    (⟨jstr "foo", jstr "0x00000001", -1⟩ : ResultVar) ∈
      sendVariablesInfoToClient (fun x y => 0)
        [{ filename := jstr "f.c"
           identifiersList := [{ identifier := jstr "foo"
                                 type := some (jstr "foo_t")
                                 typeValue := some (-1)
                                 address := some (jstr "0x1")
                                 classHierarchy := none }] }] := by
  constructor
  · decide
  · show _ ∈ (buildVariablesInfo _).mergeSort _
    rw [List.mem_mergeSort]
    decide

/-- Witness for C1 at a concrete comparator (the constant comparator, which is
transitive and total) and a concrete two-entry store: both entries — one of
them carrying the `-1` sentinel — are delivered, the output is pairwise
non-after, and the address of value `2` renders as exactly 8 lowercase hex
digits. -/
theorem claim_C1_witness :
    List.Pairwise (fun a b : ResultVar => (0 : Int) ≤ 0)
      (sendVariablesInfoToClient (fun x y => 0)
        [{ filename := jstr "f.c"
           identifiersList := [{ identifier := jstr "foo"
                                 type := some (jstr "foo_t")
                                 typeValue := some (-1)
                                 address := some (jstr "0x1")
                                 classHierarchy := none }] }]) ∧
    (⟨jstr "foo", jstr "0x00000001", -1⟩ : ResultVar) ∈
      sendVariablesInfoToClient (fun x y => 0)
        [{ filename := jstr "f.c"
           identifiersList := [{ identifier := jstr "foo"
                                 type := some (jstr "foo_t")
                                 typeValue := some (-1)
                                 address := some (jstr "0x1")
                                 classHierarchy := none }] }] ∧
    (jsPadStart (jsToHexString (jsNumberParse (jstr "0x2"))) 8 '0').length = 8 ∧
    ∀ c ∈ jsPadStart (jsToHexString (jsNumberParse (jstr "0x2"))) 8 '0',
      c ∈ jstr "0123456789abcdef" := by
  have h := claim_C1_result_delivery (fun x y => 0)
    [{ filename := jstr "f.c"
       identifiersList := [{ identifier := jstr "foo"
                             type := some (jstr "foo_t")
                             typeValue := some (-1)
                             address := some (jstr "0x1")
                             classHierarchy := none }] }]
    (by
      intro x y z h1 h2
      exact h1)
    (by
      intro x y
      left
      show (0 : Int) ≤ 0
      norm_num)
  refine ⟨h.1, ?_, ?_, ?_⟩
  · refine (h.2.1 ⟨jstr "foo", jstr "0x00000001", -1⟩).mpr ?_
    refine ⟨_, List.mem_cons_self _ _, _, List.mem_cons_self _ _,
      jstr "0x1", -1, rfl, by decide, rfl, by decide⟩
  · exact (h.2.2 (jstr "0x2") 2 (by decide) (by norm_num)).1
  · exact (h.2.2 (jstr "0x2") 2 (by decide) (by norm_num)).2

theorem listModify_getElem? {α : Type} :
    ∀ (l : List α) (n : Nat) (g : α → α) (m : Nat),
      (listModify l n g)[m]? = if m = n then l[n]?.map g else l[m]? := by
  intro l
  induction l with
  | nil => intro n g m; cases n <;> cases m <;> simp [listModify]
  | cons x t ih =>
    intro n g m
    cases n with
    | zero =>
      cases m with
      | zero => simp [listModify]
      | succ m' => simp [listModify]
    | succ n' =>
      cases m with
      | zero => simp [listModify]
      | succ m' =>
        simp only [listModify, List.getElem?_cons_succ]
        rw [ih n' g m']
        by_cases h : m' = n'
        · rw [if_pos h, if_pos (by omega)]
        · rw [if_neg h, if_neg (by omega)]

theorem listModify_length {α : Type} :
    ∀ (l : List α) (n : Nat) (g : α → α), (listModify l n g).length = l.length := by
  intro l
  induction l with
  | nil => intro n g; cases n <;> rfl
  | cons x t ih =>
    intro n g
    cases n with
    | zero => rfl
    | succ n' => simp [listModify, ih n' g]

theorem mem_listModify {α : Type} :
    ∀ (l : List α) (n : Nat) (g : α → α) (x : α), x ∈ listModify l n g →
      x ∈ l ∨ ∃ y ∈ l, x = g y := by
  intro l
  induction l with
  | nil => intro n g x h; cases n <;> cases h
  | cons a t ih =>
    intro n g x h
    cases n with
    | zero =>
      rcases List.mem_cons.mp h with h | h
      · exact Or.inr ⟨a, List.mem_cons_self a t, h⟩
      · exact Or.inl (List.mem_cons_of_mem a h)
    | succ n' =>
      rcases List.mem_cons.mp h with h | h
      · exact Or.inl (by rw [h]; exact List.mem_cons_self a t)
      · rcases ih n' g x h with h | ⟨y, hy, hxy⟩
        · exact Or.inl (List.mem_cons_of_mem a h)
        · exact Or.inr ⟨y, List.mem_cons_of_mem a hy, hxy⟩

theorem countP_listModify_decrement {α : Type} (p : α → Bool) :
    ∀ (l : List α) (n : Nat) (g : α → α) (x : α), l[n]? = some x → p x = true →
      p (g x) = false → (listModify l n g).countP p + 1 = l.countP p := by
  intro l
  induction l with
  | nil => intro n g x h; cases n <;> cases h
  | cons a t ih =>
    intro n g x h hp hgp
    cases n with
    | zero =>
      simp only [List.getElem?_cons_zero] at h
      obtain rfl := Option.some.inj h
      simp only [listModify, List.countP_cons, hgp]
      simp [hp]
    | succ n' =>
      simp only [List.getElem?_cons_succ] at h
      simp only [listModify, List.countP_cons]
      have := ih n' g x h hp hgp
      omega

theorem computeNumberOfVariables_modifyEntryAt (vars : TgdbVariablesInfo) (f i : Nat)
    (g : GdbIdentifierInfo → GdbIdentifierInfo)
    (hlen : ∀ file : GdbVariableInfo,
      (listModify file.identifiersList i g).length = file.identifiersList.length) :
    computeNumberOfVariables (modifyEntryAt vars f i g) = computeNumberOfVariables vars := by
  unfold computeNumberOfVariables modifyEntryAt
  induction vars generalizing f with
  | nil => cases f <;> rfl
  | cons a t ih =>
    cases f with
    | zero => simp [listModify, hlen a]
    | succ f' =>
      simp only [listModify, List.map_cons, List.sum_cons]
      rw [ih f']

theorem countTypeValueNone_le (vars : TgdbVariablesInfo) :
    countTypeValueNone vars ≤ computeNumberOfVariables vars := by
  unfold countTypeValueNone computeNumberOfVariables
  induction vars with
  | nil => simp
  | cons a t ih =>
    simp only [List.map_cons, List.sum_cons]
    have := List.countP_le_length (p := fun e => decide (e.typeValue = none))
      (l := a.identifiersList)
    omega

theorem countAddressNone_le (vars : TgdbVariablesInfo) :
    countAddressNone vars ≤ computeNumberOfVariables vars := by
  unfold countAddressNone computeNumberOfVariables
  induction vars with
  | nil => simp
  | cons a t ih =>
    simp only [List.map_cons, List.sum_cons]
    have := List.countP_le_length (p := fun e => decide (e.address = none))
      (l := a.identifiersList)
    omega

theorem countTypeValueNone_modify (vars : TgdbVariablesInfo) (f i : Nat)
    (g : GdbIdentifierInfo → GdbIdentifierInfo) (file : GdbVariableInfo)
    (e : GdbIdentifierInfo)
    (hf : vars[f]? = some file) (hi : file.identifiersList[i]? = some e)
    (he : e.typeValue = none) (hg : (g e).typeValue ≠ none) :
    countTypeValueNone (modifyEntryAt vars f i g) + 1 = countTypeValueNone vars := by
  unfold countTypeValueNone modifyEntryAt
  induction vars generalizing f with
  | nil => cases f <;> cases hf
  | cons a t ih =>
    cases f with
    | zero =>
      simp only [List.getElem?_cons_zero] at hf
      obtain rfl := Option.some.inj hf
      simp only [listModify, List.map_cons, List.sum_cons]
      have := countP_listModify_decrement (fun e => decide (e.typeValue = none))
        _ i g e hi (by simp [he]) (by simp [hg])
      omega
    | succ f' =>
      simp only [List.getElem?_cons_succ] at hf
      simp only [listModify, List.map_cons, List.sum_cons]
      have := ih f' hf
      omega

theorem countAddressNone_modify (vars : TgdbVariablesInfo) (f i : Nat)
    (g : GdbIdentifierInfo → GdbIdentifierInfo) (file : GdbVariableInfo)
    (e : GdbIdentifierInfo)
    (hf : vars[f]? = some file) (hi : file.identifiersList[i]? = some e)
    (he : e.address = none) (hg : (g e).address ≠ none) :
    countAddressNone (modifyEntryAt vars f i g) + 1 = countAddressNone vars := by
  unfold countAddressNone modifyEntryAt
  induction vars generalizing f with
  | nil => cases f <;> cases hf
  | cons a t ih =>
    cases f with
    | zero =>
      simp only [List.getElem?_cons_zero] at hf
      obtain rfl := Option.some.inj hf
      simp only [listModify, List.map_cons, List.sum_cons]
      have := countP_listModify_decrement (fun e => decide (e.address = none))
        _ i g e hi (by simp [he]) (by simp [hg])
      omega
    | succ f' =>
      simp only [List.getElem?_cons_succ] at hf
      simp only [listModify, List.map_cons, List.sum_cons]
      have := ih f' hf
      omega

theorem allTypesDefined_modify (vars : TgdbVariablesInfo) (f i : Nat)
    (g : GdbIdentifierInfo → GdbIdentifierInfo)
    (hg : ∀ x, (g x).type = x.type)
    (h : allTypesDefined vars) : allTypesDefined (modifyEntryAt vars f i g) := by
  intro file hfile e he
  rcases mem_listModify vars f _ file hfile with hm | ⟨y, hy, hxy⟩
  · exact h file hm e he
  · rw [hxy] at he
    simp only at he
    rcases mem_listModify y.identifiersList i g e he with hm | ⟨z, hz, hez⟩
    · exact h y hy e hm
    · rw [hez, hg z]
      exact h y hy z hz

theorem computeNumberOfVariables_pos (vars : TgdbVariablesInfo) (f i : Nat)
    (file : GdbVariableInfo) (e : GdbIdentifierInfo)
    (hf : vars[f]? = some file) (hi : file.identifiersList[i]? = some e) :
    1 ≤ computeNumberOfVariables vars := by
  unfold computeNumberOfVariables
  induction vars generalizing f with
  | nil => cases f <;> cases hf
  | cons a t ih =>
    cases f with
    | zero =>
      simp only [List.getElem?_cons_zero] at hf
      obtain rfl := Option.some.inj hf
      simp only [List.map_cons, List.sum_cons]
      obtain ⟨hlt, _⟩ := List.getElem?_eq_some.mp hi
      omega
    | succ f' =>
      simp only [List.getElem?_cons_succ] at hf
      simp only [List.map_cons, List.sum_cons]
      have := ih f' hf
      omega

theorem storeScanGo_SIZE_spec (resp : JSStr) (expand : Bool) :
    ∀ (fuel : Nat) (vars newInfo : TgdbVariablesInfo) (f i : Nat),
      (storeScanGo resp InformationType.SIZE expand fuel vars newInfo f i).newInfo = newInfo ∧
      ((storeScanGo resp InformationType.SIZE expand fuel vars newInfo f i).pos = none →
        (storeScanGo resp InformationType.SIZE expand fuel vars newInfo f i).vars = vars) ∧
      (∀ fj j, (storeScanGo resp InformationType.SIZE expand fuel vars newInfo f i).pos =
          some (fj, j) →
        ∃ file e, vars[fj]? = some file ∧ file.identifiersList[j]? = some e ∧
          e.typeValue = none ∧
          (storeScanGo resp InformationType.SIZE expand fuel vars newInfo f i).vars =
            (if e.type ≠ none then
              modifyEntryAt vars fj j (fun x =>
                { x with typeValue := some (computeTypeValue (e.type.getD [])
                    (jsTrim (jsSubstring resp 0 ((resp.length : Int) - 6)))) })
            else vars)) := by
  intro fuel
  induction fuel with
  | zero =>
    intro vars newInfo f i
    refine ⟨rfl, fun _ => rfl, fun fj j h => ?_⟩
    cases h
  | succ k ih =>
    intro vars newInfo f i
    rw [storeScanGo]
    cases hv : vars[f]? with
    | none => exact ⟨rfl, fun _ => rfl, fun fj j h => by cases h⟩
    | some file =>
      dsimp only
      cases he : file.identifiersList[i]? with
      | none =>
        dsimp only
        exact ih vars newInfo (f + 1) 0
      | some element =>
        dsimp only
        by_cases htv : element.typeValue = none
        · rw [if_pos htv]
          refine ⟨rfl, ?_, ?_⟩
          · intro h
            cases h
          · intro fj j h
            have hfj : f = fj ∧ i = j := by
              simpa using (Prod.mk.injEq _ _ _ _).mp (Option.some.inj h)
            obtain ⟨rfl, rfl⟩ := hfj
            exact ⟨file, element, hv, he, htv, rfl⟩
        · rw [if_neg htv]
          exact ih vars newInfo f (i + 1)

theorem storeScanGo_ADDRESS_spec (resp : JSStr) (expand : Bool) :
    ∀ (fuel : Nat) (vars newInfo : TgdbVariablesInfo) (f i : Nat),
      (storeScanGo resp InformationType.ADDRESS expand fuel vars newInfo f i).newInfo = newInfo ∧
      ((storeScanGo resp InformationType.ADDRESS expand fuel vars newInfo f i).pos = none →
        (storeScanGo resp InformationType.ADDRESS expand fuel vars newInfo f i).vars = vars) ∧
      (∀ fj j, (storeScanGo resp InformationType.ADDRESS expand fuel vars newInfo f i).pos =
          some (fj, j) →
        ∃ file e, vars[fj]? = some file ∧ file.identifiersList[j]? = some e ∧
          e.address = none ∧
          (storeScanGo resp InformationType.ADDRESS expand fuel vars newInfo f i).vars =
            modifyEntryAt vars fj j (fun x =>
              { x with address := some (extractAddress
                  (jsTrim (jsSubstring resp 0 ((resp.length : Int) - 6)))) })) := by
  intro fuel
  induction fuel with
  | zero =>
    intro vars newInfo f i
    refine ⟨rfl, fun _ => rfl, fun fj j h => ?_⟩
    cases h
  | succ k ih =>
    intro vars newInfo f i
    rw [storeScanGo]
    cases hv : vars[f]? with
    | none => exact ⟨rfl, fun _ => rfl, fun fj j h => by cases h⟩
    | some file =>
      dsimp only
      cases he : file.identifiersList[i]? with
      | none =>
        dsimp only
        exact ih vars newInfo (f + 1) 0
      | some element =>
        dsimp only
        by_cases htv : element.address = none
        · rw [if_pos htv]
          refine ⟨rfl, ?_, ?_⟩
          · intro h
            cases h
          · intro fj j h
            have hfj : f = fj ∧ i = j := by
              simpa using (Prod.mk.injEq _ _ _ _).mp (Option.some.inj h)
            obtain ⟨rfl, rfl⟩ := hfj
            exact ⟨file, element, hv, he, htv, rfl⟩
        · rw [if_neg htv]
          exact ih vars newInfo f (i + 1)

theorem storeAll_fields (st : ElfParserState) (resp : JSStr) (ity : InformationType) :
    (storeAllElementsFromGdb st resp ity).1.currentState = st.currentState ∧
    (storeAllElementsFromGdb st resp ity).1.previousState = st.previousState ∧
    (storeAllElementsFromGdb st resp ity).1.progressStatus = st.progressStatus ∧
    (storeAllElementsFromGdb st resp ity).1.numberOfVariables = st.numberOfVariables ∧
    (storeAllElementsFromGdb st resp ity).1.progressCallback = st.progressCallback ∧
    (storeAllElementsFromGdb st resp ity).1.expandTableElements = st.expandTableElements := by
  cases hpos : (storeScan resp ity st.expandTableElements st.gdbVariablesInfo
      st.newGdbVariablesInfo st.currentFilenameIdx st.currentIdentifierIdx).pos with
  | none => simp [storeAllElementsFromGdb, hpos]
  | some fi => simp [storeAllElementsFromGdb, hpos]

theorem storeAll_counter (st : ElfParserState) (resp : JSStr) (ity : InformationType) :
    ((storeAllElementsFromGdb st resp ity).2 = true →
      (storeAllElementsFromGdb st resp ity).1.gdbResponseCounter =
        st.gdbResponseCounter + 1) ∧
    ((storeAllElementsFromGdb st resp ity).2 = false →
      (storeAllElementsFromGdb st resp ity).1.gdbResponseCounter = st.gdbResponseCounter) := by
  cases hpos : (storeScan resp ity st.expandTableElements st.gdbVariablesInfo
      st.newGdbVariablesInfo st.currentFilenameIdx st.currentIdentifierIdx).pos with
  | none => simp [storeAllElementsFromGdb, hpos]
  | some fi => simp [storeAllElementsFromGdb, hpos]

theorem storeAll_SIZE_vars (st : ElfParserState) (resp : JSStr)
    (hall : allTypesDefined st.gdbVariablesInfo) :
    ((storeAllElementsFromGdb st resp InformationType.SIZE).2 = false →
      (storeAllElementsFromGdb st resp InformationType.SIZE).1.gdbVariablesInfo =
        st.gdbVariablesInfo ∧
      (storeAllElementsFromGdb st resp InformationType.SIZE).1.newGdbVariablesInfo =
        st.newGdbVariablesInfo) ∧
    ((storeAllElementsFromGdb st resp InformationType.SIZE).2 = true →
      countTypeValueNone (storeAllElementsFromGdb st resp
          InformationType.SIZE).1.gdbVariablesInfo + 1 =
        countTypeValueNone st.gdbVariablesInfo ∧
      computeNumberOfVariables (storeAllElementsFromGdb st resp
          InformationType.SIZE).1.gdbVariablesInfo =
        computeNumberOfVariables st.gdbVariablesInfo ∧
      allTypesDefined (storeAllElementsFromGdb st resp
          InformationType.SIZE).1.gdbVariablesInfo ∧
      (storeAllElementsFromGdb st resp InformationType.SIZE).1.newGdbVariablesInfo =
        st.newGdbVariablesInfo ∧
      1 ≤ computeNumberOfVariables st.gdbVariablesInfo) := by
  have hspec := storeScanGo_SIZE_spec resp st.expandTableElements
    (computeNumberOfVariables st.gdbVariablesInfo + st.gdbVariablesInfo.length + 1)
    st.gdbVariablesInfo st.newGdbVariablesInfo st.currentFilenameIdx st.currentIdentifierIdx
  unfold storeAllElementsFromGdb storeScan
  unfold storeScan at hspec
  cases hpos : (storeScanGo resp InformationType.SIZE st.expandTableElements
      (computeNumberOfVariables st.gdbVariablesInfo + st.gdbVariablesInfo.length + 1)
      st.gdbVariablesInfo st.newGdbVariablesInfo st.currentFilenameIdx
      st.currentIdentifierIdx).pos with
  | none =>
    simp only [hpos]
    constructor
    · intro hff
      exact ⟨hspec.2.1 hpos, hspec.1⟩
    · intro h
      cases h
  | some fi =>
    simp only [hpos]
    constructor
    · intro h
      cases h
    · intro htt
      obtain ⟨file, e, hf, he, htv, hvars⟩ := hspec.2.2 fi.1 fi.2 (by rw [hpos])
      have hmem : e ∈ file.identifiersList := by
        obtain ⟨hlt, hget⟩ := List.getElem?_eq_some.mp he
        rw [← hget]
        exact List.getElem_mem hlt
      have hfmem : file ∈ st.gdbVariablesInfo := by
        obtain ⟨hlt, hget⟩ := List.getElem?_eq_some.mp hf
        rw [← hget]
        exact List.getElem_mem hlt
      have htype : e.type ≠ none := hall file hfmem e hmem
      rw [if_pos htype] at hvars
      simp only [hvars]
      refine ⟨?_, ?_, ?_, hspec.1, ?_⟩
      · exact countTypeValueNone_modify st.gdbVariablesInfo fi.1 fi.2 _ file e hf he htv
          (by simp)
      · exact computeNumberOfVariables_modifyEntryAt st.gdbVariablesInfo fi.1 fi.2 _
          (fun file => listModify_length file.identifiersList fi.2 _)
      · exact allTypesDefined_modify st.gdbVariablesInfo fi.1 fi.2 _ (fun x => rfl) hall
      · exact computeNumberOfVariables_pos st.gdbVariablesInfo fi.1 fi.2 file e hf he

theorem storeAll_ADDRESS_vars (st : ElfParserState) (resp : JSStr) :
    ((storeAllElementsFromGdb st resp InformationType.ADDRESS).2 = false →
      (storeAllElementsFromGdb st resp InformationType.ADDRESS).1.gdbVariablesInfo =
        st.gdbVariablesInfo ∧
      (storeAllElementsFromGdb st resp InformationType.ADDRESS).1.newGdbVariablesInfo =
        st.newGdbVariablesInfo) ∧
    ((storeAllElementsFromGdb st resp InformationType.ADDRESS).2 = true →
      countAddressNone (storeAllElementsFromGdb st resp
          InformationType.ADDRESS).1.gdbVariablesInfo + 1 =
        countAddressNone st.gdbVariablesInfo ∧
      computeNumberOfVariables (storeAllElementsFromGdb st resp
          InformationType.ADDRESS).1.gdbVariablesInfo =
        computeNumberOfVariables st.gdbVariablesInfo ∧
      (allTypesDefined st.gdbVariablesInfo → allTypesDefined
        (storeAllElementsFromGdb st resp InformationType.ADDRESS).1.gdbVariablesInfo) ∧
      (storeAllElementsFromGdb st resp InformationType.ADDRESS).1.newGdbVariablesInfo =
        st.newGdbVariablesInfo ∧
      1 ≤ computeNumberOfVariables st.gdbVariablesInfo) := by
  have hspec := storeScanGo_ADDRESS_spec resp st.expandTableElements
    (computeNumberOfVariables st.gdbVariablesInfo + st.gdbVariablesInfo.length + 1)
    st.gdbVariablesInfo st.newGdbVariablesInfo st.currentFilenameIdx st.currentIdentifierIdx
  unfold storeAllElementsFromGdb storeScan
  unfold storeScan at hspec
  cases hpos : (storeScanGo resp InformationType.ADDRESS st.expandTableElements
      (computeNumberOfVariables st.gdbVariablesInfo + st.gdbVariablesInfo.length + 1)
      st.gdbVariablesInfo st.newGdbVariablesInfo st.currentFilenameIdx
      st.currentIdentifierIdx).pos with
  | none =>
    simp only [hpos]
    constructor
    · intro hff
      exact ⟨hspec.2.1 hpos, hspec.1⟩
    · intro h
      cases h
  | some fi =>
    simp only [hpos]
    constructor
    · intro h
      cases h
    · intro htt
      obtain ⟨file, e, hf, he, htv, hvars⟩ := hspec.2.2 fi.1 fi.2 (by rw [hpos])
      simp only [hvars]
      refine ⟨?_, ?_, ?_, hspec.1, ?_⟩
      · exact countAddressNone_modify st.gdbVariablesInfo fi.1 fi.2 _ file e hf he htv
          (by simp)
      · exact computeNumberOfVariables_modifyEntryAt st.gdbVariablesInfo fi.1 fi.2 _
          (fun file => listModify_length file.identifiersList fi.2 _)
      · exact fun hall => allTypesDefined_modify st.gdbVariablesInfo fi.1 fi.2 _
          (fun x => rfl) hall
      · exact computeNumberOfVariables_pos st.gdbVariablesInfo fi.1 fi.2 file e hf he

theorem lastIdxWith_lt :
    ∀ (l : List GdbIdentifierInfo) (id' : JSStr) (j : Nat),
      lastIdxWith l id' = some j → j < l.length := by
  intro l
  induction l with
  | nil => intro id' j h; cases h
  | cons e t ih =>
    intro id' j h
    rw [lastIdxWith] at h
    cases hl : lastIdxWith t id' with
    | some j' =>
      rw [hl] at h
      obtain rfl := Option.some.inj h
      have := ih id' j' hl
      simp only [List.length_cons]
      omega
    | none =>
      rw [hl] at h
      by_cases he : e.identifier = id'
      · rw [if_pos he] at h
        obtain rfl := Option.some.inj h
        simp
      · rw [if_neg he] at h
        cases h

theorem spliceRootIdentifier_spec :
    ∀ (vars : TgdbVariablesInfo) (fn root : JSStr),
      ((spliceRootIdentifier vars fn root).2 = none →
        (spliceRootIdentifier vars fn root).1 = vars) ∧
      (∀ fj j, (spliceRootIdentifier vars fn root).2 = some (fj, j) →
        ∃ entry, vars[fj]? = some entry ∧ j < entry.identifiersList.length ∧
          (spliceRootIdentifier vars fn root).1 = varsEraseAt vars fj j) := by
  intro vars
  induction vars with
  | nil =>
    intro fn root
    exact ⟨fun _ => rfl, fun fj j h => nomatch h⟩
  | cons entry rest ih =>
    intro fn root
    rw [spliceRootIdentifier]
    by_cases hfn : entry.filename = fn
    · rw [if_pos hfn]
      cases hl : lastIdxWith entry.identifiersList root with
      | some j0 =>
        dsimp only
        constructor
        · intro h
          cases h
        · intro fj j h
          have hfj : (0 : Nat) = fj ∧ j0 = j := by
            simpa using (Prod.mk.injEq _ _ _ _).mp (Option.some.inj h)
          obtain ⟨rfl, rfl⟩ := hfj
          exact ⟨entry, by simp, lastIdxWith_lt _ root j0 hl, rfl⟩
      | none =>
        dsimp only
        exact ⟨fun _ => rfl, fun fj j h => nomatch h⟩
    · rw [if_neg hfn]
      dsimp only
      constructor
      · intro h
        have hr : (spliceRootIdentifier rest fn root).2 = none :=
          Option.map_eq_none'.mp h
        rw [(ih fn root).1 hr]
      · intro fj j h
        obtain ⟨p, hp, hmk⟩ := Option.map_eq_some'.mp h
        obtain ⟨p1, p2⟩ := p
        have hfj : p1 + 1 = fj ∧ p2 = j := by
          simpa using (Prod.mk.injEq _ _ _ _).mp hmk
        obtain ⟨rfl, rfl⟩ := hfj
        obtain ⟨entry', he', hlt, heq⟩ := (ih fn root).2 p1 p2 hp
        refine ⟨entry', ?_, hlt, ?_⟩
        · simpa using he'
        · show entry :: (spliceRootIdentifier rest fn root).1 = _
          rw [heq]
          rfl

theorem extractType_structure (variablesInfo newVariablesInfo : TgdbVariablesInfo)
    (filename expr rootIdentifier : JSStr) (rootHierarchy : Option JSStr)
    (bExpandTableElements : Bool) :
    ((extractType variablesInfo newVariablesInfo filename expr rootIdentifier
        rootHierarchy bExpandTableElements).2.2.2 = none →
      (extractType variablesInfo newVariablesInfo filename expr rootIdentifier
        rootHierarchy bExpandTableElements).2.1 = variablesInfo) ∧
    (∀ fj j, (extractType variablesInfo newVariablesInfo filename expr rootIdentifier
        rootHierarchy bExpandTableElements).2.2.2 = some (fj, j) →
      ∃ entry, variablesInfo[fj]? = some entry ∧ j < entry.identifiersList.length ∧
        (extractType variablesInfo newVariablesInfo filename expr rootIdentifier
          rootHierarchy bExpandTableElements).2.1 = varsEraseAt variablesInfo fj j) := by
  unfold extractType
  lift_lets
  extract_lets a b c d e f
  repeat' split
  all_goals first
  | exact ⟨fun _ => rfl, fun fj j h => nomatch h⟩
  | exact spliceRootIdentifier_spec variablesInfo filename rootIdentifier

theorem not_qualifiesT_type_ne (e : GdbIdentifierInfo) (h : ¬ qualifiesT e) :
    e.type ≠ none := fun hn => h (Or.inl hn)

theorem modifyEntryAt_getElem? (vars : TgdbVariablesInfo) (f i : Nat)
    (g : GdbIdentifierInfo → GdbIdentifierInfo) (m : Nat) :
    (modifyEntryAt vars f i g)[m]? =
      if m = f then
        vars[f]?.map (fun file =>
          { file with identifiersList := listModify file.identifiersList i g })
      else vars[m]? := by
  unfold modifyEntryAt
  exact listModify_getElem? vars f _ m

theorem varsEraseAt_getElem? (vars : TgdbVariablesInfo) (fj j : Nat) (m : Nat) :
    (varsEraseAt vars fj j)[m]? =
      if m = fj then
        vars[fj]?.map (fun file =>
          { file with identifiersList := file.identifiersList.eraseIdx j })
      else vars[m]? := by
  unfold varsEraseAt
  exact listModify_getElem? vars fj _ m

theorem update_resolved_modify (vars : TgdbVariablesInfo) (t : JSStr) (f i : Nat)
    (file : GdbVariableInfo) (element : GdbIdentifierInfo)
    (hf : vars[f]? = some file) (he : file.identifiersList[i]? = some element)
    (hres : resolvedBefore vars f i) :
    resolvedBefore (modifyEntryAt vars f i (fun e => { e with type := some t })) f i ∧
    cursorOk (modifyEntryAt vars f i (fun e => { e with type := some t })) f i := by
  have hilen : i < file.identifiersList.length := (List.getElem?_eq_some.mp he).1
  constructor
  · intro f' i' file' e' hf' hi' hlt
    rw [modifyEntryAt_getElem?] at hf'
    by_cases hff : f' = f
    · rw [if_pos hff, hf] at hf'
      simp only [Option.map_some'] at hf'
      obtain rfl := (Option.some.inj hf').symm
      have hii : i' < i := by
        rcases hlt with h | h
        · omega
        · exact h.2
      simp only at hi'
      rw [listModify_getElem?, if_neg (by omega)] at hi'
      exact hres f' i' file e' (by rw [hff]; exact hf) hi' (Or.inr ⟨hff, hii⟩)
    · rw [if_neg hff] at hf'
      exact hres f' i' file' e' hf' hi' hlt
  · intro file0 h0
    rw [modifyEntryAt_getElem?, if_pos rfl, hf] at h0
    simp only [Option.map_some'] at h0
    obtain rfl := (Option.some.inj h0).symm
    simp only [listModify_length]
    omega

theorem update_resolved_erase_self (vars : TgdbVariablesInfo) (f i : Nat)
    (file : GdbVariableInfo) (element : GdbIdentifierInfo)
    (hf : vars[f]? = some file) (he : file.identifiersList[i]? = some element)
    (hres : resolvedBefore vars f i) :
    resolvedBefore (varsEraseAt vars f i) f i ∧ cursorOk (varsEraseAt vars f i) f i := by
  have hilen : i < file.identifiersList.length := (List.getElem?_eq_some.mp he).1
  constructor
  · intro f' i' file' e' hf' hi' hlt
    rw [varsEraseAt_getElem?] at hf'
    by_cases hff : f' = f
    · rw [if_pos hff, hf] at hf'
      simp only [Option.map_some'] at hf'
      obtain rfl := (Option.some.inj hf').symm
      have hii : i' < i := by
        rcases hlt with h | h
        · omega
        · exact h.2
      simp only at hi'
      rw [List.getElem?_eraseIdx, if_pos hii] at hi'
      exact hres f' i' file e' (by rw [hff]; exact hf) hi' (Or.inr ⟨hff, hii⟩)
    · rw [if_neg hff] at hf'
      exact hres f' i' file' e' hf' hi' hlt
  · intro file0 h0
    rw [varsEraseAt_getElem?, if_pos rfl, hf] at h0
    simp only [Option.map_some'] at h0
    obtain rfl := (Option.some.inj h0).symm
    simp only [List.length_eraseIdx]
    rw [if_pos hilen]
    omega

theorem update_resolved_erase_before (vars : TgdbVariablesInfo) (t : JSStr)
    (f i j : Nat) (file : GdbVariableInfo) (element : GdbIdentifierInfo)
    (hf : vars[f]? = some file) (he : file.identifiersList[i]? = some element)
    (hres : resolvedBefore vars f i) (hji : j < i)
    (hjlt : j < file.identifiersList.length) :
    resolvedBefore (modifyEntryAt (varsEraseAt vars f j) f (i - 1)
      (fun e => { e with type := some t })) f i ∧
    cursorOk (modifyEntryAt (varsEraseAt vars f j) f (i - 1)
      (fun e => { e with type := some t })) f i := by
  have hilen : i < file.identifiersList.length := (List.getElem?_eq_some.mp he).1
  constructor
  · intro f' i' file' e' hf' hi' hlt
    rw [modifyEntryAt_getElem?] at hf'
    by_cases hff : f' = f
    · rw [if_pos hff, varsEraseAt_getElem?, if_pos rfl, hf] at hf'
      simp only [Option.map_some'] at hf'
      obtain rfl := (Option.some.inj hf').symm
      have hii : i' < i := by
        rcases hlt with h | h
        · omega
        · exact h.2
      simp only at hi'
      rw [listModify_getElem?] at hi'
      by_cases hi1 : i' = i - 1
      · rw [if_pos hi1] at hi'
        rw [List.getElem?_eraseIdx, if_neg (by omega)] at hi'
        have hplus : i - 1 + 1 = i := by omega
        rw [hplus, he] at hi'
        simp only [Option.map_some'] at hi'
        obtain rfl := (Option.some.inj hi').symm
        simp
      · rw [if_neg hi1] at hi'
        rw [List.getElem?_eraseIdx] at hi'
        by_cases hij : i' < j
        · rw [if_pos hij] at hi'
          exact hres f' i' file e' (by rw [hff]; exact hf) hi'
            (Or.inr ⟨hff, by omega⟩)
        · rw [if_neg hij] at hi'
          exact hres f' (i' + 1) file e' (by rw [hff]; exact hf) hi'
            (Or.inr ⟨hff, by omega⟩)
    · rw [if_neg hff, varsEraseAt_getElem?, if_neg hff] at hf'
      exact hres f' i' file' e' hf' hi' hlt
  · intro file0 h0
    rw [modifyEntryAt_getElem?, if_pos rfl, varsEraseAt_getElem?, if_pos rfl, hf] at h0
    simp only [Option.map_some'] at h0
    obtain rfl := (Option.some.inj h0).symm
    simp only [listModify_length, List.length_eraseIdx]
    rw [if_pos hjlt]
    omega

theorem update_resolved_erase_other (vars : TgdbVariablesInfo) (t : JSStr)
    (f i fj j : Nat) (file entry : GdbVariableInfo) (element : GdbIdentifierInfo)
    (hf : vars[f]? = some file) (he : file.identifiersList[i]? = some element)
    (hres : resolvedBefore vars f i)
    (hentry : vars[fj]? = some entry) (hjlt : j < entry.identifiersList.length)
    (hcase : fj ≠ f ∨ (fj = f ∧ i < j)) :
    resolvedBefore (modifyEntryAt (varsEraseAt vars fj j) f i
      (fun e => { e with type := some t })) f i ∧
    cursorOk (modifyEntryAt (varsEraseAt vars fj j) f i
      (fun e => { e with type := some t })) f i := by
  have hilen : i < file.identifiersList.length := (List.getElem?_eq_some.mp he).1
  constructor
  · intro f' i' file' e' hf' hi' hlt
    rw [modifyEntryAt_getElem?] at hf'
    by_cases hff : f' = f
    · rw [if_pos hff, varsEraseAt_getElem?] at hf'
      have hii : i' < i := by
        rcases hlt with h | h
        · omega
        · exact h.2
      by_cases hffj : f = fj
      · rcases hcase with hc | hc
        · exact absurd hffj.symm hc
        · rw [if_pos hffj, hentry] at hf'
          simp only [Option.map_some'] at hf'
          obtain rfl := (Option.some.inj hf').symm
          simp only at hi'
          rw [listModify_getElem?, if_neg (by omega),
            List.getElem?_eraseIdx, if_pos (by omega)] at hi'
          exact hres f' i' entry e' (by rw [hff, hffj]; exact hentry) hi'
            (Or.inr ⟨hff, hii⟩)
      · rw [if_neg hffj, hf] at hf'
        simp only [Option.map_some'] at hf'
        obtain rfl := (Option.some.inj hf').symm
        simp only at hi'
        rw [listModify_getElem?, if_neg (by omega)] at hi'
        exact hres f' i' file e' (by rw [hff]; exact hf) hi' (Or.inr ⟨hff, hii⟩)
    · rw [if_neg hff, varsEraseAt_getElem?] at hf'
      by_cases hffj : f' = fj
      · rw [if_pos hffj, hentry] at hf'
        simp only [Option.map_some'] at hf'
        obtain rfl := (Option.some.inj hf').symm
        have hfjf : f' < f := by
          rcases hlt with h | h
          · exact h
          · exact absurd h.1 hff
        simp only at hi'
        rw [List.getElem?_eraseIdx] at hi'
        by_cases hij : i' < j
        · rw [if_pos hij] at hi'
          exact hres f' i' entry e' (by rw [hffj]; exact hentry) hi' (Or.inl hfjf)
        · rw [if_neg hij] at hi'
          exact hres f' (i' + 1) entry e' (by rw [hffj]; exact hentry) hi'
            (Or.inl hfjf)
      · rw [if_neg hffj] at hf'
        exact hres f' i' file' e' hf' hi' hlt
  · intro file0 h0
    rw [modifyEntryAt_getElem?, if_pos rfl, varsEraseAt_getElem?] at h0
    by_cases hffj : f = fj
    · rcases hcase with hc | hc
      · exact absurd hffj.symm hc
      · rw [if_pos hffj, hentry] at h0
        simp only [Option.map_some'] at h0
        obtain rfl := (Option.some.inj h0).symm
        have hef : entry = file := by
          rw [← hffj] at hentry
          exact Option.some.inj (hentry.symm.trans hf)
        subst hef
        simp only [listModify_length, List.length_eraseIdx]
        rw [if_pos hjlt]
        omega
    · rw [if_neg hffj, hf] at h0
      simp only [Option.map_some'] at h0
      obtain rfl := (Option.some.inj h0).symm
      simp only [listModify_length]
      omega

theorem typeScanUpdate_resolved (vars newInfo : TgdbVariablesInfo) (resp : JSStr)
    (expand : Bool) (file : GdbVariableInfo) (element : GdbIdentifierInfo) (f i : Nat)
    (hf : vars[f]? = some file) (he : file.identifiersList[i]? = some element)
    (hres : resolvedBefore vars f i) :
    resolvedBefore (typeScanUpdate vars newInfo resp expand file element f i).1 f i ∧
    cursorOk (typeScanUpdate vars newInfo resp expand file element f i).1 f i := by
  have E := extractType_structure vars newInfo file.filename
    (jsTrim (jsSubstring resp 7 ((resp.length : Int) - 6))) element.identifier
    element.classHierarchy expand
  unfold typeScanUpdate
  dsimp only
  cases hsp : (extractType vars newInfo file.filename
      (jsTrim (jsSubstring resp 7 ((resp.length : Int) - 6))) element.identifier
      element.classHierarchy expand).2.2.2 with
  | none =>
    dsimp only
    rw [E.1 hsp]
    exact update_resolved_modify vars _ f i file element hf he hres
  | some p =>
    obtain ⟨fj, j⟩ := p
    dsimp only
    obtain ⟨entry, hentry, hjlt, heq⟩ := E.2 fj j hsp
    rw [heq]
    by_cases h1 : fj = f ∧ j = i
    · rw [if_pos h1]
      obtain ⟨rfl, rfl⟩ := h1
      exact update_resolved_erase_self vars fj j file element hf he hres
    · rw [if_neg h1]
      by_cases h2 : fj = f ∧ j < i
      · rw [if_pos h2]
        obtain ⟨rfl, hji⟩ := h2
        have hef : entry = file := Option.some.inj (hentry.symm.trans hf)
        subst hef
        exact update_resolved_erase_before vars _ fj i j entry element hf he hres hji hjlt
      · rw [if_neg h2]
        have hcase : fj ≠ f ∨ (fj = f ∧ i < j) := by
          by_cases hfe : fj = f
          · right
            refine ⟨hfe, ?_⟩
            have hne1 : ¬ (j = i) := fun hh => h1 ⟨hfe, hh⟩
            have hne2 : ¬ (j < i) := fun hh => h2 ⟨hfe, hh⟩
            omega
          · exact Or.inl hfe
        exact update_resolved_erase_other vars _ f i fj j file entry element hf he hres
          hentry hjlt hcase

theorem tailSteps_next_file (vars : TgdbVariablesInfo) (f i : Nat)
    (file : GdbVariableInfo) (hv : vars[f]? = some file)
    (hi : i ≤ file.identifiersList.length) :
    tailSteps vars (f + 1) 0 < tailSteps vars f i := by
  unfold tailSteps
  rw [hv]
  cases hv1 : vars[f + 1]? with
  | none =>
    have hlen : vars.length ≤ f + 1 := List.getElem?_eq_none_iff.mp hv1
    rw [List.drop_eq_nil_of_le (by omega : vars.length ≤ f + 1 + 1)]
    rw [List.drop_eq_nil_of_le (by omega : vars.length ≤ f + 1)]
    simp only [List.map_nil, List.sum_nil, Option.map_none', Option.getD_none,
      Option.map_some', Option.getD_some]
    omega
  | some file1 =>
    obtain ⟨hlt, hget⟩ := List.getElem?_eq_some.mp hv1
    rw [List.drop_eq_getElem_cons hlt]
    simp only [List.map_cons, List.sum_cons, Option.map_some', Option.getD_some, hget]
    omega

theorem tailSteps_next_elem (vars : TgdbVariablesInfo) (f i : Nat)
    (file : GdbVariableInfo) (e : GdbIdentifierInfo) (hv : vars[f]? = some file)
    (hi : file.identifiersList[i]? = some e) :
    tailSteps vars f (i + 1) < tailSteps vars f i := by
  unfold tailSteps
  rw [hv]
  have hlt : i < file.identifiersList.length := (List.getElem?_eq_some.mp hi).1
  simp only [Option.map_some', Option.getD_some]
  omega

theorem sum_drop_le (l : List GdbVariableInfo) :
    ∀ n, ((l.drop n).map (fun file => file.identifiersList.length + 1)).sum ≤
      (l.map (fun file => file.identifiersList.length + 1)).sum := by
  induction l with
  | nil => intro n; simp
  | cons a t ih =>
    intro n
    cases n with
    | zero => exact le_refl _
    | succ n' =>
      simp only [List.drop_succ_cons, List.map_cons, List.sum_cons]
      have := ih n'
      omega

theorem sum_succ_eq (l : List GdbVariableInfo) :
    (l.map (fun file => file.identifiersList.length + 1)).sum =
      (l.map (fun entry => entry.identifiersList.length)).sum + l.length := by
  induction l with
  | nil => simp
  | cons a t ih =>
    simp only [List.map_cons, List.sum_cons, List.length_cons, ih]
    omega

theorem tailSteps_le_budget (vars : TgdbVariablesInfo) (f i : Nat) :
    tailSteps vars f i ≤ computeNumberOfVariables vars + vars.length + 1 := by
  unfold tailSteps computeNumberOfVariables
  have htot := sum_succ_eq vars
  cases hv : vars[f]? with
  | none =>
    have h1 := sum_drop_le vars (f + 1)
    simp only [Option.map_none', Option.getD_none]
    omega
  | some file =>
    obtain ⟨hlt, hget⟩ := List.getElem?_eq_some.mp hv
    have h1 := sum_drop_le vars f
    rw [List.drop_eq_getElem_cons hlt] at h1
    simp only [List.map_cons, List.sum_cons, hget] at h1
    simp only [Option.map_some', Option.getD_some]
    omega

theorem storeScanGo_TYPE_spec (resp : JSStr) (expand : Bool) :
    ∀ (fuel : Nat) (vars newInfo : TgdbVariablesInfo) (f i : Nat),
      tailSteps vars f i ≤ fuel → cursorOk vars f i →
      ((storeScanGo resp InformationType.TYPE expand fuel vars newInfo f i).pos = none →
        (storeScanGo resp InformationType.TYPE expand fuel vars newInfo f i).vars = vars ∧
        (storeScanGo resp InformationType.TYPE expand fuel vars newInfo f i).newInfo =
          newInfo ∧
        noQualifyFrom vars f i) ∧
      (∀ fs is, (storeScanGo resp InformationType.TYPE expand fuel vars newInfo f i).pos =
          some (fs, is) →
        scanGE fs is f i ∧ noQualifyBetween vars f i fs is ∧
        ∃ file element, vars[fs]? = some file ∧
          file.identifiersList[is]? = some element ∧
          (storeScanGo resp InformationType.TYPE expand fuel vars newInfo f i).vars =
            (typeScanUpdate vars newInfo resp expand file element fs is).1 ∧
          (storeScanGo resp InformationType.TYPE expand fuel vars newInfo f i).newInfo =
            (typeScanUpdate vars newInfo resp expand file element fs is).2) := by
  intro fuel
  induction fuel with
  | zero =>
    intro vars newInfo f i hfuel hcur
    unfold tailSteps at hfuel
    omega
  | succ k ih =>
    intro vars newInfo f i hfuel hcur
    rw [storeScanGo]
    cases hv : vars[f]? with
    | none =>
      constructor
      · intro _
        refine ⟨rfl, rfl, ?_⟩
        intro f' i' file e hf' hi' hge
        have hflen : vars.length ≤ f := List.getElem?_eq_none_iff.mp hv
        have hflen' : vars.length ≤ f' := by
          rcases hge with h | h
          · omega
          · omega
        rw [List.getElem?_eq_none_iff.mpr hflen'] at hf'
        cases hf'
      · intro fs is h
        cases h
    | some file =>
      dsimp only
      cases he : file.identifiersList[i]? with
      | none =>
        dsimp only
        have hlen : file.identifiersList.length ≤ i := List.getElem?_eq_none_iff.mp he
        have hcuri : i ≤ file.identifiersList.length := hcur file hv
        have hfuel' : tailSteps vars (f + 1) 0 ≤ k := by
          have := tailSteps_next_file vars f i file hv hcuri
          omega
        have hcur' : cursorOk vars (f + 1) 0 := fun file' _ => Nat.zero_le _
        obtain ⟨ihn, ihs⟩ := ih vars newInfo (f + 1) 0 hfuel' hcur'
        have hcover : ∀ f' i', scanGE f' i' f i →
            (f' = f) ∨ scanGE f' i' (f + 1) 0 := by
          intro f' i' hge
          by_cases hff : f' = f
          · exact Or.inl hff
          · right
            rcases hge with h | h
            · by_cases h2 : f + 1 = f'
              · exact Or.inr ⟨h2, Nat.zero_le _⟩
              · exact Or.inl (by omega)
            · omega
        have hnof : ∀ (f' i' : Nat) (file' : GdbVariableInfo) (e' : GdbIdentifierInfo),
            vars[f']? = some file' → file'.identifiersList[i']? = some e' →
            f' = f → i ≤ i' → False := by
          intro f' i' file' e' hf' hi' hff hii
          rw [hff, hv] at hf'
          have hfile' : file' = file := (Option.some.inj hf').symm
          rw [hfile'] at hi'
          rw [List.getElem?_eq_none_iff.mpr
            (show file.identifiersList.length ≤ i' by omega)] at hi'
          cases hi'
        constructor
        · intro hnone
          obtain ⟨hv1, hn1, hnq⟩ := ihn hnone
          refine ⟨hv1, hn1, ?_⟩
          intro f' i' file' e' hf' hi' hge
          rcases hcover f' i' hge with hff | hge'
          · have hii : i ≤ i' := by
              rcases hge with h | h
              · omega
              · exact h.2
            exact absurd (hnof f' i' file' e' hf' hi' hff hii) (fun h => h)
          · exact hnq f' i' file' e' hf' hi' hge'
        · intro fs is h
          obtain ⟨hge1, hbet, file0, element0, hf0, he0, hv0, hn0⟩ := ihs fs is h
          refine ⟨?_, ?_, file0, element0, hf0, he0, hv0, hn0⟩
          · rcases hge1 with h1 | h1
            · exact Or.inl (by omega)
            · exact Or.inl (by omega)
          · intro f' i' file' e' hf' hi' hge hlt2
            rcases hcover f' i' hge with hff | hge'
            · have hii : i ≤ i' := by
                rcases hge with h | h
                · omega
                · exact h.2
              exact absurd (hnof f' i' file' e' hf' hi' hff hii) (fun h => h)
            · exact hbet f' i' file' e' hf' hi' hge' hlt2
      | some element =>
        dsimp only
        by_cases hq : element.type = none ∨ (element.type.getD []).headD ' ' = '?'
        · rw [if_pos hq]
          constructor
          · intro h
            cases h
          · intro fs is h
            have hfi : f = fs ∧ i = is := by
              simpa using (Prod.mk.injEq _ _ _ _).mp (Option.some.inj h)
            obtain ⟨rfl, rfl⟩ := hfi
            refine ⟨Or.inr ⟨rfl, le_refl i⟩, ?_, file, element, hv, he, ?_, ?_⟩
            · intro f' i' file' e' hf' hi' hge hlt
              intro _
              unfold scanGE at hge
              omega
            · show _ = _
              dsimp only [typeScanUpdate]
            · show _ = _
              dsimp only [typeScanUpdate]
        · rw [if_neg hq]
          have hfuel' : tailSteps vars f (i + 1) ≤ k := by
            have := tailSteps_next_elem vars f i file element hv he
            omega
          have hilen : i < file.identifiersList.length := (List.getElem?_eq_some.mp he).1
          have hcur' : cursorOk vars f (i + 1) := by
            intro file' hf'
            rw [hv] at hf'
            obtain rfl := (Option.some.inj hf').symm
            omega
          obtain ⟨ihn, ihs⟩ := ih vars newInfo f (i + 1) hfuel' hcur'
          have hcover : ∀ f' i', scanGE f' i' f i →
              (f' = f ∧ i' = i) ∨ scanGE f' i' f (i + 1) := by
            intro f' i' hge
            by_cases hcp : f' = f ∧ i' = i
            · exact Or.inl hcp
            · right
              rcases hge with h | h
              · exact Or.inl h
              · right
                refine ⟨h.1, ?_⟩
                have : ¬ (f' = f ∧ i' = i) := hcp
                omega
          have hself : ∀ (file' : GdbVariableInfo) (e' : GdbIdentifierInfo),
              vars[f]? = some file' → file'.identifiersList[i]? = some e' →
              ¬ qualifiesT e' := by
            intro file' e' hf' hi'
            rw [hv] at hf'
            obtain rfl := (Option.some.inj hf').symm
            rw [he] at hi'
            obtain rfl := (Option.some.inj hi').symm
            exact hq
          constructor
          · intro hnone
            obtain ⟨hv1, hn1, hnq⟩ := ihn hnone
            refine ⟨hv1, hn1, ?_⟩
            intro f' i' file' e' hf' hi' hge
            rcases hcover f' i' hge with ⟨hff, hii⟩ | hge'
            · subst hff
              subst hii
              exact hself file' e' hf' hi'
            · exact hnq f' i' file' e' hf' hi' hge'
          · intro fs is h
            obtain ⟨hge1, hbet, file0, element0, hf0, he0, hv0, hn0⟩ := ihs fs is h
            refine ⟨?_, ?_, file0, element0, hf0, he0, hv0, hn0⟩
            · rcases hge1 with h1 | h1
              · exact Or.inl h1
              · exact Or.inr ⟨h1.1, by omega⟩
            · intro f' i' file' e' hf' hi' hge hlt2
              rcases hcover f' i' hge with ⟨hff, hii⟩ | hge'
              · subst hff
                subst hii
                exact hself file' e' hf' hi'
              · exact hbet f' i' file' e' hf' hi' hge' hlt2

theorem storeAll_TYPE_inv (st : ElfParserState) (resp : JSStr)
    (hres : resolvedBefore st.gdbVariablesInfo st.currentFilenameIdx
      st.currentIdentifierIdx)
    (hcur : cursorOk st.gdbVariablesInfo st.currentFilenameIdx st.currentIdentifierIdx) :
    ((storeAllElementsFromGdb st resp InformationType.TYPE).2 = false →
      (storeAllElementsFromGdb st resp InformationType.TYPE).1.gdbVariablesInfo =
        st.gdbVariablesInfo ∧
      allTypesDefined st.gdbVariablesInfo) ∧
    ((storeAllElementsFromGdb st resp InformationType.TYPE).2 = true →
      resolvedBefore
        (storeAllElementsFromGdb st resp InformationType.TYPE).1.gdbVariablesInfo
        (storeAllElementsFromGdb st resp InformationType.TYPE).1.currentFilenameIdx
        (storeAllElementsFromGdb st resp InformationType.TYPE).1.currentIdentifierIdx ∧
      cursorOk
        (storeAllElementsFromGdb st resp InformationType.TYPE).1.gdbVariablesInfo
        (storeAllElementsFromGdb st resp InformationType.TYPE).1.currentFilenameIdx
        (storeAllElementsFromGdb st resp InformationType.TYPE).1.currentIdentifierIdx) := by
  have hspec := storeScanGo_TYPE_spec resp st.expandTableElements
    (computeNumberOfVariables st.gdbVariablesInfo + st.gdbVariablesInfo.length + 1)
    st.gdbVariablesInfo st.newGdbVariablesInfo st.currentFilenameIdx
    st.currentIdentifierIdx
    (tailSteps_le_budget st.gdbVariablesInfo st.currentFilenameIdx
      st.currentIdentifierIdx) hcur
  unfold storeAllElementsFromGdb storeScan
  unfold storeScan at hspec
  cases hpos : (storeScanGo resp InformationType.TYPE st.expandTableElements
      (computeNumberOfVariables st.gdbVariablesInfo + st.gdbVariablesInfo.length + 1)
      st.gdbVariablesInfo st.newGdbVariablesInfo st.currentFilenameIdx
      st.currentIdentifierIdx).pos with
  | none =>
    simp only [hpos]
    constructor
    · intro _
      obtain ⟨hveq, hneq, hnq⟩ := hspec.1 hpos
      refine ⟨hveq, ?_⟩
      intro file hfile e hemem
      obtain ⟨fi, hfilt, hfig⟩ := List.getElem_of_mem hfile
      obtain ⟨ei, heilt, heig⟩ := List.getElem_of_mem hemem
      have hf? : st.gdbVariablesInfo[fi]? = some file :=
        List.getElem?_eq_some.mpr ⟨hfilt, hfig⟩
      have he? : file.identifiersList[ei]? = some e :=
        List.getElem?_eq_some.mpr ⟨heilt, heig⟩
      by_cases hlt : fi < st.currentFilenameIdx ∨
          (fi = st.currentFilenameIdx ∧ ei < st.currentIdentifierIdx)
      · exact hres fi ei file e hf? he? hlt
      · refine not_qualifiesT_type_ne e (hnq fi ei file e hf? he? ?_)
        unfold scanGE
        omega
    · intro h
      cases h
  | some fi =>
    simp only [hpos]
    constructor
    · intro h
      cases h
    · intro _
      obtain ⟨hge, hbet, file, element, hf, he, hveq, hneq⟩ :=
        hspec.2 fi.1 fi.2 (by rw [hpos])
      have hres2 : resolvedBefore st.gdbVariablesInfo fi.1 fi.2 := by
        intro f' i' file' e' hf' hi' hlt
        by_cases hlt0 : f' < st.currentFilenameIdx ∨
            (f' = st.currentFilenameIdx ∧ i' < st.currentIdentifierIdx)
        · exact hres f' i' file' e' hf' hi' hlt0
        · refine not_qualifiesT_type_ne e' (hbet f' i' file' e' hf' hi' ?_ hlt)
          unfold scanGE
          omega
      have hmain := typeScanUpdate_resolved st.gdbVariablesInfo st.newGdbVariablesInfo
        resp st.expandTableElements file element fi.1 fi.2 hf he hres2
      rw [hveq]
      exact hmain

theorem stateRank_five {s : State} (h : stateRank s = 5) : s = State.GET_SIZE := by
  cases s <;> simp_all [stateRank]

theorem stateRank_six {s : State} (h : stateRank s = 6) : s = State.GET_ADDRESS := by
  cases s <;> simp_all [stateRank]

theorem mul_div_self_le (a n : Nat) : a * n / n ≤ a := by
  cases n with
  | zero => simp
  | succ k =>
    have h : a * (k + 1) / (k + 1) = a := Nat.mul_div_cancel a (Nat.succ_pos k)
    omega

theorem finish_step (st1 : ElfParserState) (p₀ v : Nat)
    (hp : st1.progressStatus = some p₀) (hpv : p₀ ≤ v) (hv100 : v ≤ 100)
    (hIkeep : progressInv st1)
    (hIres : progressInv { st1 with progressStatus := some v }) :
    progressInv (if jsNumNeq st1.progressStatus (some v) = true then
        ({ st1 with progressStatus := some v }, ([some v] : List (Option Nat)))
      else (st1, [])).1 ∧
    (((if jsNumNeq st1.progressStatus (some v) = true then
          ({ st1 with progressStatus := some v }, ([some v] : List (Option Nat)))
        else (st1, [])).2 = [] ∧
      (if jsNumNeq st1.progressStatus (some v) = true then
          ({ st1 with progressStatus := some v }, ([some v] : List (Option Nat)))
        else (st1, [])).1.progressStatus = st1.progressStatus) ∨
     (∃ q w, st1.progressStatus = some q ∧
       (if jsNumNeq st1.progressStatus (some v) = true then
          ({ st1 with progressStatus := some v }, ([some v] : List (Option Nat)))
        else (st1, [])).2 = [some w] ∧ q < w ∧ w ≤ 100 ∧
       (if jsNumNeq st1.progressStatus (some v) = true then
          ({ st1 with progressStatus := some v }, ([some v] : List (Option Nat)))
        else (st1, [])).1.progressStatus = some w)) := by
  rw [hp]
  by_cases hne : p₀ = v
  · subst hne
    rw [if_neg (by simp [jsNumNeq])]
    exact ⟨hIkeep, Or.inl ⟨rfl, hp⟩⟩
  · rw [if_pos (by simp [jsNumNeq]; exact hne)]
    exact ⟨hIres, Or.inr ⟨p₀, v, rfl, rfl, Nat.lt_of_le_of_ne hpv hne, hv100, rfl⟩⟩

theorem sendProgress_spec (st : ElfParserState) (hI : progressInv st)
    (hJs : st.currentState = State.GET_SIZE → st.previousState = State.GET_SIZE →
      1 ≤ st.numberOfVariables)
    (hJa : st.currentState = State.GET_ADDRESS →
      st.previousState = State.GET_ADDRESS → 1 ≤ st.numberOfVariables) :
    progressInv (sendProgressStatusToClient st).1 ∧
    (((sendProgressStatusToClient st).2 = [] ∧
       (sendProgressStatusToClient st).1.progressStatus = st.progressStatus) ∨
     (∃ q w, st.progressStatus = some q ∧
       (sendProgressStatusToClient st).2 = [some w] ∧ q < w ∧ w ≤ 100 ∧
       (sendProgressStatusToClient st).1.progressStatus = some w)) := by
  obtain ⟨⟨p₀, hp, hp100, hcase⟩, hsz, had, hty, hr5, hr6⟩ := hI
  unfold sendProgressStatusToClient
  cases hcb : st.progressCallback with
  | none =>
    refine ⟨⟨⟨p₀, hp, hp100, hcase⟩, hsz, had, hty, hr5, hr6⟩, Or.inl ⟨rfl, rfl⟩⟩
  | some cb =>
    dsimp only
    cases hcur : st.currentState with
    | IDLE =>
      dsimp only
      refine finish_step { st with previousState := st.currentState } p₀ 100 ?_ hp100
        (le_refl 100) ?_ ?_
      · exact hp
      · show progressInvP st.currentState st.currentState st.progressStatus
          st.gdbResponseCounter st.numberOfVariables st.gdbVariablesInfo
          st.currentFilenameIdx st.currentIdentifierIdx
        rw [hcur]
        unfold progressInvP
        refine ⟨⟨p₀, hp, hp100, ?_⟩, ?_, ?_, ?_, ?_, ?_⟩
        · exact trivial
        · exact fun h => nomatch h
        · exact fun h => nomatch h
        · exact fun h => nomatch h
        · exact fun h => nomatch h
        · exact fun h => nomatch h
      · show progressInvP st.currentState st.currentState (some 100)
          st.gdbResponseCounter st.numberOfVariables st.gdbVariablesInfo
          st.currentFilenameIdx st.currentIdentifierIdx
        rw [hcur]
        unfold progressInvP
        refine ⟨⟨100, rfl, le_refl 100, ?_⟩, ?_, ?_, ?_, ?_, ?_⟩
        · exact trivial
        · exact fun h => nomatch h
        · exact fun h => nomatch h
        · exact fun h => nomatch h
        · exact fun h => nomatch h
        · exact fun h => nomatch h
    | START_GDB =>
      dsimp only
      rw [hcur] at hcase
      dsimp only at hcase
      refine finish_step { st with previousState := st.currentState } p₀ 0 ?_
        (le_of_eq hcase) (by omega) ?_ ?_
      · exact hp
      · show progressInvP st.currentState st.currentState st.progressStatus
          st.gdbResponseCounter st.numberOfVariables st.gdbVariablesInfo
          st.currentFilenameIdx st.currentIdentifierIdx
        rw [hcur]
        unfold progressInvP
        refine ⟨⟨p₀, hp, hp100, ?_⟩, ?_, ?_, ?_, ?_, ?_⟩
        · exact hcase
        · exact fun h => nomatch h
        · exact fun h => nomatch h
        · exact fun h => nomatch h
        · exact fun h => nomatch h
        · exact fun h => nomatch h
      · show progressInvP st.currentState st.currentState (some 0)
          st.gdbResponseCounter st.numberOfVariables st.gdbVariablesInfo
          st.currentFilenameIdx st.currentIdentifierIdx
        rw [hcur]
        unfold progressInvP
        refine ⟨⟨0, rfl, by omega, ?_⟩, ?_, ?_, ?_, ?_, ?_⟩
        · exact rfl
        · exact fun h => nomatch h
        · exact fun h => nomatch h
        · exact fun h => nomatch h
        · exact fun h => nomatch h
        · exact fun h => nomatch h
    | SET_METHODS_OFF =>
      dsimp only
      rw [hcur] at hcase
      dsimp only at hcase
      refine finish_step { st with previousState := st.currentState } p₀ 0 ?_
        (le_of_eq hcase) (by omega) ?_ ?_
      · exact hp
      · show progressInvP st.currentState st.currentState st.progressStatus
          st.gdbResponseCounter st.numberOfVariables st.gdbVariablesInfo
          st.currentFilenameIdx st.currentIdentifierIdx
        rw [hcur]
        unfold progressInvP
        refine ⟨⟨p₀, hp, hp100, ?_⟩, ?_, ?_, ?_, ?_, ?_⟩
        · exact hcase
        · exact fun h => nomatch h
        · exact fun h => nomatch h
        · exact fun h => nomatch h
        · exact fun h => nomatch h
        · exact fun h => nomatch h
      · show progressInvP st.currentState st.currentState (some 0)
          st.gdbResponseCounter st.numberOfVariables st.gdbVariablesInfo
          st.currentFilenameIdx st.currentIdentifierIdx
        rw [hcur]
        unfold progressInvP
        refine ⟨⟨0, rfl, by omega, ?_⟩, ?_, ?_, ?_, ?_, ?_⟩
        · exact rfl
        · exact fun h => nomatch h
        · exact fun h => nomatch h
        · exact fun h => nomatch h
        · exact fun h => nomatch h
        · exact fun h => nomatch h
    | SET_TYPEDEFS_OFF =>
      dsimp only
      rw [hcur] at hcase
      dsimp only at hcase
      refine finish_step { st with previousState := st.currentState } p₀ 0 ?_
        (le_of_eq hcase) (by omega) ?_ ?_
      · exact hp
      · show progressInvP st.currentState st.currentState st.progressStatus
          st.gdbResponseCounter st.numberOfVariables st.gdbVariablesInfo
          st.currentFilenameIdx st.currentIdentifierIdx
        rw [hcur]
        unfold progressInvP
        refine ⟨⟨p₀, hp, hp100, ?_⟩, ?_, ?_, ?_, ?_, ?_⟩
        · exact hcase
        · exact fun h => nomatch h
        · exact fun h => nomatch h
        · exact fun h => nomatch h
        · exact fun h => nomatch h
        · exact fun h => nomatch h
      · show progressInvP st.currentState st.currentState (some 0)
          st.gdbResponseCounter st.numberOfVariables st.gdbVariablesInfo
          st.currentFilenameIdx st.currentIdentifierIdx
        rw [hcur]
        unfold progressInvP
        refine ⟨⟨0, rfl, by omega, ?_⟩, ?_, ?_, ?_, ?_, ?_⟩
        · exact rfl
        · exact fun h => nomatch h
        · exact fun h => nomatch h
        · exact fun h => nomatch h
        · exact fun h => nomatch h
        · exact fun h => nomatch h
    | GET_VARIABLES_INFO =>
      dsimp only
      rw [hcur] at hcase
      dsimp only at hcase
      refine finish_step { st with previousState := st.currentState } p₀ 10 ?_ hcase
        (by omega) ?_ ?_
      · exact hp
      · show progressInvP st.currentState st.currentState st.progressStatus
          st.gdbResponseCounter st.numberOfVariables st.gdbVariablesInfo
          st.currentFilenameIdx st.currentIdentifierIdx
        rw [hcur]
        unfold progressInvP
        refine ⟨⟨p₀, hp, hp100, ?_⟩, ?_, ?_, ?_, ?_, ?_⟩
        · exact hcase
        · exact fun h => nomatch h
        · exact fun h => nomatch h
        · exact fun h => nomatch h
        · exact fun h => nomatch h
        · exact fun h => nomatch h
      · show progressInvP st.currentState st.currentState (some 10)
          st.gdbResponseCounter st.numberOfVariables st.gdbVariablesInfo
          st.currentFilenameIdx st.currentIdentifierIdx
        rw [hcur]
        unfold progressInvP
        refine ⟨⟨10, rfl, by omega, ?_⟩, ?_, ?_, ?_, ?_, ?_⟩
        · exact le_refl 10
        · exact fun h => nomatch h
        · exact fun h => nomatch h
        · exact fun h => nomatch h
        · exact fun h => nomatch h
        · exact fun h => nomatch h
    | GET_TYPE =>
      dsimp only
      rw [hcur] at hcase
      dsimp only at hcase
      refine finish_step { st with previousState := st.currentState } p₀ 25 ?_ hcase
        (by omega) ?_ ?_
      · exact hp
      · show progressInvP st.currentState st.currentState st.progressStatus
          st.gdbResponseCounter st.numberOfVariables st.gdbVariablesInfo
          st.currentFilenameIdx st.currentIdentifierIdx
        rw [hcur]
        unfold progressInvP
        refine ⟨⟨p₀, hp, hp100, ?_⟩, ?_, ?_, ?_, ?_, ?_⟩
        · exact hcase
        · exact fun h => nomatch h
        · exact fun h => nomatch h
        · exact fun _ => hty hcur
        · exact fun h => nomatch h
        · exact fun h => nomatch h
      · show progressInvP st.currentState st.currentState (some 25)
          st.gdbResponseCounter st.numberOfVariables st.gdbVariablesInfo
          st.currentFilenameIdx st.currentIdentifierIdx
        rw [hcur]
        unfold progressInvP
        refine ⟨⟨25, rfl, by omega, ?_⟩, ?_, ?_, ?_, ?_, ?_⟩
        · exact le_refl 25
        · exact fun h => nomatch h
        · exact fun h => nomatch h
        · exact fun _ => hty hcur
        · exact fun h => nomatch h
        · exact fun h => nomatch h
    | GET_SIZE =>
      dsimp only
      rw [hcur] at hcase
      dsimp only at hcase
      by_cases hprev : st.previousState = State.GET_SIZE
      · rw [if_neg (show ¬ (st.previousState ≠ State.GET_SIZE) from
          fun hne => hne hprev)]
        have h1n : 1 ≤ st.numberOfVariables := hJs hcur hprev
        have hn0 : ¬ st.numberOfVariables = 0 := by omega
        rw [if_neg hn0]
        have hbound := (hcase.2 hprev).1
        have hcn : st.gdbResponseCounter ≤ st.numberOfVariables := by
          have := (hcase.2 hprev).2
          omega
        have h2550 : (75 - 50 : Nat) = 25 := by norm_num
        have hdivle : 25 * st.gdbResponseCounter / st.numberOfVariables ≤ 25 := by
          calc 25 * st.gdbResponseCounter / st.numberOfVariables
              ≤ 25 * st.numberOfVariables / st.numberOfVariables :=
                Nat.div_le_div_right (Nat.mul_le_mul_left 25 hcn)
            _ ≤ 25 := mul_div_self_le 25 st.numberOfVariables
        refine finish_step { st with previousState := st.currentState } p₀
          (50 + (75 - 50) * st.gdbResponseCounter / st.numberOfVariables) ?_
          (by rw [h2550]; exact hbound) (by rw [h2550]; omega) ?_ ?_
        · exact hp
        · show progressInvP st.currentState st.currentState st.progressStatus
            st.gdbResponseCounter st.numberOfVariables st.gdbVariablesInfo
            st.currentFilenameIdx st.currentIdentifierIdx
          rw [hcur]
          unfold progressInvP
          refine ⟨⟨p₀, hp, hp100, ?_⟩, ?_, ?_, ?_, ?_, ?_⟩
          · exact ⟨fun hne => absurd rfl hne, fun _ => hcase.2 hprev⟩
          · exact fun _ => hsz hcur
          · exact fun h => nomatch h
          · exact fun h => nomatch h
          · exact fun _ => by decide
          · exact fun h => nomatch h
        · show progressInvP st.currentState st.currentState
            (some (50 + (75 - 50) * st.gdbResponseCounter / st.numberOfVariables))
            st.gdbResponseCounter st.numberOfVariables st.gdbVariablesInfo
            st.currentFilenameIdx st.currentIdentifierIdx
          rw [hcur]
          unfold progressInvP
          refine ⟨⟨50 + (75 - 50) * st.gdbResponseCounter / st.numberOfVariables, rfl,
            by rw [h2550]; omega, ?_⟩, ?_, ?_, ?_, ?_, ?_⟩
          · refine ⟨fun hne => absurd rfl hne, fun _ => ⟨by rw [h2550], (hcase.2 hprev).2⟩⟩
          · exact fun _ => hsz hcur
          · exact fun h => nomatch h
          · exact fun h => nomatch h
          · exact fun _ => by decide
          · exact fun h => nomatch h
      · rw [if_pos hprev]
        have h50 : p₀ ≤ 50 := hcase.1 hprev
        have hcount : countTypeValueNone st.gdbVariablesInfo ≤ st.numberOfVariables := by
          obtain ⟨hn, _⟩ := hsz hcur
          rw [hn]
          exact countTypeValueNone_le st.gdbVariablesInfo
        refine finish_step
          { currentState := State.GET_SIZE
            previousState := State.GET_SIZE
            callback := st.callback
            expandTableElements := st.expandTableElements
            progressCallback := some cb
            gdbProcess := st.gdbProcess
            dataBuffer := st.dataBuffer
            gdbVariablesInfo := st.gdbVariablesInfo
            newGdbVariablesInfo := st.newGdbVariablesInfo
            gdbResponseCounter := 0
            numberOfVariables := st.numberOfVariables
            progressStatus := st.progressStatus
            currentFilenameIdx := st.currentFilenameIdx
            currentIdentifierIdx := st.currentIdentifierIdx } p₀ 50 ?_
          h50 (by omega) ?_ ?_
        · exact hp
        · show progressInvP State.GET_SIZE State.GET_SIZE st.progressStatus
            0 st.numberOfVariables st.gdbVariablesInfo
            st.currentFilenameIdx st.currentIdentifierIdx
          unfold progressInvP
          refine ⟨⟨p₀, hp, hp100, ?_⟩, ?_, ?_, ?_, ?_, ?_⟩
          · refine ⟨fun _ => h50, fun _ => ⟨by simpa using h50, by simpa using hcount⟩⟩
          · exact fun _ => hsz hcur
          · exact fun h => nomatch h
          · exact fun h => nomatch h
          · exact fun _ => by decide
          · exact fun h => nomatch h
        · show progressInvP State.GET_SIZE State.GET_SIZE (some 50)
            0 st.numberOfVariables st.gdbVariablesInfo
            st.currentFilenameIdx st.currentIdentifierIdx
          unfold progressInvP
          refine ⟨⟨50, rfl, by omega, ?_⟩, ?_, ?_, ?_, ?_, ?_⟩
          · refine ⟨fun _ => le_refl 50, fun _ => ⟨by simp, by simpa using hcount⟩⟩
          · exact fun _ => hsz hcur
          · exact fun h => nomatch h
          · exact fun h => nomatch h
          · exact fun _ => by decide
          · exact fun h => nomatch h
    | GET_ADDRESS =>
      dsimp only
      rw [hcur] at hcase
      dsimp only at hcase
      by_cases hprev : st.previousState = State.GET_ADDRESS
      · rw [if_neg (show ¬ (st.previousState ≠ State.GET_ADDRESS) from
          fun hne => hne hprev)]
        have h1n : 1 ≤ st.numberOfVariables := hJa hcur hprev
        have hn0 : ¬ st.numberOfVariables = 0 := by omega
        rw [if_neg hn0]
        have hbound := (hcase.2 hprev).1
        have hcn : st.gdbResponseCounter ≤ st.numberOfVariables := by
          have := (hcase.2 hprev).2
          omega
        have h10075 : (100 - 75 : Nat) = 25 := by norm_num
        have hdivle : 25 * st.gdbResponseCounter / st.numberOfVariables ≤ 25 := by
          calc 25 * st.gdbResponseCounter / st.numberOfVariables
              ≤ 25 * st.numberOfVariables / st.numberOfVariables :=
                Nat.div_le_div_right (Nat.mul_le_mul_left 25 hcn)
            _ ≤ 25 := mul_div_self_le 25 st.numberOfVariables
        refine finish_step { st with previousState := st.currentState } p₀
          (75 + (100 - 75) * st.gdbResponseCounter / st.numberOfVariables) ?_
          (by rw [h10075]; exact hbound) (by rw [h10075]; omega) ?_ ?_
        · exact hp
        · show progressInvP st.currentState st.currentState st.progressStatus
            st.gdbResponseCounter st.numberOfVariables st.gdbVariablesInfo
            st.currentFilenameIdx st.currentIdentifierIdx
          rw [hcur]
          unfold progressInvP
          refine ⟨⟨p₀, hp, hp100, ?_⟩, ?_, ?_, ?_, ?_, ?_⟩
          · exact ⟨fun hne => absurd rfl hne, fun _ => hcase.2 hprev⟩
          · exact fun h => nomatch h
          · exact fun _ => had hcur
          · exact fun h => nomatch h
          · exact fun h => nomatch h
          · exact fun _ => by decide
        · show progressInvP st.currentState st.currentState
            (some (75 + (100 - 75) * st.gdbResponseCounter / st.numberOfVariables))
            st.gdbResponseCounter st.numberOfVariables st.gdbVariablesInfo
            st.currentFilenameIdx st.currentIdentifierIdx
          rw [hcur]
          unfold progressInvP
          refine ⟨⟨75 + (100 - 75) * st.gdbResponseCounter / st.numberOfVariables, rfl,
            by rw [h10075]; omega, ?_⟩, ?_, ?_, ?_, ?_, ?_⟩
          · refine ⟨fun hne => absurd rfl hne,
              fun _ => ⟨by rw [h10075], (hcase.2 hprev).2⟩⟩
          · exact fun h => nomatch h
          · exact fun _ => had hcur
          · exact fun h => nomatch h
          · exact fun h => nomatch h
          · exact fun _ => by decide
      · rw [if_pos hprev]
        have h75 : p₀ ≤ 75 := hcase.1 hprev
        have hcount : countAddressNone st.gdbVariablesInfo ≤ st.numberOfVariables := by
          have hn := had hcur
          rw [hn]
          exact countAddressNone_le st.gdbVariablesInfo
        refine finish_step
          { currentState := State.GET_ADDRESS
            previousState := State.GET_ADDRESS
            callback := st.callback
            expandTableElements := st.expandTableElements
            progressCallback := some cb
            gdbProcess := st.gdbProcess
            dataBuffer := st.dataBuffer
            gdbVariablesInfo := st.gdbVariablesInfo
            newGdbVariablesInfo := st.newGdbVariablesInfo
            gdbResponseCounter := 0
            numberOfVariables := st.numberOfVariables
            progressStatus := st.progressStatus
            currentFilenameIdx := st.currentFilenameIdx
            currentIdentifierIdx := st.currentIdentifierIdx } p₀ 75 ?_
          h75 (by omega) ?_ ?_
        · exact hp
        · show progressInvP State.GET_ADDRESS State.GET_ADDRESS st.progressStatus
            0 st.numberOfVariables st.gdbVariablesInfo
            st.currentFilenameIdx st.currentIdentifierIdx
          unfold progressInvP
          refine ⟨⟨p₀, hp, hp100, ?_⟩, ?_, ?_, ?_, ?_, ?_⟩
          · refine ⟨fun _ => h75, fun _ => ⟨by simpa using h75, by simpa using hcount⟩⟩
          · exact fun h => nomatch h
          · exact fun _ => had hcur
          · exact fun h => nomatch h
          · exact fun h => nomatch h
          · exact fun _ => by decide
        · show progressInvP State.GET_ADDRESS State.GET_ADDRESS (some 75)
            0 st.numberOfVariables st.gdbVariablesInfo
            st.currentFilenameIdx st.currentIdentifierIdx
          unfold progressInvP
          refine ⟨⟨75, rfl, by omega, ?_⟩, ?_, ?_, ?_, ?_, ?_⟩
          · refine ⟨fun _ => le_refl 75, fun _ => ⟨by simp, by simpa using hcount⟩⟩
          · exact fun h => nomatch h
          · exact fun _ => had hcur
          · exact fun h => nomatch h
          · exact fun h => nomatch h
          · exact fun _ => by decide

theorem postProcess_fields (s : ElfParserState) :
    (postProcessArraysInfo s).currentState = s.currentState ∧
    (postProcessArraysInfo s).previousState = s.previousState ∧
    (postProcessArraysInfo s).progressStatus = s.progressStatus ∧
    (postProcessArraysInfo s).gdbResponseCounter = s.gdbResponseCounter := by
  unfold postProcessArraysInfo
  split
  · exact ⟨rfl, rfl, rfl, rfl⟩
  · exact ⟨rfl, rfl, rfl, rfl⟩

theorem processFrame_inv (st : ElfParserState) (fr : JSStr) (hI : progressInv st) :
    progressInv (processFrame st fr).1 ∧
    (processFrame st fr).1.previousState = st.previousState ∧
    (processFrame st fr).1.progressStatus = st.progressStatus ∧
    stateRank st.currentState ≤ stateRank (processFrame st fr).1.currentState ∧
    ((processFrame st fr).1.currentState = State.GET_SIZE →
      st.currentState = State.GET_SIZE →
      (processFrame st fr).1.numberOfVariables = st.numberOfVariables ∧
      1 ≤ st.numberOfVariables) ∧
    ((processFrame st fr).1.currentState = State.GET_ADDRESS →
      st.currentState = State.GET_ADDRESS →
      (processFrame st fr).1.numberOfVariables = st.numberOfVariables ∧
      1 ≤ st.numberOfVariables) := by
  obtain ⟨⟨p₀, hp, hp100, hcase⟩, hsz, had, hty, hr5, hr6⟩ := hI
  unfold processFrame
  cases hcur : st.currentState with
  | IDLE =>
    dsimp only
    refine ⟨?_, ?_, ?_, ?_, ?_, ?_⟩
    · exact ⟨⟨p₀, hp, hp100, hcase⟩, hsz, had, hty, hr5, hr6⟩
    · exact rfl
    · exact rfl
    · show stateRank State.IDLE ≤ stateRank st.currentState
      rw [hcur]
    · exact fun _ h => nomatch h
    · exact fun _ h => nomatch h
  | START_GDB =>
    dsimp only
    rw [hcur] at hcase
    dsimp only at hcase
    refine ⟨?_, ?_, ?_, ?_, ?_, ?_⟩
    · show progressInvP State.SET_METHODS_OFF st.previousState st.progressStatus
        st.gdbResponseCounter st.numberOfVariables st.gdbVariablesInfo
        st.currentFilenameIdx st.currentIdentifierIdx
      unfold progressInvP
      refine ⟨⟨p₀, hp, hp100, hcase⟩, ?_, ?_, ?_, ?_, ?_⟩
      · exact fun h => nomatch h
      · exact fun h => nomatch h
      · exact fun h => nomatch h
      · exact fun h => absurd (hr5 h) (by rw [hcur]; decide)
      · exact fun h => absurd (hr6 h) (by rw [hcur]; decide)
    · exact rfl
    · exact rfl
    · exact (by decide : stateRank State.START_GDB ≤ stateRank State.SET_METHODS_OFF)
    · exact fun _ h => nomatch h
    · exact fun _ h => nomatch h
  | SET_METHODS_OFF =>
    dsimp only
    rw [hcur] at hcase
    dsimp only at hcase
    refine ⟨?_, ?_, ?_, ?_, ?_, ?_⟩
    · show progressInvP State.SET_TYPEDEFS_OFF st.previousState st.progressStatus
        st.gdbResponseCounter st.numberOfVariables st.gdbVariablesInfo
        st.currentFilenameIdx st.currentIdentifierIdx
      unfold progressInvP
      refine ⟨⟨p₀, hp, hp100, hcase⟩, ?_, ?_, ?_, ?_, ?_⟩
      · exact fun h => nomatch h
      · exact fun h => nomatch h
      · exact fun h => nomatch h
      · exact fun h => absurd (hr5 h) (by rw [hcur]; decide)
      · exact fun h => absurd (hr6 h) (by rw [hcur]; decide)
    · exact rfl
    · exact rfl
    · exact (by decide : stateRank State.SET_METHODS_OFF ≤
        stateRank State.SET_TYPEDEFS_OFF)
    · exact fun _ h => nomatch h
    · exact fun _ h => nomatch h
  | SET_TYPEDEFS_OFF =>
    dsimp only
    rw [hcur] at hcase
    dsimp only at hcase
    refine ⟨?_, ?_, ?_, ?_, ?_, ?_⟩
    · show progressInvP State.GET_VARIABLES_INFO st.previousState st.progressStatus
        st.gdbResponseCounter st.numberOfVariables st.gdbVariablesInfo
        st.currentFilenameIdx st.currentIdentifierIdx
      unfold progressInvP
      refine ⟨⟨p₀, hp, hp100, by omega⟩, ?_, ?_, ?_, ?_, ?_⟩
      · exact fun h => nomatch h
      · exact fun h => nomatch h
      · exact fun h => nomatch h
      · exact fun h => absurd (hr5 h) (by rw [hcur]; decide)
      · exact fun h => absurd (hr6 h) (by rw [hcur]; decide)
    · exact rfl
    · exact rfl
    · exact (by decide : stateRank State.SET_TYPEDEFS_OFF ≤
        stateRank State.GET_VARIABLES_INFO)
    · exact fun _ h => nomatch h
    · exact fun _ h => nomatch h
  | GET_VARIABLES_INFO =>
    dsimp only
    rw [hcur] at hcase
    dsimp only at hcase
    by_cases hlen : (parseGdbVariablesInfo fr st.expandTableElements).length = 0
    · rw [if_pos hlen]
      refine ⟨?_, ?_, ?_, ?_, ?_, ?_⟩
      · show progressInvP State.IDLE st.previousState st.progressStatus
          st.gdbResponseCounter st.numberOfVariables
          (parseGdbVariablesInfo fr st.expandTableElements)
          st.currentFilenameIdx st.currentIdentifierIdx
        unfold progressInvP
        refine ⟨⟨p₀, hp, hp100, trivial⟩, ?_, ?_, ?_, ?_, ?_⟩
        · exact fun h => nomatch h
        · exact fun h => nomatch h
        · exact fun h => nomatch h
        · exact fun _ => by decide
        · exact fun _ => by decide
      · exact rfl
      · exact rfl
      · exact (by decide : stateRank State.GET_VARIABLES_INFO ≤ stateRank State.IDLE)
      · exact fun _ h => nomatch h
      · exact fun _ h => nomatch h
    · rw [if_neg hlen]
      unfold requestAllElementsToGdb
      dsimp only
      refine ⟨?_, ?_, ?_, ?_, ?_, ?_⟩
      · show progressInvP State.GET_TYPE st.previousState st.progressStatus
          st.gdbResponseCounter
          (computeNumberOfVariables (parseGdbVariablesInfo fr st.expandTableElements))
          (parseGdbVariablesInfo fr st.expandTableElements) 0 0
        unfold progressInvP
        refine ⟨⟨p₀, hp, hp100, by omega⟩, ?_, ?_, ?_, ?_, ?_⟩
        · exact fun h => nomatch h
        · exact fun h => nomatch h
        · refine fun _ => ⟨?_, fun file _ => Nat.zero_le _⟩
          intro f i file e hf hi hlt
          exact absurd hlt (by omega)
        · exact fun h => absurd (hr5 h) (by rw [hcur]; decide)
        · exact fun h => absurd (hr6 h) (by rw [hcur]; decide)
      · exact rfl
      · exact rfl
      · exact (by decide : stateRank State.GET_VARIABLES_INFO ≤ stateRank State.GET_TYPE)
      · exact fun _ h => nomatch h
      · exact fun _ h => nomatch h
  | GET_TYPE =>
    dsimp only
    rw [hcur] at hcase
    dsimp only at hcase
    have hF := storeAll_fields st fr InformationType.TYPE
    have hT := storeAll_TYPE_inv st fr (hty hcur).1 (hty hcur).2
    have hcc : (storeAllElementsFromGdb st fr InformationType.TYPE).1.currentState =
        State.GET_TYPE := hF.1.trans hcur
    cases hb : (storeAllElementsFromGdb st fr InformationType.TYPE).2 with
    | true =>
      rw [if_pos rfl]
      dsimp only
      obtain ⟨hres', hcur'⟩ := hT.2 hb
      refine ⟨?_, ?_, ?_, ?_, ?_, ?_⟩
      · unfold progressInv
        rw [hcc, hF.2.1, hF.2.2.1]
        unfold progressInvP
        refine ⟨⟨p₀, hp, hp100, hcase⟩, ?_, ?_, ?_, ?_, ?_⟩
        · exact fun h => nomatch h
        · exact fun h => nomatch h
        · exact fun _ => ⟨hres', hcur'⟩
        · exact fun h => absurd (hr5 h) (by rw [hcur]; decide)
        · exact fun h => absurd (hr6 h) (by rw [hcur]; decide)
      · exact hF.2.1
      · exact hF.2.2.1
      · show stateRank State.GET_TYPE ≤ stateRank
          (storeAllElementsFromGdb st fr InformationType.TYPE).1.currentState
        rw [hcc]
      · intro h _
        rw [hcc] at h
        exact nomatch h
      · intro h _
        rw [hcc] at h
        exact nomatch h
    | false =>
      rw [if_neg Bool.false_ne_true]
      obtain ⟨hveq, hall⟩ := hT.1 hb
      by_cases hni :
          (storeAllElementsFromGdb st fr
            InformationType.TYPE).1.newGdbVariablesInfo.length = 0
      · rw [if_neg (fun hne => hne hni)]
        unfold requestAllElementsToGdb
        dsimp only
        refine ⟨?_, ?_, ?_, ?_, ?_, ?_⟩
        · unfold progressInv
          dsimp only
          rw [hF.2.1, hF.2.2.1, hveq]
          unfold progressInvP
          refine ⟨⟨p₀, hp, hp100, ?_⟩, ?_, ?_, ?_, ?_, ?_⟩
          · refine ⟨fun _ => by omega, ?_⟩
            exact fun h => absurd (hr5 h) (by rw [hcur]; decide)
          · exact fun _ => ⟨rfl, hall⟩
          · exact fun h => nomatch h
          · exact fun h => nomatch h
          · exact fun _ => by decide
          · exact fun h => absurd (hr6 h) (by rw [hcur]; decide)
        · exact hF.2.1
        · exact hF.2.2.1
        · exact (by decide : stateRank State.GET_TYPE ≤ stateRank State.GET_SIZE)
        · intro _ h
          exact nomatch h
        · intro _ h
          exact nomatch h
      · rw [if_pos hni]
        unfold requestAllElementsToGdb
        dsimp only
        refine ⟨?_, ?_, ?_, ?_, ?_, ?_⟩
        · unfold progressInv
          dsimp only
          rw [hcc, hF.2.1, hF.2.2.1]
          unfold progressInvP
          refine ⟨⟨p₀, hp, hp100, by omega⟩, ?_, ?_, ?_, ?_, ?_⟩
          · exact fun h => nomatch h
          · exact fun h => nomatch h
          · refine fun _ => ⟨?_, fun file _ => Nat.zero_le _⟩
            intro f i file e hf hi hlt
            exact absurd hlt (by omega)
          · exact fun h => absurd (hr5 h) (by rw [hcur]; decide)
          · exact fun h => absurd (hr6 h) (by rw [hcur]; decide)
        · exact hF.2.1
        · exact hF.2.2.1
        · show stateRank State.GET_TYPE ≤ stateRank
            (storeAllElementsFromGdb st fr InformationType.TYPE).1.currentState
          rw [hcc]
        · intro h _
          rw [hcc] at h
          exact nomatch h
        · intro h _
          rw [hcc] at h
          exact nomatch h
  | GET_SIZE =>
    dsimp only
    rw [hcur] at hcase
    dsimp only at hcase
    obtain ⟨hn, hall⟩ := hsz hcur
    have hF := storeAll_fields st fr InformationType.SIZE
    have hS := storeAll_SIZE_vars st fr hall
    have hC := storeAll_counter st fr InformationType.SIZE
    have hcc : (storeAllElementsFromGdb st fr InformationType.SIZE).1.currentState =
        State.GET_SIZE := hF.1.trans hcur
    cases hb : (storeAllElementsFromGdb st fr InformationType.SIZE).2 with
    | true =>
      rw [if_pos rfl]
      dsimp only
      obtain ⟨hdec, hcompute, hall', hnew', hpos1⟩ := hS.2 hb
      have hc1 := hC.1 hb
      refine ⟨?_, ?_, ?_, ?_, ?_, ?_⟩
      · unfold progressInv
        rw [hcc, hF.2.1, hF.2.2.1, hF.2.2.2.1, hc1]
        unfold progressInvP
        refine ⟨⟨p₀, hp, hp100, ?_⟩, ?_, ?_, ?_, ?_, ?_⟩
        · refine ⟨fun hne => hcase.1 hne, fun hpr => ⟨?_, ?_⟩⟩
          · have hmono : 25 * st.gdbResponseCounter / st.numberOfVariables ≤
                25 * (st.gdbResponseCounter + 1) / st.numberOfVariables :=
              Nat.div_le_div_right (Nat.mul_le_mul_left 25 (Nat.le_succ _))
            have hb1 := (hcase.2 hpr).1
            omega
          · have hb2 := (hcase.2 hpr).2
            omega
        · exact fun _ => ⟨by rw [hn, hcompute], hall'⟩
        · exact fun h => nomatch h
        · exact fun h => nomatch h
        · exact fun _ => by decide
        · exact fun h => absurd (hr6 h) (by rw [hcur]; decide)
      · exact hF.2.1
      · exact hF.2.2.1
      · show stateRank State.GET_SIZE ≤ stateRank
          (storeAllElementsFromGdb st fr InformationType.SIZE).1.currentState
        rw [hcc]
      · exact fun _ _ => ⟨hF.2.2.2.1, by rw [hn]; exact hpos1⟩
      · intro h _
        rw [hcc] at h
        exact nomatch h
    | false =>
      rw [if_neg Bool.false_ne_true]
      obtain ⟨hveq, hnew⟩ := hS.1 hb
      have hpp := postProcess_fields
        (storeAllElementsFromGdb st fr InformationType.SIZE).1
      unfold requestAllElementsToGdb
      dsimp only
      refine ⟨?_, ?_, ?_, ?_, ?_, ?_⟩
      · unfold progressInv
        dsimp only
        rw [hpp.2.1, hpp.2.2.1, hF.2.1, hF.2.2.1]
        unfold progressInvP
        refine ⟨⟨p₀, hp, hp100, ?_⟩, ?_, ?_, ?_, ?_, ?_⟩
        · refine ⟨fun _ => ?_, ?_⟩
          · by_cases hpr : st.previousState = State.GET_SIZE
            · have h1 := (hcase.2 hpr).1
              have h2 := (hcase.2 hpr).2
              have hcn : st.gdbResponseCounter ≤ st.numberOfVariables := by omega
              have hdl : 25 * st.gdbResponseCounter / st.numberOfVariables ≤ 25 := by
                calc 25 * st.gdbResponseCounter / st.numberOfVariables
                    ≤ 25 * st.numberOfVariables / st.numberOfVariables :=
                      Nat.div_le_div_right (Nat.mul_le_mul_left 25 hcn)
                  _ ≤ 25 := mul_div_self_le 25 st.numberOfVariables
              omega
            · have := hcase.1 hpr
              omega
          · exact fun h => absurd (hr6 h) (by rw [hcur]; decide)
        · exact fun h => nomatch h
        · exact fun _ => rfl
        · exact fun h => nomatch h
        · exact fun _ => by decide
        · exact fun _ => by decide
      · exact hpp.2.1.trans hF.2.1
      · exact hpp.2.2.1.trans hF.2.2.1
      · exact (by decide : stateRank State.GET_SIZE ≤ stateRank State.GET_ADDRESS)
      · intro h _
        exact nomatch h
      · intro _ h
        exact nomatch h
  | GET_ADDRESS =>
    dsimp only
    rw [hcur] at hcase
    dsimp only at hcase
    have hn := had hcur
    have hF := storeAll_fields st fr InformationType.ADDRESS
    have hS := storeAll_ADDRESS_vars st fr
    have hC := storeAll_counter st fr InformationType.ADDRESS
    have hcc : (storeAllElementsFromGdb st fr InformationType.ADDRESS).1.currentState =
        State.GET_ADDRESS := hF.1.trans hcur
    cases hb : (storeAllElementsFromGdb st fr InformationType.ADDRESS).2 with
    | true =>
      rw [if_pos rfl]
      dsimp only
      obtain ⟨hdec, hcompute, hallp, hnew', hpos1⟩ := hS.2 hb
      have hc1 := hC.1 hb
      refine ⟨?_, ?_, ?_, ?_, ?_, ?_⟩
      · unfold progressInv
        rw [hcc, hF.2.1, hF.2.2.1, hF.2.2.2.1, hc1]
        unfold progressInvP
        refine ⟨⟨p₀, hp, hp100, ?_⟩, ?_, ?_, ?_, ?_, ?_⟩
        · refine ⟨fun hne => hcase.1 hne, fun hpr => ⟨?_, ?_⟩⟩
          · have hmono : 25 * st.gdbResponseCounter / st.numberOfVariables ≤
                25 * (st.gdbResponseCounter + 1) / st.numberOfVariables :=
              Nat.div_le_div_right (Nat.mul_le_mul_left 25 (Nat.le_succ _))
            have hb1 := (hcase.2 hpr).1
            omega
          · have hb2 := (hcase.2 hpr).2
            omega
        · exact fun h => nomatch h
        · exact fun _ => by rw [hn, hcompute]
        · exact fun h => nomatch h
        · exact fun _ => by decide
        · exact fun _ => by decide
      · exact hF.2.1
      · exact hF.2.2.1
      · show stateRank State.GET_ADDRESS ≤ stateRank
          (storeAllElementsFromGdb st fr InformationType.ADDRESS).1.currentState
        rw [hcc]
      · intro h _
        rw [hcc] at h
        exact nomatch h
      · exact fun _ _ => ⟨hF.2.2.2.1, by rw [hn]; exact hpos1⟩
    | false =>
      rw [if_neg Bool.false_ne_true]
      refine ⟨?_, ?_, ?_, ?_, ?_, ?_⟩
      · unfold progressInv
        dsimp only
        rw [hF.2.1, hF.2.2.1]
        unfold progressInvP
        refine ⟨⟨p₀, hp, hp100, trivial⟩, ?_, ?_, ?_, ?_, ?_⟩
        · exact fun h => nomatch h
        · exact fun h => nomatch h
        · exact fun h => nomatch h
        · exact fun _ => by decide
        · exact fun _ => by decide
      · exact hF.2.1
      · exact hF.2.2.1
      · exact (by decide : stateRank State.GET_ADDRESS ≤ stateRank State.IDLE)
      · intro h _
        exact nomatch h
      · intro h _
        exact nomatch h

theorem readDataLoopGo_nil_frames :
    ∀ (fuel : Nat) (st : ElfParserState) (buf : JSStr),
      (readDataLoopGo fuel st buf).2.1 = [] → (readDataLoopGo fuel st buf).1 = st := by
  intro fuel st buf h
  cases fuel with
  | zero => rfl
  | succ k =>
    rw [readDataLoopGo] at h ⊢
    by_cases hb : buf = []
    · rw [if_pos hb]
    · rw [if_neg hb] at h ⊢
      cases hf : strFind GDB_PROMPT buf with
      | none => rfl
      | some e =>
        rw [hf] at h
        dsimp only at h
        simp at h

theorem readDataLoopGo_inv :
    ∀ (fuel : Nat) (st : ElfParserState) (buf : JSStr),
      progressInv st →
      progressInv (readDataLoopGo fuel st buf).1 ∧
      (readDataLoopGo fuel st buf).1.previousState = st.previousState ∧
      (readDataLoopGo fuel st buf).1.progressStatus = st.progressStatus ∧
      stateRank st.currentState ≤ stateRank (readDataLoopGo fuel st buf).1.currentState ∧
      ((readDataLoopGo fuel st buf).1.currentState = State.GET_SIZE →
        st.currentState = State.GET_SIZE → (readDataLoopGo fuel st buf).2.1 ≠ [] →
        1 ≤ (readDataLoopGo fuel st buf).1.numberOfVariables) ∧
      ((readDataLoopGo fuel st buf).1.currentState = State.GET_ADDRESS →
        st.currentState = State.GET_ADDRESS → (readDataLoopGo fuel st buf).2.1 ≠ [] →
        1 ≤ (readDataLoopGo fuel st buf).1.numberOfVariables) := by
  intro fuel
  induction fuel with
  | zero =>
    intro st buf hI
    exact ⟨hI, rfl, rfl, Nat.le_refl _,
      fun _ _ h => absurd rfl h, fun _ _ h => absurd rfl h⟩
  | succ k ih =>
    intro st buf hI
    rw [readDataLoopGo]
    by_cases hb : buf = []
    · rw [if_pos hb]
      exact ⟨hI, rfl, rfl, Nat.le_refl _,
        fun _ _ h => absurd rfl h, fun _ _ h => absurd rfl h⟩
    · rw [if_neg hb]
      cases hf : strFind GDB_PROMPT buf with
      | none =>
        dsimp only
        exact ⟨hI, rfl, rfl, Nat.le_refl _,
          fun _ _ h => absurd rfl h, fun _ _ h => absurd rfl h⟩
      | some e =>
        dsimp only
        have hPF := processFrame_inv
          { st with dataBuffer := buf.drop (e + 6) } (buf.take (e + 6)) hI
        have hrec := ih
          (processFrame { st with dataBuffer := buf.drop (e + 6) } (buf.take (e + 6))).1
          (buf.drop (e + 6)) hPF.1
        refine ⟨hrec.1, ?_, ?_, ?_, ?_, ?_⟩
        · exact hrec.2.1.trans hPF.2.1
        · exact hrec.2.2.1.trans hPF.2.2.1
        · exact Nat.le_trans hPF.2.2.2.1 hrec.2.2.2.1
        · intro hc1 hc2 _
          have hrank1 : stateRank (processFrame { st with dataBuffer := buf.drop (e + 6) }
              (buf.take (e + 6))).1.currentState ≤ 5 := by
            have h := hrec.2.2.2.1
            rw [hc1] at h
            exact h
          have hrank2 : 5 ≤ stateRank (processFrame { st with dataBuffer := buf.drop (e + 6) }
              (buf.take (e + 6))).1.currentState := by
            have h := hPF.2.2.2.1
            have h5 : stateRank st.currentState = 5 := by rw [hc2]; rfl
            dsimp only at h
            rw [h5] at h
            exact h
          have hpfcur := stateRank_five (Nat.le_antisymm hrank1 hrank2)
          by_cases hrf : (readDataLoopGo k
              (processFrame { st with dataBuffer := buf.drop (e + 6) }
                (buf.take (e + 6))).1 (buf.drop (e + 6))).2.1 = []
          · have hEq := readDataLoopGo_nil_frames k
              (processFrame { st with dataBuffer := buf.drop (e + 6) }
                (buf.take (e + 6))).1 (buf.drop (e + 6)) hrf
            rw [hEq]
            have hJ := hPF.2.2.2.2.1 hpfcur hc2
            rw [hJ.1]
            exact hJ.2
          · exact hrec.2.2.2.2.1 hc1 hpfcur hrf
        · intro hc1 hc2 _
          have hrank1 : stateRank (processFrame { st with dataBuffer := buf.drop (e + 6) }
              (buf.take (e + 6))).1.currentState ≤ 6 := by
            have h := hrec.2.2.2.1
            rw [hc1] at h
            exact h
          have hrank2 : 6 ≤ stateRank (processFrame { st with dataBuffer := buf.drop (e + 6) }
              (buf.take (e + 6))).1.currentState := by
            have h := hPF.2.2.2.1
            have h6 : stateRank st.currentState = 6 := by rw [hc2]; rfl
            dsimp only at h
            rw [h6] at h
            exact h
          have hpfcur := stateRank_six (Nat.le_antisymm hrank1 hrank2)
          by_cases hrf : (readDataLoopGo k
              (processFrame { st with dataBuffer := buf.drop (e + 6) }
                (buf.take (e + 6))).1 (buf.drop (e + 6))).2.1 = []
          · have hEq := readDataLoopGo_nil_frames k
              (processFrame { st with dataBuffer := buf.drop (e + 6) }
                (buf.take (e + 6))).1 (buf.drop (e + 6)) hrf
            rw [hEq]
            have hJ := hPF.2.2.2.2.2 hpfcur hc2
            rw [hJ.1]
            exact hJ.2
          · exact hrec.2.2.2.2.2 hc1 hpfcur hrf

theorem readDataLoopGo_frames_cons (k : Nat) (st : ElfParserState) (buf : JSStr)
    (e : Nat) (hb : buf ≠ []) (hf : strFind GDB_PROMPT buf = some e) :
    (readDataLoopGo (k + 1) st buf).2.1 ≠ [] := by
  rw [readDataLoopGo, if_neg hb, hf]
  dsimp only
  simp

theorem strFind_nil_of_nonempty_pat (c : Char) (p : JSStr) :
    strFind (c :: p) [] = none := by
  rw [strFind]
  simp [List.isPrefixOf]

theorem readData_spec (st : ElfParserState) (ch : JSStr) (hI : progressInv st) :
    progressInv (readData st ch).1 ∧
    (((readData st ch).2.2.2 = [] ∧
       (readData st ch).1.progressStatus = st.progressStatus) ∨
     (∃ q w, st.progressStatus = some q ∧ (readData st ch).2.2.2 = [some w] ∧
       q < w ∧ w ≤ 100 ∧ (readData st ch).1.progressStatus = some w)) := by
  unfold readData
  by_cases hinc : jsIncludes (st.dataBuffer ++ ch) GDB_PROMPT ≠ true
  · rw [if_pos hinc]
    exact ⟨hI, Or.inl ⟨rfl, rfl⟩⟩
  · rw [if_neg hinc]
    dsimp only
    unfold readDataLoop
    have hL := readDataLoopGo_inv ((st.dataBuffer ++ ch).length + 1)
      { st with dataBuffer := st.dataBuffer ++ ch } (st.dataBuffer ++ ch) hI
    have hfind : ∃ e, strFind GDB_PROMPT (st.dataBuffer ++ ch) = some e := by
      have hs : (strFind GDB_PROMPT (st.dataBuffer ++ ch)).isSome = true := by
        by_contra hcon
        exact hinc (by unfold jsIncludes; exact hcon)
      exact Option.isSome_iff_exists.mp hs
    obtain ⟨e, he⟩ := hfind
    have hbne : st.dataBuffer ++ ch ≠ [] := by
      intro hnil
      rw [hnil] at he
      have : strFind GDB_PROMPT [] = none := strFind_nil_of_nonempty_pat '(' _
      rw [this] at he
      cases he
    have hframes := readDataLoopGo_frames_cons ((st.dataBuffer ++ ch).length)
      { st with dataBuffer := st.dataBuffer ++ ch } (st.dataBuffer ++ ch) e hbne he
    obtain ⟨hr5, hr6⟩ := hI.2.2.2.2
    have hJs : (readDataLoopGo ((st.dataBuffer ++ ch).length + 1)
        { st with dataBuffer := st.dataBuffer ++ ch }
        (st.dataBuffer ++ ch)).1.currentState = State.GET_SIZE →
        (readDataLoopGo ((st.dataBuffer ++ ch).length + 1)
          { st with dataBuffer := st.dataBuffer ++ ch }
          (st.dataBuffer ++ ch)).1.previousState = State.GET_SIZE →
        1 ≤ (readDataLoopGo ((st.dataBuffer ++ ch).length + 1)
          { st with dataBuffer := st.dataBuffer ++ ch }
          (st.dataBuffer ++ ch)).1.numberOfVariables := by
      intro h1 h2
      have hprev : st.previousState = State.GET_SIZE := hL.2.1.symm.trans h2
      have hle : stateRank st.currentState ≤ 5 := by
        have h := hL.2.2.2.1
        rw [h1] at h
        exact h
      have hcurS : st.currentState = State.GET_SIZE :=
        stateRank_five (Nat.le_antisymm hle (hr5 hprev))
      exact hL.2.2.2.2.1 h1 hcurS hframes
    have hJa : (readDataLoopGo ((st.dataBuffer ++ ch).length + 1)
        { st with dataBuffer := st.dataBuffer ++ ch }
        (st.dataBuffer ++ ch)).1.currentState = State.GET_ADDRESS →
        (readDataLoopGo ((st.dataBuffer ++ ch).length + 1)
          { st with dataBuffer := st.dataBuffer ++ ch }
          (st.dataBuffer ++ ch)).1.previousState = State.GET_ADDRESS →
        1 ≤ (readDataLoopGo ((st.dataBuffer ++ ch).length + 1)
          { st with dataBuffer := st.dataBuffer ++ ch }
          (st.dataBuffer ++ ch)).1.numberOfVariables := by
      intro h1 h2
      have hprev : st.previousState = State.GET_ADDRESS := hL.2.1.symm.trans h2
      have hle : stateRank st.currentState ≤ 6 := by
        have h := hL.2.2.2.1
        rw [h1] at h
        exact h
      have hcurA : st.currentState = State.GET_ADDRESS :=
        stateRank_six (Nat.le_antisymm hle (hr6 hprev))
      exact hL.2.2.2.2.2 h1 hcurA hframes
    have hSP := sendProgress_spec
      (readDataLoopGo ((st.dataBuffer ++ ch).length + 1)
        { st with dataBuffer := st.dataBuffer ++ ch } (st.dataBuffer ++ ch)).1
      hL.1 hJs hJa
    refine ⟨hSP.1, ?_⟩
    rcases hSP.2 with ⟨hds, hps⟩ | ⟨q, w, hq, hds, hlt, hw, hps⟩
    · exact Or.inl ⟨hds, hps.trans hL.2.2.1⟩
    · exact Or.inr ⟨q, w, hL.2.2.1.symm.trans hq, hds, hlt, hw, hps⟩

theorem feedChunksP_spec :
    ∀ (chunks : List JSStr) (st : ElfParserState), progressInv st →
      ∃ ns : List Nat, (feedChunksP st chunks).2 = ns.map some ∧
        List.Chain' (fun a b => a < b) ns ∧ (∀ x ∈ ns, x ≤ 100) ∧
        (∀ q, st.progressStatus = some q → ∀ x ∈ ns, q < x) := by
  intro chunks
  induction chunks with
  | nil =>
    intro st _
    refine ⟨[], rfl, List.chain'_nil, ?_, ?_⟩
    · intro x h
      simp at h
    · intro q _ x h
      simp at h
  | cons ch rest ih =>
    intro st hI
    have hRD := readData_spec st ch hI
    obtain ⟨ns, hns, hchain, h100, hlow⟩ := ih (readData st ch).1 hRD.1
    rcases hRD.2 with ⟨hds, hps⟩ | ⟨q, w, hq, hds, hlt, hw, hps⟩
    · refine ⟨ns, ?_, hchain, h100, ?_⟩
      · show (readData st ch).2.2.2 ++ (feedChunksP (readData st ch).1 rest).2 = ns.map some
        rw [hds, hns]
        simp
      · intro q hq x hx
        exact hlow q (hps.trans hq) x hx
    · refine ⟨w :: ns, ?_, ?_, ?_, ?_⟩
      · show (readData st ch).2.2.2 ++ (feedChunksP (readData st ch).1 rest).2 =
          (w :: ns).map some
        rw [hds, hns]
        rfl
      · rw [List.chain'_cons']
        refine ⟨?_, hchain⟩
        intro y hy
        exact hlow w hps y (List.mem_of_mem_head? hy)
      · intro x hx
        rcases List.mem_cons.mp hx with hx | hx
        · rw [hx]; exact hw
        · exact h100 x hx
      · intro q' hq' x hx
        have hq'q : q' = q := by
          rw [hq'] at hq
          exact Option.some.inj hq
        rcases List.mem_cons.mp hx with hx | hx
        · rw [hx, hq'q]; exact hlt
        · have h2 := hlow w hps x hx
          rw [hq'q]
          omega

/-- **C9**: for every session with a progress callback — the parser state
produced by a successful `readElf` with a `progressCallback` installed, fed an
arbitrary sequence of data chunks through `readData` — the sequence of values
delivered to the progress callback is a sequence of integers between 0 and 100
that is monotonically non-decreasing (in fact strictly increasing), and the
callback is never invoked twice in a row with the same value. -/
theorem claim_C9_progress_monotonic (chunks : List JSStr) (cb : Nat) (expand : Bool)
    (pcb : Nat) :
    ∃ ns : List Nat,
      (feedChunksP (readElf constructorState true cb expand (some pcb)).1 chunks).2 =
        ns.map some ∧
      List.Chain' (fun a b => a < b) ns ∧ ∀ x ∈ ns, x ≤ 100 := by
  have hI0 : progressInv (readElf constructorState true cb expand (some pcb)).1 := by
    show progressInvP State.START_GDB State.IDLE (some 0) 0 0 [] 0 0
    unfold progressInvP
    refine ⟨⟨0, rfl, by omega, rfl⟩, ?_, ?_, ?_, ?_, ?_⟩
    · intro h; cases h
    · intro h; cases h
    · intro h; cases h
    · intro h; cases h
    · intro h; cases h
  obtain ⟨ns, hns, hchain, h100, _⟩ :=
    feedChunksP_spec chunks (readElf constructorState true cb expand (some pcb)).1 hI0
  exact ⟨ns, hns, hchain, h100⟩
